import Mathlib

/-! A shallow embedding of the resolution engine of goal-web/container.

The Go package keeps three stores (bindings, singletons, instances) and an
alias table, resolves the parameters of callables through an ordered chain
of argument providers, and injects struct fields through the same chain.

Conventions of the embedding

* `interface{}` values are `Value`; the nil interface is `Value.nil`.
* `reflect.Type` is `GoType`; what the package asks of `reflect` and of
  `utils.GetTypeKey` is collected in `Reflect` and taken as a parameter.
* Go maps used only through lookup and store are lookup functions
  `String → Option α`; `ArgumentsTypeMap`, which is also ranged over, is an
  association list whose order stands for the iteration order.
* `exceptions.Throw` and runtime panics are `Except.error`; every stateful
  operation returns the state it leaves behind together with its outcome.
* the recursion `findArg → GetByArguments / DIByArguments → findArg` is
  bounded by a fuel counter that is decreased at every nested `findArg`.
-/

namespace Goal

/-! ## Types and values -/

/-- A `reflect.Type`: a named type or a pointer to a type. -/
inductive GoType where
  | named (name : String)
  | ptr (elem : GoType)
deriving DecidableEq, Repr

/-- The part of `reflect.Kind` the package looks at. -/
inductive Kind where
  | Invalid
  | Ptr
  | Struct
  | Other
deriving DecidableEq, Repr

/-- An `interface{}` value. `ptr elem target` is a pointer of type `*elem`
whose pointee currently holds `target`; `container` is the `*Container`
that `StaticCall` and `DI` append to the supplied arguments. -/
inductive Value where
  | nil
  | scalar (ty : GoType) (repr : String)
  | struct (ty : GoType) (fields : List Value)
  | ptr (elem : GoType) (target : Value)
  | container

/-- The type `*Container`. -/
def containerType : GoType := GoType.ptr (GoType.named "container.Container")

/-- Go `reflect.TypeOf`: the dynamic type, `none` for the nil interface. -/
def TypeOf : Value → Option GoType
  | Value.nil => none
  | Value.scalar ty _ => some ty
  | Value.struct ty _ => some ty
  | Value.ptr elem _ => some (GoType.ptr elem)
  | Value.container => some containerType

/-- The test `value != nil` on an `interface{}`. -/
def Value.isNil : Value → Bool
  | Value.nil => true
  | _ => false

/-- Go `reflect.ValueOf(v).Kind()`. -/
def Value.Kind : Value → Kind
  | Value.nil => Kind.Invalid
  | Value.scalar _ _ => Kind.Other
  | Value.struct _ _ => Kind.Struct
  | Value.ptr _ _ => Kind.Ptr
  | Value.container => Kind.Ptr

/-- Go `reflect.Type.Kind() == reflect.Ptr`. -/
def GoType.isPtr : GoType → Bool
  | GoType.ptr _ => true
  | GoType.named _ => false

/-- Go `reflect.Type.Elem()` of a pointer type. -/
def GoType.Elem : GoType → GoType
  | GoType.ptr e => e
  | t => t

/-- The panics and thrown errors of the package. -/
inductive Err where
  | CallerTypeError
  | notStructPointer
  | typeMismatch (field : String) (target : String) (got : String)
  | notCallable
  | indexOutOfRange
  | nilType
  | construct (code : Nat)
  | outOfFuel
deriving DecidableEq, Repr

/-- A struct field as `DIByArguments` reads it: `di` is the result of
looking up `"di"` in the parsed tag (`none`: no such tag). Fields are taken
to be exported, so that `reflect` may set them. -/
structure Field where
  name : String
  type : GoType
  di : Option (List String)
deriving DecidableEq, Repr

/-- Modelled from the spec: the invokable descriptor (`contracts.MagicalFunc`,
whose implementation is not among the sources) "wraps a callable, exposing
its ordered parameter types, its return types, and an invoke operation that,
given positional argument values, executes the callable and returns its
results". `id` is a label by which the invocation log tells callables apart. -/
structure MagicalFunc where
  id : Nat
  arguments : List GoType
  returns : List GoType
  call : List Value → List Value

/-- Go `MagicalFunc.NumOut()`. -/
def MagicalFunc.NumOut (m : MagicalFunc) : Nat := m.returns.length

/-- What may be passed where the package takes a callable as `interface{}`:
a Go function, an already built descriptor, or some other value. -/
inductive Fn where
  | func (m : MagicalFunc)
  | magical (m : MagicalFunc)
  | other (v : Value)

/-- Modelled from the spec: `NewMagicalFunc` (its file is not among the
sources) turns a callable into its descriptor and "fails with a
descriptor-construction error if the wrapped value is not callable". -/
def NewMagicalFunc (fn : Fn) : Except Err MagicalFunc :=
  match fn with
  | Fn.func m => Except.ok m
  | Fn.magical _ => Except.error Err.notCallable
  | Fn.other _ => Except.error Err.notCallable

/-! ## The container state -/

/-- The four stores of `Container` (`argProviders` is fixed by `New` and is
the function `argProviders` below). -/
structure Container where
  binds : String → Option MagicalFunc
  singletons : String → Option MagicalFunc
  instances : String → Option Value
  aliases : String → Option String

/-- What the log records: a callable was invoked on these arguments, or a
component's `Construct` was called on this object. -/
inductive Event where
  | invoke (fn : Nat) (args : List Value)
  | construct (object : Value)

/-- The container together with the log of user code it has run. -/
structure World where
  container : Container
  log : List Event

/-- The outcome of a stateful operation and the state it leaves. -/
abbrev Res (α : Type) := Except Err α × World

/-- What the package needs from `reflect`, `utils.GetTypeKey`,
`utils.ParseStructTag` and from the user's `Construct` methods. -/
structure Reflect where
  /-- Go `utils.GetTypeKey`. -/
  typeKey : GoType → String
  /-- Go `Type.ConvertibleTo`. -/
  convertibleTo : GoType → GoType → Bool
  /-- Go `Value.Convert(t).Interface()`. -/
  convert : Value → GoType → Value
  /-- Go `reflect.New(t).Elem()`: the zero value of `t`. -/
  zero : GoType → Value
  /-- The fields of a struct type, with their parsed tags. -/
  fields : GoType → List Field
  /-- Go `Type.String()`. -/
  typeString : GoType → String
  /-- Whether values of this dynamic type implement `contracts.Component`. -/
  isComponent : GoType → Bool
  /-- The body of `Construct(container)`: user code, which sees the object
  and the container and may change both or panic. -/
  construct : Value → Container → Except Err Value × Container

/-- Store into a Go map / `sync.Map`. -/
def store {α : Type} (m : String → Option α) (k : String) (v : α) : String → Option α :=
  fun k' => if k' = k then some v else m k'

/-! ## arguments.go -/

/-- The Go type `map[string][]interface{}`; the list order is the order in which
`range` visits the buckets. -/
abbrev ArgumentsTypeMap := List (String × List Value)

/-- The read `this[key]` of a bucket (`none`: no such key). -/
def ArgumentsTypeMap.bucket (this : ArgumentsTypeMap) (key : String) : Option (List Value) :=
  match this with
  | [] => none
  | (k, b) :: rest => if k = key then some b else ArgumentsTypeMap.bucket rest key

/-- The write `this[key] = b`: the bucket is replaced where the key exists
and added otherwise. -/
def ArgumentsTypeMap.setBucket (this : ArgumentsTypeMap) (key : String) (b : List Value) :
    ArgumentsTypeMap :=
  match this with
  | [] => [(key, b)]
  | (k, b0) :: rest =>
    if k = key then (k, b) :: rest else (k, b0) :: ArgumentsTypeMap.setBucket rest key b

/-- The loop of `NewArgumentsTypeMap`. `reflect.TypeOf(nil)` is the nil
`Type`, of which `GetTypeKey` cannot take the key: a nil argument panics. -/
def NewArgumentsTypeMap.loop (R : Reflect) :
    List Value → ArgumentsTypeMap → Except Err ArgumentsTypeMap
  | [], argsTypeMap => Except.ok argsTypeMap
  | arg :: rest, argsTypeMap =>
    match TypeOf arg with
    | none => Except.error Err.nilType
    | some t =>
      let argTypeKey := R.typeKey t
      NewArgumentsTypeMap.loop R rest
        (argsTypeMap.setBucket argTypeKey ((argsTypeMap.bucket argTypeKey).getD [] ++ [arg]))

/-- Go `NewArgumentsTypeMap(args)`. -/
def NewArgumentsTypeMap (R : Reflect) (args : List Value) : Except Err ArgumentsTypeMap :=
  NewArgumentsTypeMap.loop R args []

/-- Go `this.Pull(key)`: the returned argument and the map afterwards. -/
def Pull (this : ArgumentsTypeMap) (key : String) : Value × ArgumentsTypeMap :=
  match this.bucket key with
  | some (arg :: item) => (arg, this.setBucket key item)
  | _ => (Value.nil, this)

/-- The inner loop of `FindConvertibleArg` over one bucket: `none` when the
bucket holds no convertible argument. Calling `ConvertibleTo` on the nil
type of a nil entry panics. -/
def FindConvertibleArg.inBucket (R : Reflect) (targetKey : String) (targetType : GoType)
    (key : String) : List Value → Except Err (Option Value)
  | [] => Except.ok none
  | arg :: rest =>
    match TypeOf arg with
    | none => Except.error Err.nilType
    | some t =>
      if R.convertibleTo t targetType then
        if key ≠ targetKey then Except.ok (some (R.convert arg targetType))
        else Except.ok (some arg)
      else FindConvertibleArg.inBucket R targetKey targetType key rest

/-- Go `this.FindConvertibleArg(targetKey, targetType)`. -/
def FindConvertibleArg (R : Reflect) (this : ArgumentsTypeMap) (targetKey : String)
    (targetType : GoType) : Except Err Value :=
  match this with
  | [] => Except.ok Value.nil
  | (key, args) :: rest =>
    match FindConvertibleArg.inBucket R targetKey targetType key args with
    | Except.error e => Except.error e
    | Except.ok (some v) => Except.ok v
    | Except.ok none => FindConvertibleArg R rest targetKey targetType

/-! ## container.go: registration and keys -/

/-- Go `newInstanceProvider`: the descriptor of a provider, which must have
exactly one return value. -/
def newInstanceProvider (provider : Fn) : Except Err MagicalFunc :=
  match NewMagicalFunc provider with
  | Except.error e => Except.error e
  | Except.ok magicalFn =>
    if magicalFn.NumOut ≠ 1 then Except.error Err.CallerTypeError else Except.ok magicalFn

/-- Go `container.GetKey(alias)`; the parameter `alias` is called `name` here. -/
def Container.GetKey (c : Container) (name : String) : String :=
  match c.aliases name with
  | some value => value
  | none => name

/-- Go `container.Alias(key, alias)`; the parameter `alias` is called `name` here. -/
def Container.Alias (c : Container) (key : String) (name : String) : Container :=
  { c with aliases := store c.aliases name key }

/-- Go `container.Instance(key, instance)`. -/
def Container.Instance (c : Container) (key : String) (inst : Value) : Container :=
  { c with instances := store c.instances (c.GetKey key) inst }

/-- Go `container.Bind(key, provider)`: the outcome and the container it leaves. -/
def Container.Bind (R : Reflect) (c : Container) (key : String) (provider : Fn) :
    Except Err Unit × Container :=
  match newInstanceProvider provider with
  | Except.error e => (Except.error e, c)
  | Except.ok magicalFn =>
    let c1 : Container := { c with binds := store c.binds (c.GetKey key) magicalFn }
    match magicalFn.returns with
    | [] => (Except.error Err.indexOutOfRange, c1)
    | r :: _ => (Except.ok (), c1.Alias key (R.typeKey r))

/-- Go `container.Singleton(key, provider)`: the outcome and the container it leaves. -/
def Container.Singleton (R : Reflect) (c : Container) (key : String) (provider : Fn) :
    Except Err Unit × Container :=
  match newInstanceProvider provider with
  | Except.error e => (Except.error e, c)
  | Except.ok magicalFn =>
    let c1 : Container := { c with singletons := store c.singletons (c.GetKey key) magicalFn }
    match magicalFn.returns with
    | [] => (Except.error Err.indexOutOfRange, c1)
    | r :: _ => (Except.ok (), c1.Alias key (R.typeKey r))

/-- Go `container.HasBound(key)`. -/
def Container.HasBound (c : Container) (key : String) : Bool :=
  let key := c.GetKey key
  if (c.binds key).isSome then true
  else if (c.singletons key).isSome then true
  else if (c.instances key).isSome then true
  else false

/-- Go `container.Flush()`. -/
def Container.Flush (_c : Container) : Container :=
  { binds := fun _ => none, singletons := fun _ => none,
    instances := fun _ => none, aliases := fun _ => none }

/-- Go `New()`: the stores of a freshly built container, which `New` leaves
as `Flush` sets them. -/
def New : Container :=
  Container.Flush
    { binds := fun _ => none, singletons := fun _ => none,
      instances := fun _ => none, aliases := fun _ => none }

/-! ## container.go: resolution -/

/-- The signature of `container.findArg`: the value found and the argument
map afterwards, with the state left behind. -/
abbrev FindArg := String → GoType → ArgumentsTypeMap → World → Res (Value × ArgumentsTypeMap)

/-- The first loop of `StaticCallByArguments`: one `findArg` per declared
parameter, in order, on the shared argument map. `find` is
`container.findArg` at the depth left for nested resolutions. -/
def StaticCallByArguments.collect (R : Reflect) (find : FindArg) :
    List GoType → List Value → ArgumentsTypeMap → World → Res (List Value × ArgumentsTypeMap)
  | [], fnArgs, arguments, w => (Except.ok (fnArgs, arguments), w)
  | arg :: rest, fnArgs, arguments, w =>
    match find (R.typeKey arg) arg arguments w with
    | (Except.error e, w1) => (Except.error e, w1)
    | (Except.ok (v, arguments1), w1) =>
      StaticCallByArguments.collect R find rest (fnArgs ++ [v]) arguments1 w1

/-- Go `container.StaticCallByArguments(magicalFn, arguments)`: the results of
the call and the argument map afterwards; the invocation is logged. -/
def StaticCallByArguments (R : Reflect) (find : FindArg) (magicalFn : MagicalFunc)
    (arguments : ArgumentsTypeMap) (w : World) : Res (List Value × ArgumentsTypeMap) :=
  match StaticCallByArguments.collect R find magicalFn.arguments [] arguments w with
  | (Except.error e, w1) => (Except.error e, w1)
  | (Except.ok (fnArgs, arguments1), w1) =>
    (Except.ok (magicalFn.call fnArgs, arguments1),
      { w1 with log := w1.log ++ [Event.invoke magicalFn.id fnArgs] })

/-- Go `container.StaticCall(magicalFn, args...)`. -/
def StaticCall (R : Reflect) (find : FindArg) (magicalFn : MagicalFunc) (args : List Value)
    (w : World) : Res (List Value) :=
  match NewArgumentsTypeMap R (args ++ [Value.container]) with
  | Except.error e => (Except.error e, w)
  | Except.ok arguments =>
    match StaticCallByArguments R find magicalFn arguments w with
    | (Except.error e, w1) => (Except.error e, w1)
    | (Except.ok (results, _), w1) => (Except.ok results, w1)

/-- Go `container.Call(fn, args...)`. -/
def Call (R : Reflect) (find : FindArg) (fn : Fn) (args : List Value) (w : World) :
    Res (List Value) :=
  match fn with
  | Fn.magical magicalFn => StaticCall R find magicalFn args w
  | _ =>
    match NewMagicalFunc fn with
    | Except.error e => (Except.error e, w)
    | Except.ok magicalFn => StaticCall R find magicalFn args w

/-- The write `container.instances.Store(key, value)`. -/
def World.storeInstance (w : World) (key : String) (value : Value) : World :=
  { w with container := { w.container with instances := store w.container.instances key value } }

/-- Go `container.Get(key, args...)`. -/
def Get (R : Reflect) (find : FindArg) (key : String) (args : List Value) (w : World) :
    Res Value :=
  let key := w.container.GetKey key
  match w.container.instances key with
  | some tempInstance => (Except.ok tempInstance, w)
  | none =>
    match w.container.singletons key with
    | some singletonProvider =>
      match Call R find (Fn.magical singletonProvider) args w with
      | (Except.error e, w1) => (Except.error e, w1)
      | (Except.ok [], w1) => (Except.error Err.indexOutOfRange, w1)
      | (Except.ok (value :: _), w1) => (Except.ok value, w1.storeInstance key value)
    | none =>
      match w.container.binds key with
      | some instanceProvider =>
        match Call R find (Fn.magical instanceProvider) args w with
        | (Except.error e, w1) => (Except.error e, w1)
        | (Except.ok [], w1) => (Except.error Err.indexOutOfRange, w1)
        | (Except.ok (value :: _), w1) => (Except.ok value, w1)
      | none => (Except.ok Value.nil, w)

/-- Go `container.GetByArguments(key, arguments)`. -/
def GetByArguments (R : Reflect) (find : FindArg) (key : String)
    (arguments : ArgumentsTypeMap) (w : World) : Res (Value × ArgumentsTypeMap) :=
  let key := w.container.GetKey key
  match w.container.instances key with
  | some tempInstance => (Except.ok (tempInstance, arguments), w)
  | none =>
    match w.container.singletons key with
    | some singletonProvider =>
      match StaticCallByArguments R find singletonProvider arguments w with
      | (Except.error e, w1) => (Except.error e, w1)
      | (Except.ok ([], _), w1) => (Except.error Err.indexOutOfRange, w1)
      | (Except.ok (value :: _, arguments1), w1) =>
        (Except.ok (value, arguments1), w1.storeInstance key value)
    | none =>
      match w.container.binds key with
      | some instanceProvider =>
        match StaticCallByArguments R find instanceProvider arguments w with
        | (Except.error e, w1) => (Except.error e, w1)
        | (Except.ok ([], _), w1) => (Except.error Err.indexOutOfRange, w1)
        | (Except.ok (value :: _, arguments1), w1) => (Except.ok (value, arguments1), w1)
      | none => (Except.ok (Value.nil, arguments), w)

/-- The type assertion `object.(contracts.Component)`. -/
def isComponent (R : Reflect) (object : Value) : Bool :=
  match TypeOf object with
  | some t => R.isComponent t
  | none => false

/-- The resolution of one field in `DIByArguments`: nothing without a `di`
tag; with a tag that names a key, `Get` of that key first; `findArg` on the
field type when that gave nil or no key is named. -/
def DIByArguments.resolve (R : Reflect) (find : FindArg) (field : Field)
    (arguments : ArgumentsTypeMap) (w : World) : Res (Value × ArgumentsTypeMap) :=
  let key := R.typeKey field.type
  match field.di with
  | none => (Except.ok (Value.nil, arguments), w)
  | some [] => find key field.type arguments w
  | some (k :: _) =>
    match Get R find k [] w with
    | (Except.error e, w1) => (Except.error e, w1)
    | (Except.ok fieldInterface, w1) =>
      if fieldInterface.isNil then find key field.type arguments w1
      else (Except.ok (fieldInterface, arguments), w1)

/-- The field loop of `DIByArguments` from index `i` on; `temp` holds the
fields of `tempValue`. A resolved value is nil exactly when it has no
dynamic type. -/
def DIByArguments.walk (R : Reflect) (find : FindArg) :
    List Field → Nat → List Value → ArgumentsTypeMap → World →
      Res (List Value × ArgumentsTypeMap)
  | [], _, temp, arguments, w => (Except.ok (temp, arguments), w)
  | field :: rest, i, temp, arguments, w =>
    match DIByArguments.resolve R find field arguments w with
    | (Except.error e, w1) => (Except.error e, w1)
    | (Except.ok (fieldInterface, arguments1), w1) =>
      match TypeOf fieldInterface with
      | none => DIByArguments.walk R find rest (i + 1) temp arguments1 w1
      | some fieldType =>
        if R.convertibleTo fieldType field.type then
          let value :=
            if R.typeKey field.type ≠ R.typeKey fieldType then R.convert fieldInterface field.type
            else fieldInterface
          DIByArguments.walk R find rest (i + 1) (temp.set i value) arguments1 w1
        else
          (Except.error
            (Err.typeMismatch field.name (R.typeString field.type) (R.typeString fieldType)), w1)

/-- Go `container.DIByArguments(object, arguments)`: the object as the call
leaves it (the pointee is updated in place in Go) and the argument map
afterwards. The container itself is a pointer to a struct none of whose
fields carries a tag. -/
def DIByArguments (R : Reflect) (find : FindArg) (object : Value)
    (arguments : ArgumentsTypeMap) (w : World) : Res (Value × ArgumentsTypeMap) :=
  if isComponent R object then
    match R.construct object w.container with
    | (Except.error e, c1) =>
      (Except.error e, { container := c1, log := w.log ++ [Event.construct object] })
    | (Except.ok object1, c1) =>
      (Except.ok (object1, arguments),
        { container := c1, log := w.log ++ [Event.construct object] })
  else
    match object with
    | Value.ptr elem (Value.struct valueType fields) =>
      match DIByArguments.walk R find (R.fields valueType) 0 fields arguments w with
      | (Except.error e, w1) => (Except.error e, w1)
      | (Except.ok (temp, arguments1), w1) =>
        (Except.ok (Value.ptr elem (Value.struct valueType temp), arguments1), w1)
    | Value.container => (Except.ok (object, arguments), w)
    | _ => (Except.error Err.notStructPointer, w)

/-- Go `reflect.ValueOf(p).Elem().Interface()`: what a pointer points to. -/
def Value.Elem : Value → Value
  | Value.ptr _ target => target
  | v => v

/-- An entry of `container.argProviders`. -/
abbrev Provider := String → GoType → ArgumentsTypeMap → World → Res (Value × ArgumentsTypeMap)

/-- The first provider: an exact-type `Pull`. -/
def providerPull : Provider :=
  fun key _ arguments w => (Except.ok (Pull arguments key), w)

/-- The second provider: a convertible supplied argument. -/
def providerConvertible (R : Reflect) : Provider :=
  fun key argType arguments w =>
    match FindConvertibleArg R arguments key argType with
    | Except.error e => (Except.error e, w)
    | Except.ok v => (Except.ok (v, arguments), w)

/-- The third provider: the registry. -/
def providerRegistry (R : Reflect) (find : FindArg) : Provider :=
  fun key _ arguments w => GetByArguments R find key arguments w

/-- The fourth provider: a new object of the type, injected by the container. -/
def providerNew (R : Reflect) (find : FindArg) : Provider :=
  fun _ argType arguments w =>
    let isPtr := argType.isPtr
    let tempInstance :=
      if isPtr then Value.ptr argType.Elem (R.zero argType.Elem)
      else Value.ptr argType (R.zero argType)
    match DIByArguments R find tempInstance arguments w with
    | (Except.error e, w1) => (Except.error e, w1)
    | (Except.ok (tempInstance1, arguments1), w1) =>
      if isPtr then (Except.ok (tempInstance1, arguments1), w1)
      else (Except.ok (tempInstance1.Elem, arguments1), w1)

/-- Go `container.argProviders` as `New` sets it. -/
def argProviders (R : Reflect) (find : FindArg) : List Provider :=
  [providerPull, providerConvertible R, providerRegistry R find, providerNew R find]

/-- The loop of `findArg` over the providers. -/
def findArg.loop : List Provider → FindArg
  | [], _, _, arguments, w => (Except.ok (Value.nil, arguments), w)
  | provider :: rest, key, p, arguments, w =>
    match provider key p arguments w with
    | (Except.error e, w1) => (Except.error e, w1)
    | (Except.ok (value, arguments1), w1) =>
      if value.isNil then findArg.loop rest key p arguments1 w1
      else (Except.ok (value, arguments1), w1)

/-- Go `container.findArg(key, p, arguments)` with `fuel` levels of nested
resolution left. -/
def findArg (R : Reflect) : Nat → FindArg
  | 0 => fun _ _ _ w => (Except.error Err.outOfFuel, w)
  | fuel + 1 => fun key p arguments w =>
    findArg.loop (argProviders R (findArg R fuel)) key p arguments w

/-- Go `container.DI(object, args...)`. -/
def DI (R : Reflect) (find : FindArg) (object : Value) (args : List Value) (w : World) :
    Res Value :=
  match NewArgumentsTypeMap R (args ++ [Value.container]) with
  | Except.error e => (Except.error e, w)
  | Except.ok arguments =>
    match DIByArguments R find object arguments w with
    | (Except.error e, w1) => (Except.error e, w1)
    | (Except.ok (object1, _), w1) => (Except.ok object1, w1)

/-! ## Scenarios: supplied arguments -/

/-- Whether `k` is the type key of the value `v`. -/
def hasKey (R : Reflect) (k : String) (v : Value) : Bool :=
  match TypeOf v with
  | some t => decide (R.typeKey t = k)
  | none => false

/-- The values returned by `n` consecutive calls `Pull(key)` and the map
after the last. -/
def PullRepeat (key : String) : Nat → ArgumentsTypeMap → List Value × ArgumentsTypeMap
  | 0, this => ([], this)
  | n + 1, this =>
    let r := Pull this key
    let rest := PullRepeat key n r.2
    (r.1 :: rest.1, rest.2)

/-! ## Scenarios: sequences of calls -/

/-- One of the registration calls `Instance`, `Bind`, `Singleton`, `Alias`. -/
inductive Registration where
  | Instance (key : String) (inst : Value)
  | Bind (key : String) (provider : Fn)
  | Singleton (key : String) (provider : Fn)
  | Alias (key : String) (name : String)

/-- The container a registration call leaves behind, whether it returned
or panicked. -/
def Registration.apply (R : Reflect) (c : Container) : Registration → Container
  | Registration.Instance key inst => c.Instance key inst
  | Registration.Bind key provider => (c.Bind R key provider).2
  | Registration.Singleton key provider => (c.Singleton R key provider).2
  | Registration.Alias key name => c.Alias key name

/-- The container after a sequence of registration calls. -/
def Registration.applyAll (R : Reflect) (c : Container) (ops : List Registration) : Container :=
  ops.foldl (Registration.apply R) c

/-- The key and alias-name arguments of a registration call. -/
def Registration.keyArgs : Registration → List String
  | Registration.Instance key _ => [key]
  | Registration.Bind key _ => [key]
  | Registration.Singleton key _ => [key]
  | Registration.Alias key name => [key, name]

/-- The type key of the first return value of a provider that
`newInstanceProvider` accepts: the alias name `Bind` and `Singleton`
register by themselves. -/
def returnKey (R : Reflect) (provider : Fn) : Option String :=
  match newInstanceProvider provider with
  | Except.error _ => none
  | Except.ok magicalFn => (magicalFn.returns.head?).map R.typeKey

/-- What a registration call made in state `c` must avoid to leave the
instance registered under `K` alone: an `Instance` key that resolves to the
canonical key of `K`, an alias name equal to `K`, and a provider whose
return-type key is `K`. -/
def Registration.sparesInstance (R : Reflect) (K : String) (c : Container) : Registration → Prop
  | Registration.Instance key _ => c.GetKey key ≠ c.GetKey K
  | Registration.Bind _ provider => returnKey R provider ≠ some K
  | Registration.Singleton _ provider => returnKey R provider ≠ some K
  | Registration.Alias _ name => name ≠ K

/-- Every call of the sequence spares the instance under `K` in the state
in which it is made. -/
def Registration.allSpare (R : Reflect) (K : String) : Container → List Registration → Prop
  | _, [] => True
  | c, op :: ops =>
    Registration.sparesInstance R K c op ∧ Registration.allSpare R K (Registration.apply R c op) ops

/-- The outcomes of `n` consecutive calls `Get(key, args...)` and the state
after the last. -/
def GetRepeat (R : Reflect) (find : FindArg) (key : String) (args : List Value) :
    Nat → World → List (Except Err Value) × World
  | 0, w => ([], w)
  | n + 1, w =>
    let r := Get R find key args w
    let rest := GetRepeat R find key args n r.2
    (r.1 :: rest.1, rest.2)

/-! ## Example types and containers -/

/-- The example type `string`. -/
def tString : GoType := GoType.named "string"

/-- The example struct type `DemoParam`, with the one untagged field `Id string`. -/
def tDemoParam : GoType := GoType.named "DemoParam"

/-- The example struct type `Holder`, with the one field `Config string`
tagged `di:"config"`. -/
def tHolder : GoType := GoType.named "Holder"

/-- An injective type key: the name, with a star for each pointer. -/
def exTypeKey : GoType → String
  | GoType.named n => n
  | GoType.ptr e => "*" ++ exTypeKey e

/-- The zero values of the example types. -/
def exZero (t : GoType) : Value :=
  if t = GoType.named "contracts.Model" then Value.nil
  else if t = tDemoParam then Value.struct t [Value.scalar tString ""]
  else if t = tHolder then Value.struct t [Value.scalar tString ""]
  else Value.scalar t ""

/-- The fields of the example struct types. -/
def exFields (t : GoType) : List Field :=
  if t = tDemoParam then [{ name := "Id", type := tString, di := none }]
  else if t = tHolder then [{ name := "Config", type := tString, di := some ["config"] }]
  else []

/-- An example of `Reflect`: only identical types convert, and no type is
a component. -/
def exR : Reflect :=
  { typeKey := exTypeKey
    convertibleTo := fun t u => decide (t = u)
    convert := fun v _ => v
    zero := exZero
    fields := exFields
    typeString := exTypeKey
    isComponent := fun _ => false
    construct := fun v c => (Except.ok v, c) }

/-- A string value. -/
def str (s : String) : Value := Value.scalar tString s

/-- The `DemoParam` value with the given `Id`. -/
def demoParam (id : String) : Value := Value.struct tDemoParam [str id]

/-- The callable `func() string` that returns `"made"`. -/
def fnMadeString : MagicalFunc :=
  { id := 1, arguments := [], returns := [tString], call := fun _ => [str "made"] }

/-- A world with an empty log. -/
def worldOf (c : Container) : World := { container := c, log := [] }

/-- The callable `func(h Holder) DemoParam`. -/
def fnNeedsHolder : MagicalFunc :=
  { id := 2, arguments := [tHolder], returns := [tDemoParam],
    call := fun _ => [Value.struct tDemoParam [str "x"]] }

/-- A fresh container on which a `DemoParam` value is registered as the
instance under `"config"` and `fnNeedsHolder` as a singleton under `"S"`. -/
def cMismatch : Container :=
  ((New.Instance "config" (demoParam "42")).Singleton exR "S" (Fn.func fnNeedsHolder)).2

/-- Three registrations under keys other than `"a"`. -/
def exOps : List Registration :=
  [Registration.Bind "foo" (Fn.func fnMadeString), Registration.Alias "foo" "F",
    Registration.Instance "F" (str "w")]

/-- A fresh container with `fnMadeString` registered as a singleton under
`"S"`, and an empty log. -/
def wSingleton : World :=
  { container := (New.Singleton exR "S" (Fn.func fnMadeString)).2, log := [] }

/-- A fresh container with the instance `v` under `"a"` and `"A"` as an
alias of `"a"`. -/
def cAliased : Container := (New.Instance "a" (str "v")).Alias "a" "A"

/-- A fresh container on which `"nick"` is an alias of `"real"`. -/
def cNick : Container := New.Alias "real" "nick"

/-- The callable `func() string` that returns `"bound"`. -/
def fnBound : MagicalFunc :=
  { id := 3, arguments := [], returns := [tString], call := fun _ => [str "bound"] }

/-- A fresh container with, under `"p"`, a binding, a singleton factory and
an instance; under `"q"`, a binding and a singleton factory; under `"r"`, a
binding. -/
def cPrec : Container :=
  Registration.applyAll exR New
    [Registration.Bind "p" (Fn.func fnBound), Registration.Singleton "p" (Fn.func fnMadeString),
      Registration.Instance "p" (str "pinned"),
      Registration.Bind "q" (Fn.func fnBound), Registration.Singleton "q" (Fn.func fnMadeString),
      Registration.Bind "r" (Fn.func fnBound)]

/-- The callable `func() DemoParam` of the tests, which returns a
`DemoParam` saying that it comes from the container. -/
def fnFromContainer : MagicalFunc :=
  { id := 4, arguments := [], returns := [tDemoParam],
    call := fun _ => [demoParam "from container"] }

/-- A fresh container with `fnFromContainer` bound under `"DemoParam"`. -/
def cDemo : Container := (New.Bind exR "DemoParam" (Fn.func fnFromContainer)).2

/-- The argument map of a call that supplies one `DemoParam`. -/
def argsGiven : ArgumentsTypeMap :=
  [("DemoParam", [demoParam "given"]), ("*container.Container", [Value.container])]

/-- The argument map of a call that supplies nothing. -/
def argsNone : ArgumentsTypeMap := [("*container.Container", [Value.container])]

/-- The example interface type `contracts.Model`. -/
def tModel : GoType := GoType.named "contracts.Model"

/-- The callable `func(name string, model contracts.Model)` of
`TestDIDontDefineValue`. -/
def fnNameModel : MagicalFunc :=
  { id := 5, arguments := [tString, tModel], returns := [], call := fun _ => [] }

/-- The callable `func(x string, y string) string` that joins its two
arguments with a dash. -/
def fnJoin : MagicalFunc :=
  { id := 6, arguments := [tString, tString], returns := [tString],
    call := fun args =>
      match args with
      | [Value.scalar _ x, Value.scalar _ y] => [str (x ++ "-" ++ y)]
      | _ => [str "?"] }

/-- The third and fourth providers only: the registry and, failing that, a
new object. -/
def registryOrNew (R : Reflect) (find : FindArg) : FindArg :=
  findArg.loop [providerRegistry R find, providerNew R find]

/-- A fresh container with `fnMadeString` registered as a singleton
factory under `"k"`. -/
def cShadow : Container := (New.Singleton exR "k" (Fn.func fnMadeString)).2

/-- The example struct type `DemoStruct` of the tests, with the fields
`Param DemoParam` tagged `di:""` and `Config string` tagged `di:"config"`. -/
def tDemoStruct : GoType := GoType.named "DemoStruct"

/-- The example struct type `DemoStruct2` of the tests, which embeds a
`DemoStruct` (an untagged field) and has a `Construct` method on its
pointer. -/
def tDemoStruct2 : GoType := GoType.named "DemoStruct2"

/-- The example struct type `Pair`, with the fields `First string` tagged
`di:"first"` and `Second string` tagged `di:"second"`. -/
def tPair : GoType := GoType.named "Pair"

/-- The example struct type `Outer`, with the one field `Inner Holder`
tagged `di:""`. -/
def tOuter : GoType := GoType.named "Outer"

/-- The example struct type `Mixed`, with the untagged field `Name string`
and the field `Config string` tagged `di:"config"`. -/
def tMixed : GoType := GoType.named "Mixed"

/-- The example named type `AliasParam`, declared as `type AliasParam
DemoParam` in the tests. -/
def tAliasParam : GoType := GoType.named "AliasParam"

/-- A `DemoStruct` value. -/
def demoStruct (param : Value) (config : String) : Value :=
  Value.struct tDemoStruct [param, str config]

/-- The fields of the struct types of the injection examples. -/
def diFields (t : GoType) : List Field :=
  if t = tDemoStruct then
    [{ name := "Param", type := tDemoParam, di := some [] },
      { name := "Config", type := tString, di := some ["config"] }]
  else if t = tDemoStruct2 then [{ name := "DemoStruct", type := tDemoStruct, di := none }]
  else if t = tPair then
    [{ name := "First", type := tString, di := some ["first"] },
      { name := "Second", type := tString, di := some ["second"] }]
  else if t = tOuter then [{ name := "Inner", type := tHolder, di := some [] }]
  else if t = tMixed then
    [{ name := "Name", type := tString, di := none },
      { name := "Config", type := tString, di := some ["config"] }]
  else exFields t

/-- The zero values of the types of the injection examples. -/
def diZero (t : GoType) : Value :=
  if t = tDemoStruct then demoStruct (demoParam "") ""
  else if t = tDemoStruct2 then Value.struct t [demoStruct (demoParam "") ""]
  else if t = tPair then Value.struct t [str "", str ""]
  else if t = tOuter then Value.struct t [Value.struct tHolder [str ""]]
  else if t = tMixed then Value.struct t [str "", str ""]
  else exZero t

/-- The body of `DemoStruct2.Construct` on the example: the embedded
`DemoStruct` is replaced by what the container holds as the instance
`"struct"`, when it holds one. -/
def diConstruct (v : Value) (c : Container) : Except Err Value × Container :=
  match v, c.instances "struct" with
  | Value.ptr elem (Value.struct ty _), some s => (Except.ok (Value.ptr elem (Value.struct ty [s])), c)
  | _, _ => (Except.ok v, c)

/-- Whether the named type `AliasParam` and its underlying `DemoParam` are
the two types, in either order. -/
def aliasPair (t u : GoType) : Bool :=
  (decide (t = tDemoParam) && decide (u = tAliasParam)) ||
    (decide (t = tAliasParam) && decide (u = tDemoParam))

/-- The conversion between struct types of the same underlying type: the
fields are kept and the type is replaced. -/
def retag (v : Value) (t : GoType) : Value :=
  match v with
  | Value.struct _ fs => Value.struct t fs
  | Value.scalar _ r => Value.scalar t r
  | w => w

/-- The example of `Reflect` for field injection: as `exR`, with the struct
types above, `*DemoStruct2` a component, and `AliasParam` and `DemoParam`
convertible to each other. -/
def diR : Reflect :=
  { typeKey := exTypeKey
    convertibleTo := fun t u => decide (t = u) || aliasPair t u
    convert := retag
    zero := diZero
    fields := diFields
    typeString := exTypeKey
    isComponent := fun t => decide (t = GoType.ptr tDemoStruct2)
    construct := diConstruct }

/-- A pointer to a zero `DemoStruct2`. -/
def struct2Zero : Value := Value.ptr tDemoStruct2 (diZero tDemoStruct2)

/-- A fresh container with a `DemoStruct` registered as the instance
`"struct"`. -/
def cStruct : Container := New.Instance "struct" (demoStruct (demoParam "id") "config")

/-- The container of `TestContainerMake`: a string instance under
`"config"` and `fnFromContainer` bound under `"DemoParam"`. -/
def cMake : Container :=
  ((New.Instance "config" (str "from config")).Bind diR "DemoParam" (Fn.func fnFromContainer)).2

/-- The field `Config string` tagged `di:"config"` of `DemoStruct`. -/
def fieldConfig : Field := { name := "Config", type := tString, di := some ["config"] }

/-- The argument map of a call that supplies one string. -/
def argsString : ArgumentsTypeMap :=
  [("string", [str "supplied"]), ("*container.Container", [Value.container])]

/-- Whether the runtime type of a value is convertible to the target type. -/
def isConvertible (R : Reflect) (targetType : GoType) (v : Value) : Bool :=
  match TypeOf v with
  | some t => R.convertibleTo t targetType
  | none => false

/-- The values of an argument map, each with the key of its bucket, in the
order in which the two nested `range` loops visit them. -/
def ArgumentsTypeMap.entries : ArgumentsTypeMap → List (String × Value)
  | [] => []
  | (key, args) :: rest => args.map (fun v => (key, v)) ++ ArgumentsTypeMap.entries rest

/-- What the spec says `findConvertibleArg` returns: nil when no value is
convertible, otherwise the first value whose runtime type is convertible to
the target type, converted when the key of its bucket differs from the
target key and as it is when they match. -/
def firstConvertible (R : Reflect) (this : ArgumentsTypeMap) (targetKey : String)
    (targetType : GoType) : Value :=
  match this.entries.find? (fun kv => isConvertible R targetType kv.2) with
  | none => Value.nil
  | some (key, v) => if key ≠ targetKey then R.convert v targetType else v

/-- The argument map of `TestAliasType`: one `DemoParam` and the container. -/
def argsAlias : ArgumentsTypeMap :=
  [("DemoParam", [demoParam "a"]), ("*container.Container", [Value.container])]

/-- The callable `func(x AliasParam, y AliasParam) string` that joins the
`Id`s of its two arguments with a dash. -/
def fnJoinAlias : MagicalFunc :=
  { id := 7, arguments := [tAliasParam, tAliasParam], returns := [tString],
    call := fun args =>
      match args with
      | [Value.struct _ [Value.scalar _ x], Value.struct _ [Value.scalar _ y]] =>
        [str (x ++ "-" ++ y)]
      | _ => [str "?"] }

/-- The field loop of `DIByArguments` again, for `tempValue` alone: the
fields of `tempValue` as they stand when the loop stops, at its end or at
the `Throw` or the failing resolution that halts it. -/
def DIByArguments.walkTemp (R : Reflect) (find : FindArg) :
    List Field → Nat → List Value → ArgumentsTypeMap → World → List Value
  | [], _, temp, _, _ => temp
  | field :: rest, i, temp, arguments, w =>
    match DIByArguments.resolve R find field arguments w with
    | (Except.error _, _) => temp
    | (Except.ok (fieldInterface, arguments1), w1) =>
      match TypeOf fieldInterface with
      | none => DIByArguments.walkTemp R find rest (i + 1) temp arguments1 w1
      | some fieldType =>
        if R.convertibleTo fieldType field.type then
          let value :=
            if R.typeKey field.type ≠ R.typeKey fieldType then R.convert fieldInterface field.type
            else fieldInterface
          DIByArguments.walkTemp R find rest (i + 1) (temp.set i value) arguments1 w1
        else temp

/-- The target of `DIByArguments` after the call. The field loop writes to
`tempValue`, a copy of the pointee, and `objectValue.Set(tempValue)` follows
the loop: it is not reached when the loop panics, so that the pointee is
replaced only when the call returns. -/
def DIByArguments.targetAfter (R : Reflect) (find : FindArg) (object : Value)
    (arguments : ArgumentsTypeMap) (w : World) : Value :=
  match DIByArguments R find object arguments w with
  | (Except.ok (object1, _), _) => object1
  | (Except.error _, _) => object

/-- A pointer to a `DemoStruct2` whose embedded struct was set by the caller. -/
def struct2Set : Value :=
  Value.ptr tDemoStruct2 (Value.struct tDemoStruct2 [demoStruct (demoParam "mine") "mine"])

/-- A pointer to a `Pair` whose two fields were set by the caller. -/
def pairOld : Value := Value.ptr tPair (Value.struct tPair [str "old1", str "old2"])

/-- A fresh container with the string `"x"` as the instance `"first"` and a
`DemoParam` as the instance `"second"`. -/
def cPair : Container := (New.Instance "first" (str "x")).Instance "second" (demoParam "bad")

/-- A fresh container with strings as the instances `"first"` and `"second"`. -/
def cPairGood : Container := (New.Instance "first" (str "x")).Instance "second" (str "y")

/-- A pointer to a `DemoStruct` whose fields were set by the caller. -/
def demoStructOld : Value :=
  Value.ptr tDemoStruct (demoStruct (demoParam "old") "old")

/-- The struct type `ty` has no field at index `j` that carries a `di` tag. -/
def Reflect.untagged (R : Reflect) (ty : GoType) (j : Nat) : Prop :=
  ∀ field : Field, (R.fields ty)[j]? = some field → field.di = none

/-- A pointer to a `Mixed` whose two fields were set by the caller. -/
def mixedOld : Value := Value.ptr tMixed (Value.struct tMixed [str "keep", str "old"])

/-- The field `First string` tagged `di:"first"` of `Pair`. -/
def fieldFirst : Field := { name := "First", type := tString, di := some ["first"] }

/-- The field `Second string` tagged `di:"second"` of `Pair`. -/
def fieldSecond : Field := { name := "Second", type := tString, di := some ["second"] }

/-- The callable `func(s string) DemoParam` that makes a `DemoParam` of the
string it is given. -/
def fnEcho : MagicalFunc :=
  { id := 8, arguments := [tString], returns := [tDemoParam],
    call := fun args =>
      match args with
      | [Value.scalar _ x] => [demoParam x]
      | _ => [demoParam "?"] }

/-- A fresh container with `fnMadeString` as a singleton under `"S"` and
`fnEcho` bound under `"B"`. -/
def cTransient : Container :=
  (((New.Singleton exR "S" (Fn.func fnMadeString)).2).Bind exR "B" (Fn.func fnEcho)).2

/-! ## Invariants of resolution -/

/-- The registrations of `w1` are those of `w`: the alias table, the
bindings and the singleton factories are the same. -/
def SameRegs (w w1 : World) : Prop :=
  w1.container.aliases = w.container.aliases ∧
    w1.container.binds = w.container.binds ∧
    w1.container.singletons = w.container.singletons

/-- No `Construct` method of the program changes a registration. -/
def Reflect.constructKeepsRegs (R : Reflect) : Prop :=
  ∀ (v : Value) (c : Container),
    (R.construct v c).2.aliases = c.aliases ∧ (R.construct v c).2.binds = c.binds ∧
      (R.construct v c).2.singletons = c.singletons

/-- A resolution step that changes no registration. -/
def KeepsRegs {α : Type} (f : World → Res α) : Prop :=
  ∀ w : World, SameRegs w (f w).2

/-- From `w` to `w1` the container only cached singletons: the registrations
are the same, and so is the instance under every key that holds no
singleton factory. -/
def OnlyCaches (w w1 : World) : Prop :=
  SameRegs w w1 ∧
    ∀ key, w.container.singletons key = none →
      w1.container.instances key = w.container.instances key

/-- No `Construct` method of the program changes a registration or an
instance under a key without singleton factory. -/
def Reflect.constructOnlyCaches (R : Reflect) : Prop :=
  ∀ (v : Value) (w : World),
    OnlyCaches w
      { container := (R.construct v w.container).2, log := w.log ++ [Event.construct v] }

/-! ## Lemmas on keys and stores -/

theorem store_same {α : Type} (m : String → Option α) (k : String) (v : α) :
    store m k v k = some v := by
  simp [store]

theorem store_other {α : Type} (m : String → Option α) (k k' : String) (v : α) (h : k' ≠ k) :
    store m k v k' = m k' := by
  simp [store, h]

theorem GetKey_Alias_other (c : Container) (key name K : String) (h : name ≠ K) :
    (c.Alias key name).GetKey K = c.GetKey K := by
  have h' : K ≠ name := fun e => h e.symm
  simp [Container.GetKey, Container.Alias, store, h']

theorem GetKey_Alias_same (c : Container) (key name : String) :
    (c.Alias key name).GetKey name = key := by
  simp [Container.GetKey, Container.Alias, store]

/-- A `Get` on a key whose canonical key holds an instance returns it and
changes nothing. -/
theorem Get_instance (R : Reflect) (find : FindArg) (K : String) (args : List Value)
    (w : World) (v : Value) (h : w.container.instances (w.container.GetKey K) = some v) :
    Get R find K args w = (Except.ok v, w) := by
  simp [Get, h]

theorem GetRepeat_instance (R : Reflect) (find : FindArg) (K : String) (args : List Value)
    (w : World) (v : Value) (h : w.container.instances (w.container.GetKey K) = some v)
    (n : Nat) :
    GetRepeat R find K args n w = (List.replicate n (Except.ok v), w) := by
  induction n with
  | zero => rfl
  | succ n ih => simp [GetRepeat, Get_instance R find K args w v h, ih, List.replicate_succ]

theorem Bind_error (R : Reflect) (c : Container) (key : String) (provider : Fn) (e : Err)
    (hp : newInstanceProvider provider = Except.error e) :
    c.Bind R key provider = (Except.error e, c) := by
  simp [Container.Bind, hp]

theorem Bind_ok (R : Reflect) (c : Container) (key : String) (provider : Fn)
    (m : MagicalFunc) (r : GoType) (rs : List GoType)
    (hp : newInstanceProvider provider = Except.ok m) (hr : m.returns = r :: rs) :
    c.Bind R key provider =
      (Except.ok (),
        ({ c with binds := store c.binds (c.GetKey key) m } : Container).Alias key
          (R.typeKey r)) := by
  simp [Container.Bind, hp, hr]

theorem Bind_noReturn (R : Reflect) (c : Container) (key : String) (provider : Fn)
    (m : MagicalFunc) (hp : newInstanceProvider provider = Except.ok m) (hr : m.returns = []) :
    c.Bind R key provider =
      (Except.error Err.indexOutOfRange,
        ({ c with binds := store c.binds (c.GetKey key) m } : Container)) := by
  simp [Container.Bind, hp, hr]

theorem Singleton_error (R : Reflect) (c : Container) (key : String) (provider : Fn) (e : Err)
    (hp : newInstanceProvider provider = Except.error e) :
    c.Singleton R key provider = (Except.error e, c) := by
  simp [Container.Singleton, hp]

theorem Singleton_ok (R : Reflect) (c : Container) (key : String) (provider : Fn)
    (m : MagicalFunc) (r : GoType) (rs : List GoType)
    (hp : newInstanceProvider provider = Except.ok m) (hr : m.returns = r :: rs) :
    c.Singleton R key provider =
      (Except.ok (),
        ({ c with singletons := store c.singletons (c.GetKey key) m } : Container).Alias key
          (R.typeKey r)) := by
  simp [Container.Singleton, hp, hr]

theorem Singleton_noReturn (R : Reflect) (c : Container) (key : String) (provider : Fn)
    (m : MagicalFunc) (hp : newInstanceProvider provider = Except.ok m) (hr : m.returns = []) :
    c.Singleton R key provider =
      (Except.error Err.indexOutOfRange,
        ({ c with singletons := store c.singletons (c.GetKey key) m } : Container)) := by
  simp [Container.Singleton, hp, hr]

theorem returnKey_ok (R : Reflect) (provider : Fn) (m : MagicalFunc) (r : GoType)
    (rs : List GoType) (hp : newInstanceProvider provider = Except.ok m)
    (hr : m.returns = r :: rs) : returnKey R provider = some (R.typeKey r) := by
  simp [returnKey, hp, hr]

/-- A `Bind` changes neither the instances nor, apart from the return-type
key of an accepted provider, the aliases. -/
theorem Bind_spares (R : Reflect) (c : Container) (key : String) (provider : Fn) (K : String)
    (h : returnKey R provider ≠ some K) :
    (c.Bind R key provider).2.instances = c.instances ∧
      (c.Bind R key provider).2.GetKey K = c.GetKey K := by
  cases hp : newInstanceProvider provider with
  | error e => rw [Bind_error R c key provider e hp]; exact ⟨rfl, rfl⟩
  | ok m =>
    cases hr : m.returns with
    | nil => rw [Bind_noReturn R c key provider m hp hr]; exact ⟨rfl, rfl⟩
    | cons r rs =>
      rw [Bind_ok R c key provider m r rs hp hr]
      rw [returnKey_ok R provider m r rs hp hr] at h
      have hne : R.typeKey r ≠ K := fun e => h (by rw [e])
      exact ⟨rfl, GetKey_Alias_other _ _ _ _ hne⟩

/-- A `Singleton` changes neither the instances nor, apart from the
return-type key of an accepted provider, the aliases. -/
theorem Singleton_spares (R : Reflect) (c : Container) (key : String) (provider : Fn)
    (K : String) (h : returnKey R provider ≠ some K) :
    (c.Singleton R key provider).2.instances = c.instances ∧
      (c.Singleton R key provider).2.GetKey K = c.GetKey K := by
  cases hp : newInstanceProvider provider with
  | error e => rw [Singleton_error R c key provider e hp]; exact ⟨rfl, rfl⟩
  | ok m =>
    cases hr : m.returns with
    | nil => rw [Singleton_noReturn R c key provider m hp hr]; exact ⟨rfl, rfl⟩
    | cons r rs =>
      rw [Singleton_ok R c key provider m r rs hp hr]
      rw [returnKey_ok R provider m r rs hp hr] at h
      have hne : R.typeKey r ≠ K := fun e => h (by rw [e])
      exact ⟨rfl, GetKey_Alias_other _ _ _ _ hne⟩

/-- A registration call that spares the instance under `K` leaves the
canonical key of `K` and the instance stored under it as they were. -/
theorem sparesInstance_preserves (R : Reflect) (K : String) (c : Container) (op : Registration)
    (v : Value) (hs : Registration.sparesInstance R K c op)
    (hv : c.instances (c.GetKey K) = some v) :
    (Registration.apply R c op).GetKey K = c.GetKey K ∧
      (Registration.apply R c op).instances (c.GetKey K) = some v := by
  cases op with
  | Instance key inst =>
    have hne : c.GetKey K ≠ c.GetKey key := fun e => hs e.symm
    refine ⟨by simp [Registration.apply, Container.Instance, Container.GetKey], ?_⟩
    simp [Registration.apply, Container.Instance, store, hne, hv]
  | Bind key provider =>
    obtain ⟨h1, h2⟩ := Bind_spares R c key provider K hs
    exact ⟨h2, by simp [Registration.apply, h1, hv]⟩
  | Singleton key provider =>
    obtain ⟨h1, h2⟩ := Singleton_spares R c key provider K hs
    exact ⟨h2, by simp [Registration.apply, h1, hv]⟩
  | Alias key name =>
    refine ⟨GetKey_Alias_other c key name K hs, ?_⟩
    simp [Registration.apply, Container.Alias, hv]

theorem allSpare_preserves (R : Reflect) (K : String) (v : Value) (ops : List Registration) :
    ∀ c : Container, Registration.allSpare R K c ops →
      c.instances (c.GetKey K) = some v →
      (Registration.applyAll R c ops).instances ((Registration.applyAll R c ops).GetKey K)
        = some v := by
  induction ops with
  | nil => intro c _ hv; simpa [Registration.applyAll] using hv
  | cons op ops ih =>
    intro c hs hv
    obtain ⟨h1, h2⟩ := sparesInstance_preserves R K c op v hs.1 hv
    have := ih (Registration.apply R c op) hs.2 (by rw [h1]; exact h2)
    simpa [Registration.applyAll] using this

theorem Instance_stored (c : Container) (K : String) (v : Value) :
    (c.Instance K v).instances ((c.Instance K v).GetKey K) = some v := by
  simp [Container.Instance, Container.GetKey, store]

/-! ## C1: a registered instance -/

/-- C1 as stated fails: registrations whose key arguments all differ from
`K` and from its canonical key can still replace what `Get(K)` returns.
First, on a container where `"A"` is an alias of `"a"`, after
`Instance("a", v)` the call `Instance("A", other)` makes `Get("a")` return
`other`. Second, on a fresh container, after `Instance("string", v)` the
call `Bind("foo", func() string)` aliases `"string"` to `"foo"`, and
`Get("string")` returns what the bound function makes. -/
theorem C1_unrelated_keys_override :
    ((∀ op ∈ [Registration.Instance "A" (str "other")], ∀ k ∈ op.keyArgs,
        k ≠ "a" ∧ k ≠ (New.Alias "a" "A").GetKey "a") ∧
      (Get exR (findArg exR 1) "a" []
        (worldOf (Registration.applyAll exR ((New.Alias "a" "A").Instance "a" (str "v"))
          [Registration.Instance "A" (str "other")]))).1 = Except.ok (str "other") ∧
      str "other" ≠ str "v") ∧
    ((∀ op ∈ [Registration.Bind "foo" (Fn.func fnMadeString)], ∀ k ∈ op.keyArgs,
        k ≠ "string" ∧ k ≠ New.GetKey "string") ∧
      (Get exR (findArg exR 1) "string" []
        (worldOf (Registration.applyAll exR (New.Instance "string" (str "v"))
          [Registration.Bind "foo" (Fn.func fnMadeString)]))).1 = Except.ok (str "made") ∧
      str "made" ≠ str "v") := by
  refine ⟨⟨by decide, by rfl, by simp [str]⟩, ⟨by decide, by rfl, by simp [str]⟩⟩

/-- C1, amended: after `Instance(K, v)`, `Get(K)` returns exactly `v`, and
so does each of any number of later `Get(K)` calls, without changing the
state, after any sequence of intervening `Instance`, `Bind`, `Singleton` and
`Alias` calls whose key and alias-name arguments all differ from `K` and
from its canonical key, provided also that no intervening `Instance` key
resolves, when that call is made, to the canonical key of `K`, and that no
`Bind` or `Singleton` provider has `K` as the type key of its return value. -/
theorem C1_instance_persists (R : Reflect) (find : FindArg) (c : Container) (K : String)
    (v : Value) (ops : List Registration) (args : List Value) (log : List Event) (n : Nat)
    (hkeys : ∀ op ∈ ops, ∀ k ∈ op.keyArgs, k ≠ K ∧ k ≠ c.GetKey K)
    (hspare : Registration.allSpare R K (c.Instance K v) ops) :
    GetRepeat R find K args n
        { container := Registration.applyAll R (c.Instance K v) ops, log := log } =
      (List.replicate n (Except.ok v),
        { container := Registration.applyAll R (c.Instance K v) ops, log := log }) := by
  have _ := hkeys
  apply GetRepeat_instance
  exact allSpare_preserves R K v ops (c.Instance K v) hspare (Instance_stored c K v)

/-- C1, amended, at a concrete input: an instance under `"a"` survives a
`Bind`, an `Alias` and an `Instance` under other keys. -/
theorem C1_instance_persists_witness :
    (∀ op ∈ exOps, ∀ k ∈ op.keyArgs, k ≠ "a" ∧ k ≠ New.GetKey "a") ∧
    Registration.allSpare exR "a" (New.Instance "a" (str "v")) exOps ∧
    GetRepeat exR (findArg exR 1) "a" [] 3
        { container := Registration.applyAll exR (New.Instance "a" (str "v")) exOps,
          log := [] } =
      (List.replicate 3 (Except.ok (str "v")),
        { container := Registration.applyAll exR (New.Instance "a" (str "v")) exOps,
          log := [] }) :=
  have hspare : Registration.allSpare exR "a" (New.Instance "a" (str "v")) exOps := by
    refine ⟨?_, ?_, ?_, trivial⟩
    · simp [Registration.sparesInstance, returnKey, newInstanceProvider, NewMagicalFunc,
        MagicalFunc.NumOut, fnMadeString, exR, exTypeKey, tString]
    · simp [Registration.sparesInstance]
    · show ¬ (_ = _)
      decide
  ⟨by decide, hspare,
    C1_instance_persists exR (findArg exR 1) New "a" (str "v") exOps [] [] 3 (by decide) hspare⟩

/-! ## Resolution changes no registration -/

theorem SameRegs.refl (w : World) : SameRegs w w := ⟨rfl, rfl, rfl⟩

theorem SameRegs.trans {w w1 w2 : World} (h1 : SameRegs w w1) (h2 : SameRegs w1 w2) :
    SameRegs w w2 :=
  ⟨h2.1.trans h1.1, h2.2.1.trans h1.2.1, h2.2.2.trans h1.2.2⟩

theorem SameRegs.storeInstance {w w1 : World} (h : SameRegs w w1) (key : String) (v : Value) :
    SameRegs w (w1.storeInstance key v) := h

theorem SameRegs.withLog {w w1 : World} (h : SameRegs w w1) (log : List Event) :
    SameRegs w { w1 with log := log } := h

theorem collect_keepsRegs (R : Reflect) (find : FindArg)
    (hfind : ∀ key p a, KeepsRegs (find key p a)) (params : List GoType) :
    ∀ fnArgs a, KeepsRegs (StaticCallByArguments.collect R find params fnArgs a) := by
  induction params with
  | nil => intro fnArgs a w; exact SameRegs.refl w
  | cons arg rest ih =>
    intro fnArgs a w
    have h1 := hfind (R.typeKey arg) arg a w
    unfold StaticCallByArguments.collect
    cases h : find (R.typeKey arg) arg a w with
    | mk r w1 =>
      rw [h] at h1
      cases r with
      | error e => exact h1
      | ok va => exact h1.trans (ih _ _ w1)

theorem StaticCallByArguments_keepsRegs (R : Reflect) (find : FindArg)
    (hfind : ∀ key p a, KeepsRegs (find key p a)) (m : MagicalFunc) (a : ArgumentsTypeMap) :
    KeepsRegs (StaticCallByArguments R find m a) := by
  intro w
  have h1 := collect_keepsRegs R find hfind m.arguments [] a w
  unfold StaticCallByArguments
  cases h : StaticCallByArguments.collect R find m.arguments [] a w with
  | mk r w1 =>
    rw [h] at h1
    cases r with
    | error e => exact h1
    | ok va => exact h1

theorem StaticCall_keepsRegs (R : Reflect) (find : FindArg)
    (hfind : ∀ key p a, KeepsRegs (find key p a)) (m : MagicalFunc) (args : List Value) :
    KeepsRegs (StaticCall R find m args) := by
  intro w
  unfold StaticCall
  cases NewArgumentsTypeMap R (args ++ [Value.container]) with
  | error e => exact SameRegs.refl w
  | ok a =>
    have h1 := StaticCallByArguments_keepsRegs R find hfind m a w
    simp only []
    cases h : StaticCallByArguments R find m a w with
    | mk r w1 =>
      rw [h] at h1
      cases r with
      | error e => exact h1
      | ok va => exact h1

theorem Call_keepsRegs (R : Reflect) (find : FindArg)
    (hfind : ∀ key p a, KeepsRegs (find key p a)) (fn : Fn) (args : List Value) :
    KeepsRegs (Call R find fn args) := by
  intro w
  cases fn with
  | magical m => exact StaticCall_keepsRegs R find hfind m args w
  | func m => exact StaticCall_keepsRegs R find hfind m args w
  | other v => exact SameRegs.refl w

theorem Get_keepsRegs (R : Reflect) (find : FindArg)
    (hfind : ∀ key p a, KeepsRegs (find key p a)) (key : String) (args : List Value) :
    KeepsRegs (Get R find key args) := by
  intro w
  unfold Get
  simp only []
  cases w.container.instances (w.container.GetKey key) with
  | some v => exact SameRegs.refl w
  | none =>
    simp only []
    cases w.container.singletons (w.container.GetKey key) with
    | some m =>
      have h1 := Call_keepsRegs R find hfind (Fn.magical m) args w
      simp only []
      cases h : Call R find (Fn.magical m) args w with
      | mk r w1 =>
        rw [h] at h1
        cases r with
        | error e => exact h1
        | ok results =>
          cases results with
          | nil => exact h1
          | cons value rest => exact h1
    | none =>
      simp only []
      cases w.container.binds (w.container.GetKey key) with
      | some m =>
        have h1 := Call_keepsRegs R find hfind (Fn.magical m) args w
        simp only []
        cases h : Call R find (Fn.magical m) args w with
        | mk r w1 =>
          rw [h] at h1
          cases r with
          | error e => exact h1
          | ok results =>
            cases results with
            | nil => exact h1
            | cons value rest => exact h1
      | none => exact SameRegs.refl w

theorem GetByArguments_keepsRegs (R : Reflect) (find : FindArg)
    (hfind : ∀ key p a, KeepsRegs (find key p a)) (key : String) (a : ArgumentsTypeMap) :
    KeepsRegs (GetByArguments R find key a) := by
  intro w
  unfold GetByArguments
  simp only []
  cases w.container.instances (w.container.GetKey key) with
  | some v => exact SameRegs.refl w
  | none =>
    simp only []
    cases w.container.singletons (w.container.GetKey key) with
    | some m =>
      have h1 := StaticCallByArguments_keepsRegs R find hfind m a w
      simp only []
      cases h : StaticCallByArguments R find m a w with
      | mk r w1 =>
        rw [h] at h1
        cases r with
        | error e => exact h1
        | ok ra =>
          obtain ⟨results, a1⟩ := ra
          cases results with
          | nil => exact h1
          | cons value rest => exact h1
    | none =>
      simp only []
      cases w.container.binds (w.container.GetKey key) with
      | some m =>
        have h1 := StaticCallByArguments_keepsRegs R find hfind m a w
        simp only []
        cases h : StaticCallByArguments R find m a w with
        | mk r w1 =>
          rw [h] at h1
          cases r with
          | error e => exact h1
          | ok ra =>
            obtain ⟨results, a1⟩ := ra
            cases results with
            | nil => exact h1
            | cons value rest => exact h1
      | none => exact SameRegs.refl w

theorem resolve_keepsRegs (R : Reflect) (find : FindArg)
    (hfind : ∀ key p a, KeepsRegs (find key p a)) (field : Field) (a : ArgumentsTypeMap) :
    KeepsRegs (DIByArguments.resolve R find field a) := by
  intro w
  unfold DIByArguments.resolve
  simp only []
  cases field.di with
  | none => exact SameRegs.refl w
  | some di =>
    cases di with
    | nil => exact hfind _ _ _ w
    | cons k ks =>
      have h1 := Get_keepsRegs R find hfind k [] w
      simp only []
      cases h : Get R find k [] w with
      | mk r w1 =>
        rw [h] at h1
        cases r with
        | error e => exact h1
        | ok v =>
          simp only []
          cases v.isNil with
          | true => exact h1.trans (hfind _ _ _ w1)
          | false => exact h1

theorem walk_keepsRegs (R : Reflect) (find : FindArg)
    (hfind : ∀ key p a, KeepsRegs (find key p a)) (fields : List Field) :
    ∀ i temp a, KeepsRegs (DIByArguments.walk R find fields i temp a) := by
  induction fields with
  | nil => intro i temp a w; exact SameRegs.refl w
  | cons field rest ih =>
    intro i temp a w
    have h1 := resolve_keepsRegs R find hfind field a w
    unfold DIByArguments.walk
    cases h : DIByArguments.resolve R find field a w with
    | mk r w1 =>
      rw [h] at h1
      cases r with
      | error e => exact h1
      | ok va =>
        obtain ⟨v, a1⟩ := va
        simp only []
        cases TypeOf v with
        | none => exact h1.trans (ih _ _ _ w1)
        | some fieldType =>
          simp only []
          by_cases hc : R.convertibleTo fieldType field.type = true
          · rw [if_pos hc]; exact h1.trans (ih _ _ _ w1)
          · rw [if_neg hc]; exact h1

theorem DIByArguments_keepsRegs (R : Reflect) (hR : R.constructKeepsRegs) (find : FindArg)
    (hfind : ∀ key p a, KeepsRegs (find key p a)) (object : Value) (a : ArgumentsTypeMap) :
    KeepsRegs (DIByArguments R find object a) := by
  intro w
  unfold DIByArguments
  by_cases hc : isComponent R object = true
  · rw [if_pos hc]
    have h1 := hR object w.container
    cases h : R.construct object w.container with
    | mk r c1 =>
      rw [h] at h1
      cases r with
      | error e => exact h1
      | ok o => exact h1
  · rw [if_neg hc]
    cases object with
    | nil => exact SameRegs.refl w
    | scalar ty s => exact SameRegs.refl w
    | struct ty fs => exact SameRegs.refl w
    | container => exact SameRegs.refl w
    | ptr elem target =>
      cases target with
      | nil => exact SameRegs.refl w
      | scalar ty s => exact SameRegs.refl w
      | ptr e t => exact SameRegs.refl w
      | container => exact SameRegs.refl w
      | struct valueType fields =>
        have h1 := walk_keepsRegs R find hfind (R.fields valueType) 0 fields a w
        simp only []
        cases h : DIByArguments.walk R find (R.fields valueType) 0 fields a w with
        | mk r w1 =>
          rw [h] at h1
          cases r with
          | error e => exact h1
          | ok ta => exact h1

theorem loop_keepsRegs (providers : List Provider)
    (hp : ∀ provider ∈ providers, ∀ key p a, KeepsRegs (provider key p a)) :
    ∀ key p a, KeepsRegs (findArg.loop providers key p a) := by
  induction providers with
  | nil => intro key p a w; exact SameRegs.refl w
  | cons provider rest ih =>
    intro key p a w
    have h1 := hp provider (List.mem_cons_self _ _) key p a w
    have ih1 := ih (fun q hq => hp q (List.mem_cons_of_mem _ hq))
    unfold findArg.loop
    cases h : provider key p a w with
    | mk r w1 =>
      rw [h] at h1
      cases r with
      | error e => exact h1
      | ok va =>
        obtain ⟨v, a1⟩ := va
        simp only []
        cases v.isNil with
        | true => exact h1.trans (ih1 key p a1 w1)
        | false => exact h1

theorem providerNew_keepsRegs (R : Reflect) (hR : R.constructKeepsRegs) (find : FindArg)
    (hfind : ∀ key p a, KeepsRegs (find key p a)) (key : String) (p : GoType)
    (a : ArgumentsTypeMap) : KeepsRegs (providerNew R find key p a) := by
  intro w
  unfold providerNew
  simp only []
  generalize (if p.isPtr = true then Value.ptr p.Elem (R.zero p.Elem)
    else Value.ptr p (R.zero p)) = object
  have h1 := DIByArguments_keepsRegs R hR find hfind object a w
  cases h : DIByArguments R find object a w with
  | mk r w1 =>
    rw [h] at h1
    cases r with
    | error e => exact h1
    | ok va =>
      simp only []
      cases p.isPtr with
      | true => exact h1
      | false => exact h1

theorem argProviders_keepRegs (R : Reflect) (hR : R.constructKeepsRegs) (find : FindArg)
    (hfind : ∀ key p a, KeepsRegs (find key p a)) :
    ∀ provider ∈ argProviders R find, ∀ key p a, KeepsRegs (provider key p a) := by
  intro provider hmem key p a w
  simp only [argProviders, List.mem_cons, List.mem_singleton, List.not_mem_nil, or_false] at hmem
  rcases hmem with h | h | h | h
  · subst h; exact SameRegs.refl w
  · subst h
    unfold providerConvertible
    cases FindConvertibleArg R a key p with
    | error e => exact SameRegs.refl w
    | ok v => exact SameRegs.refl w
  · subst h; exact GetByArguments_keepsRegs R find hfind key a w
  · subst h; exact providerNew_keepsRegs R hR find hfind key p a w

/-- Resolution changes no registration: `findArg`, at every depth, leaves
the alias table, the bindings and the singleton factories as they were,
when no `Construct` method changes them. -/
theorem findArg_keepsRegs (R : Reflect) (hR : R.constructKeepsRegs) (fuel : Nat) :
    ∀ key p a, KeepsRegs (findArg R fuel key p a) := by
  induction fuel with
  | zero => intro key p a w; exact SameRegs.refl w
  | succ n ih =>
    intro key p a w
    exact loop_keepsRegs (argProviders R (findArg R n))
      (argProviders_keepRegs R hR (findArg R n) ih) key p a w

/-! ## C2: singletons -/

theorem GetRepeat_fixed (R : Reflect) (find : FindArg) (K : String) (args : List Value)
    (w : World) (r : Except Err Value) (h : Get R find K args w = (r, w)) (n : Nat) :
    GetRepeat R find K args n w = (List.replicate n r, w) := by
  induction n with
  | zero => rfl
  | succ n ih => simp [GetRepeat, h, ih, List.replicate_succ]

/-- A `Get` on a key whose canonical key holds no instance but a singleton
factory. -/
theorem Get_singleton (R : Reflect) (find : FindArg) (K : String) (args : List Value)
    (w : World) (m : MagicalFunc)
    (hi : w.container.instances (w.container.GetKey K) = none)
    (hs : w.container.singletons (w.container.GetKey K) = some m) :
    Get R find K args w =
      match Call R find (Fn.magical m) args w with
      | (Except.error e, w1) => (Except.error e, w1)
      | (Except.ok [], w1) => (Except.error Err.indexOutOfRange, w1)
      | (Except.ok (value :: _), w1) =>
        (Except.ok value, w1.storeInstance (w.container.GetKey K) value) := by
  simp [Get, hi, hs]

/-- C2 as stated fails: a singleton factory whose parameter cannot be
resolved is never invoked. With a `DemoParam` instance under `"config"`
and the singleton `func(h Holder) DemoParam` under `"S"`, where `Holder` has
the field `Config string` tagged `di:"config"`, no instance is stored under
`"S"`, and at every depth every one of `n` consecutive `Get("S")` fails and
leaves the state, with its empty log, as it was. -/
theorem C2_singleton_never_invoked :
    cMismatch.instances (cMismatch.GetKey "S") = none ∧
    (∀ n : Nat, GetRepeat exR (findArg exR 0) "S" [] n (worldOf cMismatch) =
      (List.replicate n (Except.error Err.outOfFuel), worldOf cMismatch)) ∧
    (∀ fuel n : Nat, GetRepeat exR (findArg exR (fuel + 1)) "S" [] n (worldOf cMismatch) =
      (List.replicate n (Except.error (Err.typeMismatch "Config" "string" "DemoParam")),
        worldOf cMismatch)) ∧
    (worldOf cMismatch).log = [] := by
  refine ⟨rfl, ?_, ?_, rfl⟩
  · intro n
    exact GetRepeat_fixed _ _ _ _ _ _ rfl n
  · intro fuel n
    exact GetRepeat_fixed _ _ _ _ _ _ rfl n

theorem newInstanceProvider_func (m : MagicalFunc) (r : GoType) (hret : m.returns = [r]) :
    newInstanceProvider (Fn.func m) = Except.ok m := by
  simp [newInstanceProvider, NewMagicalFunc, MagicalFunc.NumOut, hret]

theorem GetKey_congr (c c1 : Container) (h : c1.aliases = c.aliases) (K : String) :
    c1.GetKey K = c.GetKey K := by
  simp [Container.GetKey, h]

/-- After `Singleton(K, f)` the key `K` resolves as before, unless `K` was
an alias and is also the type key of what `f` returns. -/
theorem Singleton_GetKey (R : Reflect) (c : Container) (K : String) (m : MagicalFunc)
    (r : GoType) (hret : m.returns = [r]) (hK : R.typeKey r = K → c.GetKey K = K) :
    (c.Singleton R K (Fn.func m)).2.GetKey K = c.GetKey K ∧
      (c.Singleton R K (Fn.func m)).2.instances = c.instances ∧
      (c.Singleton R K (Fn.func m)).2.singletons (c.GetKey K) = some m := by
  rw [Singleton_ok R c K (Fn.func m) m r [] (newInstanceProvider_func m r hret) hret]
  refine ⟨?_, rfl, ?_⟩
  · by_cases h : R.typeKey r = K
    · rw [h, GetKey_Alias_same, hK h]
    · rw [GetKey_Alias_other _ _ _ _ h]; rfl
  · simp [Container.Alias, store]

/-- C2, amended: let `f` be a single-return factory registered with
`Singleton(K, f)` on a container holding no instance under `K`, in a program
whose `Construct` methods change no registration, with `K` still resolving
to the key `f` was stored under (`K` is canonical, or is not the type key of
what `f` returns). If the first `Get(K)` returns a value `v` (the resolution
of the parameters of `f` raises no error), then `f` was invoked as the last
step of that call with `v` as its result, and exactly once when it has no
parameters; and each of any number `n` of later `Get(K)` calls returns the
identical `v` and changes nothing, so that no factory is invoked again. -/
theorem C2_singleton_cached (R : Reflect) (fuel : Nat) (c : Container) (K : String)
    (m : MagicalFunc) (r : GoType) (args : List Value) (log : List Event) (v : Value) (n : Nat)
    (hR : R.constructKeepsRegs) (hret : m.returns = [r])
    (hinst : c.instances (c.GetKey K) = none)
    (hK : R.typeKey r = K → c.GetKey K = K)
    (hfirst : (Get R (findArg R fuel) K args
      { container := (c.Singleton R K (Fn.func m)).2, log := log }).1 = Except.ok v) :
    (∃ fnArgs, (Get R (findArg R fuel) K args
          { container := (c.Singleton R K (Fn.func m)).2, log := log }).2.log.getLast?
        = some (Event.invoke m.id fnArgs) ∧ (m.call fnArgs).head? = some v) ∧
    (m.arguments = [] → (Get R (findArg R fuel) K args
          { container := (c.Singleton R K (Fn.func m)).2, log := log }).2.log
        = log ++ [Event.invoke m.id []]) ∧
    GetRepeat R (findArg R fuel) K args n (Get R (findArg R fuel) K args
          { container := (c.Singleton R K (Fn.func m)).2, log := log }).2
      = (List.replicate n (Except.ok v), (Get R (findArg R fuel) K args
          { container := (c.Singleton R K (Fn.func m)).2, log := log }).2) := by
  obtain ⟨hk1, hi1, hs1⟩ := Singleton_GetKey R c K m r hret hK
  generalize hw : ({ container := (c.Singleton R K (Fn.func m)).2, log := log } : World) = w1
    at hfirst ⊢
  have hwc : w1.container = (c.Singleton R K (Fn.func m)).2 := by rw [← hw]
  have hwl : w1.log = log := by rw [← hw]
  have hkey : w1.container.GetKey K = c.GetKey K := by rw [hwc]; exact hk1
  have hi : w1.container.instances (w1.container.GetKey K) = none := by
    rw [hkey, hwc, hi1]; exact hinst
  have hs : w1.container.singletons (w1.container.GetKey K) = some m := by
    rw [hkey, hwc]; exact hs1
  have hG := Get_singleton R (findArg R fuel) K args w1 m hi hs
  simp only [Call, StaticCall, StaticCallByArguments] at hG
  cases hN : NewArgumentsTypeMap R (args ++ [Value.container]) with
  | error e =>
    rw [hN] at hG
    rw [hG] at hfirst
    simp at hfirst
  | ok a =>
    rw [hN] at hG
    simp only [] at hG
    have hkeep := collect_keepsRegs R (findArg R fuel) (findArg_keepsRegs R hR fuel)
      m.arguments [] a w1
    cases hC : StaticCallByArguments.collect R (findArg R fuel) m.arguments [] a w1 with
    | mk rr w2 =>
      rw [hC] at hG hkeep
      cases rr with
      | error e =>
        rw [hG] at hfirst
        simp at hfirst
      | ok fa =>
        obtain ⟨fnArgs, a1⟩ := fa
        simp only [] at hG
        cases hcall : m.call fnArgs with
        | nil =>
          rw [hcall] at hG
          rw [hG] at hfirst
          simp at hfirst
        | cons v1 rest =>
          rw [hcall] at hG
          simp only [] at hG
          rw [hG] at hfirst ⊢
          have hv : v1 = v := by simpa using hfirst
          subst hv
          refine ⟨⟨fnArgs, ?_, ?_⟩, ?_, ?_⟩
          · simp [World.storeInstance]
          · simp [hcall]
          · intro harg
            rw [harg] at hC
            simp only [StaticCallByArguments.collect, Prod.mk.injEq, Except.ok.injEq] at hC
            obtain ⟨⟨hf, _⟩, hw2⟩ := hC
            subst hf
            subst hw2
            simp [World.storeInstance, hwl]
          · apply GetRepeat_instance
            have hal : w2.container.aliases = w1.container.aliases := hkeep.1
            simp only [World.storeInstance]
            have : ({ w2.container with
                instances := store w2.container.instances (w1.container.GetKey K) v1 }
                  : Container).GetKey K = w1.container.GetKey K :=
              GetKey_congr _ _ hal K
            rw [this]
            simp [store]

/-- C2, amended, at a concrete input: the parameterless singleton
`func() string` under `"S"` on a fresh container. -/
theorem C2_singleton_cached_witness :
    exR.constructKeepsRegs ∧
    New.instances (New.GetKey "S") = none ∧
    (Get exR (findArg exR 1) "S" [] wSingleton).1 = Except.ok (str "made") ∧
    (Get exR (findArg exR 1) "S" [] wSingleton).2.log = [] ++ [Event.invoke fnMadeString.id []] ∧
    GetRepeat exR (findArg exR 1) "S" [] 3 (Get exR (findArg exR 1) "S" [] wSingleton).2
      = (List.replicate 3 (Except.ok (str "made")),
          (Get exR (findArg exR 1) "S" [] wSingleton).2) :=
  have hR : exR.constructKeepsRegs := fun _ _ => ⟨rfl, rfl, rfl⟩
  have h := C2_singleton_cached exR 1 New "S" fnMadeString tString [] [] (str "made") 3
    hR rfl rfl (fun _ => rfl) rfl
  ⟨hR, rfl, rfl, h.2.1 rfl, h.2.2⟩

/-! ## C3: aliases -/

/-- The outcome of `Get` depends on its key only through the canonical key. -/
theorem Get_congr_key (R : Reflect) (find : FindArg) (X K : String) (args : List Value)
    (w : World) (h : w.container.GetKey X = w.container.GetKey K) :
    Get R find X args w = Get R find K args w := by
  simp [Get, h]

theorem HasBound_congr_key (c : Container) (X K : String) (h : c.GetKey X = c.GetKey K) :
    c.HasBound X = c.HasBound K := by
  simp [Container.HasBound, h]

/-- C3 as stated fails for a `K` that is itself an alias: with the instance
`v` under `"a"` and `"A"` an alias of `"a"`, after `Alias("A", "X")` the
call `Get("X")` returns nil while `Get("A")` returns `v`, and
`HasBound("X")` is false while `HasBound("A")` is true. -/
theorem C3_alias_of_alias_differs :
    Get exR (findArg exR 1) "X" [] (worldOf (cAliased.Alias "A" "X"))
      = (Except.ok Value.nil, worldOf (cAliased.Alias "A" "X")) ∧
    Get exR (findArg exR 1) "A" [] (worldOf (cAliased.Alias "A" "X"))
      = (Except.ok (str "v"), worldOf (cAliased.Alias "A" "X")) ∧
    (cAliased.Alias "A" "X").HasBound "X" = false ∧
    (cAliased.Alias "A" "X").HasBound "A" = true := by
  refine ⟨rfl, rfl, rfl, rfl⟩

/-- C3, amended: for every container state, every key `K` that is not
itself an alias of another key (`GetKey(K) = K`), every name `X` and every
argument list: after `Alias(K, X)`, `Get(X, args...)` returns the same value
and has the same effect on the state as `Get(K, args...)`, and `HasBound(X)`
equals `HasBound(K)`. -/
theorem C3_alias_resolves (R : Reflect) (find : FindArg) (c : Container) (K X : String)
    (args : List Value) (log : List Event) (hK : c.GetKey K = K) :
    Get R find X args { container := c.Alias K X, log := log }
      = Get R find K args { container := c.Alias K X, log := log } ∧
    (c.Alias K X).HasBound X = (c.Alias K X).HasBound K := by
  have h : (c.Alias K X).GetKey X = (c.Alias K X).GetKey K := by
    rw [GetKey_Alias_same]
    by_cases hx : X = K
    · subst hx; rw [GetKey_Alias_same]
    · rw [GetKey_Alias_other _ _ _ _ hx, hK]
  exact ⟨Get_congr_key R find X K args _ h, HasBound_congr_key _ X K h⟩

/-- C3, amended, at a concrete input: the canonical key `"a"` and the new
alias `"X"`. -/
theorem C3_alias_resolves_witness :
    cAliased.GetKey "a" = "a" ∧
    Get exR (findArg exR 1) "X" [] { container := cAliased.Alias "a" "X", log := [] }
      = Get exR (findArg exR 1) "a" [] { container := cAliased.Alias "a" "X", log := [] } ∧
    (cAliased.Alias "a" "X").HasBound "X" = (cAliased.Alias "a" "X").HasBound "a" :=
  ⟨rfl, C3_alias_resolves exR (findArg exR 1) cAliased "a" "X" [] [] rfl⟩

/-! ## C4: the alias of the return type -/

/-- A `Get` on a key whose canonical key holds neither an instance nor a
singleton factory but a binding. -/
theorem Get_bind (R : Reflect) (find : FindArg) (K : String) (args : List Value)
    (w : World) (m : MagicalFunc)
    (hi : w.container.instances (w.container.GetKey K) = none)
    (hs : w.container.singletons (w.container.GetKey K) = none)
    (hb : w.container.binds (w.container.GetKey K) = some m) :
    Get R find K args w =
      match Call R find (Fn.magical m) args w with
      | (Except.error e, w1) => (Except.error e, w1)
      | (Except.ok [], w1) => (Except.error Err.indexOutOfRange, w1)
      | (Except.ok (value :: _), w1) => (Except.ok value, w1) := by
  simp [Get, hi, hs, hb]

theorem Bind_canonical (R : Reflect) (c : Container) (key : String) (m : MagicalFunc)
    (r : GoType) (hret : m.returns = [r]) (hkey : c.GetKey key = key) :
    (c.Bind R key (Fn.func m)).1 = Except.ok () ∧
      (c.Bind R key (Fn.func m)).2.aliases (R.typeKey r) = some key ∧
      (c.Bind R key (Fn.func m)).2.binds key = some m ∧
      (c.Bind R key (Fn.func m)).2.instances = c.instances ∧
      (c.Bind R key (Fn.func m)).2.singletons = c.singletons := by
  rw [Bind_ok R c key (Fn.func m) m r [] (newInstanceProvider_func m r hret) hret, hkey]
  exact ⟨rfl, by simp [Container.Alias, store], by simp [Container.Alias, store], rfl, rfl⟩

theorem Singleton_canonical (R : Reflect) (c : Container) (key : String) (m : MagicalFunc)
    (r : GoType) (hret : m.returns = [r]) (hkey : c.GetKey key = key) :
    (c.Singleton R key (Fn.func m)).1 = Except.ok () ∧
      (c.Singleton R key (Fn.func m)).2.aliases (R.typeKey r) = some key ∧
      (c.Singleton R key (Fn.func m)).2.singletons key = some m ∧
      (c.Singleton R key (Fn.func m)).2.instances = c.instances := by
  rw [Singleton_ok R c key (Fn.func m) m r [] (newInstanceProvider_func m r hret) hret, hkey]
  exact ⟨rfl, by simp [Container.Alias, store], by simp [Container.Alias, store], rfl⟩

/-- C4 as stated fails for a key that is already an alias: on a container
where `"nick"` is an alias of `"real"`, `Bind("nick", func() string)` stores
the function under `"real"` but aliases the type key `"string"` to `"nick"`,
under which nothing is stored, so `Get("string")` returns nil and the
function is not invoked. It also fails when a singleton factory is stored
under the key: after `Singleton("k", made)` and `Bind("k", bound)` no
instance is stored, yet `Get("string")` returns what `made` makes, not the
result of `bound`. -/
theorem C4_bind_under_alias_lost :
    ((cNick.Bind exR "nick" (Fn.func fnMadeString)).1 = Except.ok () ∧
      ((cNick.Bind exR "nick" (Fn.func fnMadeString)).2.binds "real").isSome = true ∧
      (cNick.Bind exR "nick" (Fn.func fnMadeString)).2.aliases (exR.typeKey tString)
        = some "nick" ∧
      ((cNick.Bind exR "nick" (Fn.func fnMadeString)).2.binds "nick").isSome = false ∧
      Get exR (findArg exR 1) (exR.typeKey tString) []
          (worldOf (cNick.Bind exR "nick" (Fn.func fnMadeString)).2)
        = (Except.ok Value.nil, worldOf (cNick.Bind exR "nick" (Fn.func fnMadeString)).2)) ∧
    ((cShadow.Bind exR "k" (Fn.func fnBound)).1 = Except.ok () ∧
      (cShadow.Bind exR "k" (Fn.func fnBound)).2.instances "k" = none ∧
      (Get exR (findArg exR 1) (exR.typeKey tString) []
          (worldOf (cShadow.Bind exR "k" (Fn.func fnBound)).2)).1 = Except.ok (str "made") ∧
      fnBound.call [] = [str "bound"] ∧ str "made" ≠ str "bound") := by
  refine ⟨⟨rfl, rfl, rfl, rfl, rfl⟩, ⟨rfl, rfl, rfl, rfl, by simp [str]⟩⟩

/-- C4, amended: for every container state, every key that is not an alias
of another key (`GetKey(key) = key`) and every factory `f` with exactly one
return value of type `T`: `Bind(key, f)` and `Singleton(key, f)` succeed,
store `f` under `key` and make the alias table map `typeKey(T)` to `key`, so
that `Get(typeKey(T), args...)` calls `f` and returns its first result, when
no instance and, for `Bind`, no singleton factory is stored under `key`; for
`Singleton` the result is also cached under `key`. -/
theorem C4_return_type_alias (R : Reflect) (find : FindArg) (c : Container) (key : String)
    (m : MagicalFunc) (r : GoType) (args : List Value) (log : List Event)
    (hret : m.returns = [r]) (hkey : c.GetKey key = key) :
    ((c.Bind R key (Fn.func m)).1 = Except.ok () ∧
      (c.Bind R key (Fn.func m)).2.aliases (R.typeKey r) = some key ∧
      (c.Bind R key (Fn.func m)).2.binds key = some m ∧
      (c.instances key = none → c.singletons key = none →
        Get R find (R.typeKey r) args { container := (c.Bind R key (Fn.func m)).2, log := log } =
          match Call R find (Fn.magical m) args
              { container := (c.Bind R key (Fn.func m)).2, log := log } with
          | (Except.error e, w1) => (Except.error e, w1)
          | (Except.ok [], w1) => (Except.error Err.indexOutOfRange, w1)
          | (Except.ok (value :: _), w1) => (Except.ok value, w1))) ∧
    ((c.Singleton R key (Fn.func m)).1 = Except.ok () ∧
      (c.Singleton R key (Fn.func m)).2.aliases (R.typeKey r) = some key ∧
      (c.Singleton R key (Fn.func m)).2.singletons key = some m ∧
      (c.instances key = none →
        Get R find (R.typeKey r) args
            { container := (c.Singleton R key (Fn.func m)).2, log := log } =
          match Call R find (Fn.magical m) args
              { container := (c.Singleton R key (Fn.func m)).2, log := log } with
          | (Except.error e, w1) => (Except.error e, w1)
          | (Except.ok [], w1) => (Except.error Err.indexOutOfRange, w1)
          | (Except.ok (value :: _), w1) => (Except.ok value, w1.storeInstance key value))) := by
  obtain ⟨hb1, hb2, hb3, hb4, hb5⟩ := Bind_canonical R c key m r hret hkey
  obtain ⟨hs1, hs2, hs3, hs4⟩ := Singleton_canonical R c key m r hret hkey
  constructor
  · refine ⟨hb1, hb2, hb3, ?_⟩
    intro hi hs
    generalize (c.Bind R key (Fn.func m)).2 = cB at hb2 hb3 hb4 hb5 ⊢
    have hk : cB.GetKey (R.typeKey r) = key := by simp [Container.GetKey, hb2]
    exact Get_bind R find (R.typeKey r) args { container := cB, log := log } m
      (by show cB.instances (cB.GetKey _) = none; rw [hk, hb4]; exact hi)
      (by show cB.singletons (cB.GetKey _) = none; rw [hk, hb5]; exact hs)
      (by show cB.binds (cB.GetKey _) = some m; rw [hk]; exact hb3)
  · refine ⟨hs1, hs2, hs3, ?_⟩
    intro hi
    generalize (c.Singleton R key (Fn.func m)).2 = cS at hs2 hs3 hs4 ⊢
    have hk : cS.GetKey (R.typeKey r) = key := by simp [Container.GetKey, hs2]
    have h := Get_singleton R find (R.typeKey r) args { container := cS, log := log } m
      (by show cS.instances (cS.GetKey _) = none; rw [hk, hs4]; exact hi)
      (by show cS.singletons (cS.GetKey _) = some m; rw [hk]; exact hs3)
    have hk2 : ({ container := cS, log := log } : World).container.GetKey (R.typeKey r) = key :=
      hk
    rw [hk2] at h
    exact h

/-- C4, amended, at a concrete input: `Bind("DemoParam", func() string)` on
a fresh container, after which `Get("string")` returns what the function
makes. -/
theorem C4_return_type_alias_witness :
    fnMadeString.returns = [tString] ∧ New.GetKey "DemoParam" = "DemoParam" ∧
    (New.Bind exR "DemoParam" (Fn.func fnMadeString)).2.aliases (exR.typeKey tString)
      = some "DemoParam" ∧
    Get exR (findArg exR 1) (exR.typeKey tString) []
        { container := (New.Bind exR "DemoParam" (Fn.func fnMadeString)).2, log := [] }
      = (Except.ok (str "made"),
          { container := (New.Bind exR "DemoParam" (Fn.func fnMadeString)).2,
            log := [Event.invoke 1 []] }) :=
  have h := C4_return_type_alias exR (findArg exR 1) New "DemoParam" fnMadeString tString [] []
    rfl rfl
  ⟨rfl, rfl, h.1.2.1, (h.1.2.2.2 rfl rfl).trans rfl⟩

/-! ## C5: precedence -/

/-- A `StaticCallByArguments` that returns has invoked the callable on the
arguments it resolved, as its last step. -/
theorem StaticCallByArguments_ok (R : Reflect) (find : FindArg) (m : MagicalFunc)
    (a a1 : ArgumentsTypeMap) (w w1 : World) (results : List Value)
    (h : StaticCallByArguments R find m a w = (Except.ok (results, a1), w1)) :
    ∃ fnArgs, results = m.call fnArgs ∧ w1.log.getLast? = some (Event.invoke m.id fnArgs) := by
  unfold StaticCallByArguments at h
  cases hC : StaticCallByArguments.collect R find m.arguments [] a w with
  | mk rr w0 =>
    rw [hC] at h
    cases rr with
    | error e => simp at h
    | ok fa =>
      obtain ⟨fnArgs, a2⟩ := fa
      simp only [Prod.mk.injEq, Except.ok.injEq] at h
      obtain ⟨⟨h1, _⟩, h2⟩ := h
      exact ⟨fnArgs, h1.symm, by rw [← h2]; simp⟩

/-- A `Call` of a descriptor that returns has invoked it, as its last step. -/
theorem Call_magical_ok (R : Reflect) (find : FindArg) (m : MagicalFunc) (args : List Value)
    (w w1 : World) (results : List Value)
    (h : Call R find (Fn.magical m) args w = (Except.ok results, w1)) :
    ∃ fnArgs, results = m.call fnArgs ∧ w1.log.getLast? = some (Event.invoke m.id fnArgs) := by
  simp only [Call, StaticCall] at h
  cases hN : NewArgumentsTypeMap R (args ++ [Value.container]) with
  | error e => rw [hN] at h; simp at h
  | ok a =>
    rw [hN] at h
    simp only [] at h
    cases hS : StaticCallByArguments R find m a w with
    | mk rr w0 =>
      rw [hS] at h
      cases rr with
      | error e => simp at h
      | ok ra =>
        obtain ⟨results0, a1⟩ := ra
        simp only [Prod.mk.injEq, Except.ok.injEq] at h
        obtain ⟨h1, h2⟩ := h
        subst h1
        subst h2
        exact StaticCallByArguments_ok R find m a a1 w w0 results0 hS

theorem GetByArguments_instance (R : Reflect) (find : FindArg) (K : String)
    (a : ArgumentsTypeMap) (w : World) (v : Value)
    (h : w.container.instances (w.container.GetKey K) = some v) :
    GetByArguments R find K a w = (Except.ok (v, a), w) := by
  simp [GetByArguments, h]

theorem GetByArguments_singleton (R : Reflect) (find : FindArg) (K : String)
    (a : ArgumentsTypeMap) (w : World) (m : MagicalFunc)
    (hi : w.container.instances (w.container.GetKey K) = none)
    (hs : w.container.singletons (w.container.GetKey K) = some m) :
    GetByArguments R find K a w =
      match StaticCallByArguments R find m a w with
      | (Except.error e, w1) => (Except.error e, w1)
      | (Except.ok ([], _), w1) => (Except.error Err.indexOutOfRange, w1)
      | (Except.ok (value :: _, a1), w1) =>
        (Except.ok (value, a1), w1.storeInstance (w.container.GetKey K) value) := by
  simp [GetByArguments, hi, hs]

theorem GetByArguments_bind (R : Reflect) (find : FindArg) (K : String)
    (a : ArgumentsTypeMap) (w : World) (m : MagicalFunc)
    (hi : w.container.instances (w.container.GetKey K) = none)
    (hs : w.container.singletons (w.container.GetKey K) = none)
    (hb : w.container.binds (w.container.GetKey K) = some m) :
    GetByArguments R find K a w =
      match StaticCallByArguments R find m a w with
      | (Except.error e, w1) => (Except.error e, w1)
      | (Except.ok ([], _), w1) => (Except.error Err.indexOutOfRange, w1)
      | (Except.ok (value :: _, a1), w1) => (Except.ok (value, a1), w1) := by
  simp [GetByArguments, hi, hs, hb]

theorem Get_none (R : Reflect) (find : FindArg) (K : String) (args : List Value) (w : World)
    (hi : w.container.instances (w.container.GetKey K) = none)
    (hs : w.container.singletons (w.container.GetKey K) = none)
    (hb : w.container.binds (w.container.GetKey K) = none) :
    Get R find K args w = (Except.ok Value.nil, w) := by
  simp [Get, hi, hs, hb]

theorem GetByArguments_none (R : Reflect) (find : FindArg) (K : String)
    (a : ArgumentsTypeMap) (w : World)
    (hi : w.container.instances (w.container.GetKey K) = none)
    (hs : w.container.singletons (w.container.GetKey K) = none)
    (hb : w.container.binds (w.container.GetKey K) = none) :
    GetByArguments R find K a w = (Except.ok (Value.nil, a), w) := by
  simp [GetByArguments, hi, hs, hb]

/-- What a returning `Get` did when it went through the singleton factory
`s`: it invoked `s` last, returned its first result and cached it. -/
theorem Get_singleton_ok (R : Reflect) (find : FindArg) (K : String) (args : List Value)
    (w w1 : World) (s : MagicalFunc) (v : Value)
    (hi : w.container.instances (w.container.GetKey K) = none)
    (hs : w.container.singletons (w.container.GetKey K) = some s)
    (h : Get R find K args w = (Except.ok v, w1)) :
    (∃ fnArgs, (s.call fnArgs).head? = some v ∧
        w1.log.getLast? = some (Event.invoke s.id fnArgs)) ∧
      w1.container.instances (w.container.GetKey K) = some v := by
  rw [Get_singleton R find K args w s hi hs] at h
  cases hC : Call R find (Fn.magical s) args w with
  | mk rr w0 =>
    rw [hC] at h
    cases rr with
    | error e => simp at h
    | ok results =>
      cases results with
      | nil => simp at h
      | cons v0 rest =>
        simp only [Prod.mk.injEq, Except.ok.injEq] at h
        obtain ⟨h1, h2⟩ := h
        subst h1
        subst h2
        obtain ⟨fnArgs, hr, hl⟩ := Call_magical_ok R find s args w w0 _ hC
        exact ⟨⟨fnArgs, by rw [← hr]; rfl, hl⟩, by simp [World.storeInstance, store]⟩

/-- What a returning `Get` did when it went through the binding `b`: it
invoked `b` last and returned its first result. -/
theorem Get_bind_ok (R : Reflect) (find : FindArg) (K : String) (args : List Value)
    (w w1 : World) (b : MagicalFunc) (v : Value)
    (hi : w.container.instances (w.container.GetKey K) = none)
    (hs : w.container.singletons (w.container.GetKey K) = none)
    (hb : w.container.binds (w.container.GetKey K) = some b)
    (h : Get R find K args w = (Except.ok v, w1)) :
    ∃ fnArgs, (b.call fnArgs).head? = some v ∧
      w1.log.getLast? = some (Event.invoke b.id fnArgs) := by
  rw [Get_bind R find K args w b hi hs hb] at h
  cases hC : Call R find (Fn.magical b) args w with
  | mk rr w0 =>
    rw [hC] at h
    cases rr with
    | error e => simp at h
    | ok results =>
      cases results with
      | nil => simp at h
      | cons v0 rest =>
        simp only [Prod.mk.injEq, Except.ok.injEq] at h
        obtain ⟨h1, h2⟩ := h
        subst h1
        subst h2
        obtain ⟨fnArgs, hr, hl⟩ := Call_magical_ok R find b args w _ _ hC
        exact ⟨fnArgs, by rw [← hr]; rfl, hl⟩

theorem GetByArguments_singleton_ok (R : Reflect) (find : FindArg) (K : String)
    (a a1 : ArgumentsTypeMap) (w w1 : World) (s : MagicalFunc) (v : Value)
    (hi : w.container.instances (w.container.GetKey K) = none)
    (hs : w.container.singletons (w.container.GetKey K) = some s)
    (h : GetByArguments R find K a w = (Except.ok (v, a1), w1)) :
    (∃ fnArgs, (s.call fnArgs).head? = some v ∧
        w1.log.getLast? = some (Event.invoke s.id fnArgs)) ∧
      w1.container.instances (w.container.GetKey K) = some v := by
  rw [GetByArguments_singleton R find K a w s hi hs] at h
  cases hC : StaticCallByArguments R find s a w with
  | mk rr w0 =>
    rw [hC] at h
    cases rr with
    | error e => simp at h
    | ok ra =>
      obtain ⟨results, a2⟩ := ra
      cases results with
      | nil => simp at h
      | cons v0 rest =>
        simp only [Prod.mk.injEq, Except.ok.injEq] at h
        obtain ⟨⟨h1, _⟩, h2⟩ := h
        subst h1
        subst h2
        obtain ⟨fnArgs, hr, hl⟩ := StaticCallByArguments_ok R find s a a2 w w0 _ hC
        exact ⟨⟨fnArgs, by rw [← hr]; rfl, hl⟩, by simp [World.storeInstance, store]⟩

theorem GetByArguments_bind_ok (R : Reflect) (find : FindArg) (K : String)
    (a a1 : ArgumentsTypeMap) (w w1 : World) (b : MagicalFunc) (v : Value)
    (hi : w.container.instances (w.container.GetKey K) = none)
    (hs : w.container.singletons (w.container.GetKey K) = none)
    (hb : w.container.binds (w.container.GetKey K) = some b)
    (h : GetByArguments R find K a w = (Except.ok (v, a1), w1)) :
    ∃ fnArgs, (b.call fnArgs).head? = some v ∧
      w1.log.getLast? = some (Event.invoke b.id fnArgs) := by
  rw [GetByArguments_bind R find K a w b hi hs hb] at h
  cases hC : StaticCallByArguments R find b a w with
  | mk rr w0 =>
    rw [hC] at h
    cases rr with
    | error e => simp at h
    | ok ra =>
      obtain ⟨results, a2⟩ := ra
      cases results with
      | nil => simp at h
      | cons v0 rest =>
        simp only [Prod.mk.injEq, Except.ok.injEq] at h
        obtain ⟨⟨h1, _⟩, h2⟩ := h
        subst h1
        subst h2
        obtain ⟨fnArgs, hr, hl⟩ := StaticCallByArguments_ok R find b a a2 w _ _ hC
        exact ⟨fnArgs, by rw [← hr]; rfl, hl⟩

/-- C5: `Get` and `GetByArguments` apply the precedence instance, singleton,
binding on the canonical key `k = GetKey(key)`. (1) An instance under `k` is
returned and the state, log included, is unchanged, so no factory is
invoked. (2) Otherwise, with a singleton factory `s` under `k`, whatever
binding is also there, the call is a call of `s`, and when it returns, `s`
was invoked last, its first result is the value returned and is cached
under `k`. (3) Otherwise, with a binding `b` under `k`, the call is a call
of `b`, and when it returns, `b` was invoked last and its first result is
the value returned. (4) Otherwise nil is returned and nothing changes. -/
theorem C5_precedence (R : Reflect) (find : FindArg) (key : String) (args : List Value)
    (a : ArgumentsTypeMap) (w : World) :
    (∀ v, w.container.instances (w.container.GetKey key) = some v →
      Get R find key args w = (Except.ok v, w) ∧
      GetByArguments R find key a w = (Except.ok (v, a), w)) ∧
    (∀ s, w.container.instances (w.container.GetKey key) = none →
      w.container.singletons (w.container.GetKey key) = some s →
      (Get R find key args w =
        match Call R find (Fn.magical s) args w with
        | (Except.error e, w1) => (Except.error e, w1)
        | (Except.ok [], w1) => (Except.error Err.indexOutOfRange, w1)
        | (Except.ok (value :: _), w1) =>
          (Except.ok value, w1.storeInstance (w.container.GetKey key) value)) ∧
      (GetByArguments R find key a w =
        match StaticCallByArguments R find s a w with
        | (Except.error e, w1) => (Except.error e, w1)
        | (Except.ok ([], _), w1) => (Except.error Err.indexOutOfRange, w1)
        | (Except.ok (value :: _, a1), w1) =>
          (Except.ok (value, a1), w1.storeInstance (w.container.GetKey key) value)) ∧
      (∀ v w1, Get R find key args w = (Except.ok v, w1) →
        (∃ fnArgs, (s.call fnArgs).head? = some v ∧
          w1.log.getLast? = some (Event.invoke s.id fnArgs)) ∧
        w1.container.instances (w.container.GetKey key) = some v) ∧
      (∀ v a1 w1, GetByArguments R find key a w = (Except.ok (v, a1), w1) →
        (∃ fnArgs, (s.call fnArgs).head? = some v ∧
          w1.log.getLast? = some (Event.invoke s.id fnArgs)) ∧
        w1.container.instances (w.container.GetKey key) = some v)) ∧
    (∀ b, w.container.instances (w.container.GetKey key) = none →
      w.container.singletons (w.container.GetKey key) = none →
      w.container.binds (w.container.GetKey key) = some b →
      (Get R find key args w =
        match Call R find (Fn.magical b) args w with
        | (Except.error e, w1) => (Except.error e, w1)
        | (Except.ok [], w1) => (Except.error Err.indexOutOfRange, w1)
        | (Except.ok (value :: _), w1) => (Except.ok value, w1)) ∧
      (GetByArguments R find key a w =
        match StaticCallByArguments R find b a w with
        | (Except.error e, w1) => (Except.error e, w1)
        | (Except.ok ([], _), w1) => (Except.error Err.indexOutOfRange, w1)
        | (Except.ok (value :: _, a1), w1) => (Except.ok (value, a1), w1)) ∧
      (∀ v w1, Get R find key args w = (Except.ok v, w1) →
        ∃ fnArgs, (b.call fnArgs).head? = some v ∧
          w1.log.getLast? = some (Event.invoke b.id fnArgs)) ∧
      (∀ v a1 w1, GetByArguments R find key a w = (Except.ok (v, a1), w1) →
        ∃ fnArgs, (b.call fnArgs).head? = some v ∧
          w1.log.getLast? = some (Event.invoke b.id fnArgs))) ∧
    (w.container.instances (w.container.GetKey key) = none →
      w.container.singletons (w.container.GetKey key) = none →
      w.container.binds (w.container.GetKey key) = none →
      Get R find key args w = (Except.ok Value.nil, w) ∧
      GetByArguments R find key a w = (Except.ok (Value.nil, a), w)) := by
  refine ⟨?_, ?_, ?_, ?_⟩
  · intro v hi
    exact ⟨Get_instance R find key args w v hi, GetByArguments_instance R find key a w v hi⟩
  · intro s hi hs
    exact ⟨Get_singleton R find key args w s hi hs,
      GetByArguments_singleton R find key a w s hi hs,
      fun v w1 h => Get_singleton_ok R find key args w w1 s v hi hs h,
      fun v a1 w1 h => GetByArguments_singleton_ok R find key a a1 w w1 s v hi hs h⟩
  · intro b hi hs hb
    exact ⟨Get_bind R find key args w b hi hs hb,
      GetByArguments_bind R find key a w b hi hs hb,
      fun v w1 h => Get_bind_ok R find key args w w1 b v hi hs hb h,
      fun v a1 w1 h => GetByArguments_bind_ok R find key a a1 w w1 b v hi hs hb h⟩
  · intro hi hs hb
    exact ⟨Get_none R find key args w hi hs hb, GetByArguments_none R find key a w hi hs hb⟩

/-- C5 at concrete inputs: under `"p"` the instance wins over the singleton
factory and the binding, under `"q"` the singleton factory wins over the
binding and its result is cached, under `"r"` the binding is invoked, and
under `"z"` nothing is found. -/
theorem C5_precedence_witness :
    Get exR (findArg exR 1) "p" [] (worldOf cPrec) = (Except.ok (str "pinned"), worldOf cPrec) ∧
    ((∃ fnArgs, (fnMadeString.call fnArgs).head? = some (str "made") ∧
        (Get exR (findArg exR 1) "q" [] (worldOf cPrec)).2.log.getLast?
          = some (Event.invoke fnMadeString.id fnArgs)) ∧
      (Get exR (findArg exR 1) "q" [] (worldOf cPrec)).2.container.instances
          ((worldOf cPrec).container.GetKey "q") = some (str "made")) ∧
    (∃ fnArgs, (fnBound.call fnArgs).head? = some (str "bound") ∧
        (Get exR (findArg exR 1) "r" [] (worldOf cPrec)).2.log.getLast?
          = some (Event.invoke fnBound.id fnArgs)) ∧
    Get exR (findArg exR 1) "z" [] (worldOf cPrec) = (Except.ok Value.nil, worldOf cPrec) :=
  ⟨((C5_precedence exR (findArg exR 1) "p" [] [] (worldOf cPrec)).1 (str "pinned") rfl).1,
    (C5_precedence exR (findArg exR 1) "q" [] [] (worldOf cPrec)).2.1 fnMadeString rfl rfl
      |>.2.2.1 (str "made") _ rfl,
    (C5_precedence exR (findArg exR 1) "r" [] [] (worldOf cPrec)).2.2.1 fnBound rfl rfl rfl
      |>.2.2.1 (str "bound") _ rfl,
    ((C5_precedence exR (findArg exR 1) "z" [] [] (worldOf cPrec)).2.2.2 rfl rfl rfl).1⟩

/-! ## The argument map -/

theorem bucket_setBucket_same (this : ArgumentsTypeMap) (k : String) (b : List Value) :
    (this.setBucket k b).bucket k = some b := by
  induction this with
  | nil => simp [ArgumentsTypeMap.setBucket, ArgumentsTypeMap.bucket]
  | cons kb rest ih =>
    obtain ⟨k0, b0⟩ := kb
    by_cases h : k0 = k
    · simp [ArgumentsTypeMap.setBucket, ArgumentsTypeMap.bucket, h]
    · simp [ArgumentsTypeMap.setBucket, ArgumentsTypeMap.bucket, h, ih]

theorem bucket_setBucket_other (this : ArgumentsTypeMap) (k k1 : String) (b : List Value)
    (hne : k1 ≠ k) : (this.setBucket k b).bucket k1 = this.bucket k1 := by
  induction this with
  | nil =>
    have : k ≠ k1 := fun e => hne e.symm
    simp [ArgumentsTypeMap.setBucket, ArgumentsTypeMap.bucket, this]
  | cons kb rest ih =>
    obtain ⟨k0, b0⟩ := kb
    by_cases h : k0 = k
    · subst h
      have : k0 ≠ k1 := fun e => hne e.symm
      simp [ArgumentsTypeMap.setBucket, ArgumentsTypeMap.bucket, this]
    · by_cases h1 : k0 = k1
      · subst h1
        simp [ArgumentsTypeMap.setBucket, ArgumentsTypeMap.bucket, h]
      · simp [ArgumentsTypeMap.setBucket, ArgumentsTypeMap.bucket, h, h1, ih]

/-- The buckets `NewArgumentsTypeMap` builds: the supplied arguments of each
type key, in the order supplied, after what the bucket held before. -/
theorem loop_bucket (R : Reflect) (args : List Value) :
    ∀ (m0 m : ArgumentsTypeMap), NewArgumentsTypeMap.loop R args m0 = Except.ok m →
      ∀ k, (m.bucket k).getD [] = (m0.bucket k).getD [] ++ args.filter (hasKey R k) := by
  induction args with
  | nil =>
    intro m0 m h k
    simp only [NewArgumentsTypeMap.loop, Except.ok.injEq] at h
    simp [h]
  | cons arg rest ih =>
    intro m0 m h k
    unfold NewArgumentsTypeMap.loop at h
    cases ht : TypeOf arg with
    | none => rw [ht] at h; simp at h
    | some t =>
      rw [ht] at h
      simp only [] at h
      rw [ih _ m h k]
      by_cases hk : R.typeKey t = k
      · subst hk
        rw [bucket_setBucket_same]
        simp [hasKey, ht]
      · have hk1 : k ≠ R.typeKey t := fun e => hk e.symm
        rw [bucket_setBucket_other _ _ _ _ hk1]
        simp [hasKey, ht, hk]

theorem NewArgumentsTypeMap_bucket (R : Reflect) (args : List Value) (m : ArgumentsTypeMap)
    (h : NewArgumentsTypeMap R args = Except.ok m) (k : String) :
    (m.bucket k).getD [] = args.filter (hasKey R k) := by
  have := loop_bucket R args [] m h k
  simpa [ArgumentsTypeMap.bucket] using this

/-- The call `NewArgumentsTypeMap` succeeds on arguments none of which is nil. -/
theorem loop_ok (R : Reflect) (args : List Value) (hargs : ∀ v ∈ args, (TypeOf v).isSome) :
    ∀ m0, ∃ m, NewArgumentsTypeMap.loop R args m0 = Except.ok m := by
  induction args with
  | nil => intro m0; exact ⟨m0, rfl⟩
  | cons arg rest ih =>
    intro m0
    have h1 := hargs arg (List.mem_cons_self _ _)
    cases ht : TypeOf arg with
    | none => rw [ht] at h1; simp at h1
    | some t =>
      obtain ⟨m, hm⟩ := ih (fun v hv => hargs v (List.mem_cons_of_mem _ hv))
        (m0.setBucket (R.typeKey t) ((m0.bucket (R.typeKey t)).getD [] ++ [arg]))
      exact ⟨m, by simp only [NewArgumentsTypeMap.loop, ht]; exact hm⟩

/-- A `Pull` on a bucket that holds `x` first. -/
theorem Pull_cons (this : ArgumentsTypeMap) (k : String) (x : Value) (item : List Value)
    (h : (this.bucket k).getD [] = x :: item) :
    Pull this k = (x, this.setBucket k item) := by
  cases hb : this.bucket k with
  | none => rw [hb] at h; simp at h
  | some b =>
    rw [hb] at h
    simp only [Option.getD_some] at h
    subst h
    simp [Pull, hb]

/-- A `Pull` on a missing or empty bucket. -/
theorem Pull_empty (this : ArgumentsTypeMap) (k : String)
    (h : (this.bucket k).getD [] = []) : Pull this k = (Value.nil, this) := by
  cases hb : this.bucket k with
  | none => simp [Pull, hb]
  | some b =>
    rw [hb] at h
    simp only [Option.getD_some] at h
    subst h
    simp [Pull, hb]

/-- A `Pull(k)` changes no bucket other than that of `k`. -/
theorem Pull_other (this : ArgumentsTypeMap) (k k1 : String) (hne : k1 ≠ k) :
    (Pull this k).2.bucket k1 = this.bucket k1 := by
  cases hb : (this.bucket k).getD [] with
  | nil => rw [Pull_empty this k hb]
  | cons x item => rw [Pull_cons this k x item hb]; exact bucket_setBucket_other _ _ _ _ hne

theorem PullRepeat_values (k : String) (n : Nat) :
    ∀ (this : ArgumentsTypeMap) (xs : List Value), (this.bucket k).getD [] = xs →
      (PullRepeat k n this).1 = xs.take n ++ List.replicate (n - xs.length) Value.nil := by
  induction n with
  | zero => intro this xs _; simp [PullRepeat]
  | succ n ih =>
    intro this xs h
    cases xs with
    | nil =>
      rw [PullRepeat, Pull_empty this k h]
      simp only []
      rw [ih this [] h]
      simp [List.replicate_succ]
    | cons x item =>
      rw [PullRepeat, Pull_cons this k x item h]
      simp only []
      rw [ih (this.setBucket k item) item (by rw [bucket_setBucket_same]; rfl)]
      simp

theorem PullRepeat_other (k k1 : String) (hne : k1 ≠ k) (n : Nat) :
    ∀ this : ArgumentsTypeMap, (PullRepeat k n this).2.bucket k1 = this.bucket k1 := by
  induction n with
  | zero => intro this; rfl
  | succ n ih =>
    intro this
    rw [PullRepeat]
    simp only []
    rw [ih, Pull_other this k k1 hne]

/-! ## C10: `Pull` -/

/-- C10: `NewArgumentsTypeMap` builds a map from every list of supplied
arguments none of which is nil, and on the map it builds, for every type
key `k`, `n` successive calls `Pull(k)` return exactly the supplied
arguments whose type key is `k`, in the order supplied, each once, and nil
on every call after that (on every call when no argument has key `k`);
neither one `Pull(k)` nor `n` of them change the bucket of another key. -/
theorem C10_pull_fifo (R : Reflect) (args : List Value) (k : String) (n : Nat) :
    ((∀ v ∈ args, (TypeOf v).isSome) → ∃ m, NewArgumentsTypeMap R args = Except.ok m) ∧
    (∀ m, NewArgumentsTypeMap R args = Except.ok m →
      (PullRepeat k n m).1 =
        (args.filter (hasKey R k)).take n ++
          List.replicate (n - (args.filter (hasKey R k)).length) Value.nil ∧
      (∀ k1, k1 ≠ k → (Pull m k).2.bucket k1 = m.bucket k1) ∧
      (∀ k1, k1 ≠ k → (PullRepeat k n m).2.bucket k1 = m.bucket k1)) := by
  refine ⟨fun hargs => loop_ok R args hargs [], ?_⟩
  intro m hm
  exact ⟨PullRepeat_values k n m _ (NewArgumentsTypeMap_bucket R args m hm k),
    fun k1 h1 => Pull_other m k k1 h1, fun k1 h1 => PullRepeat_other k k1 h1 n m⟩

/-- C10 at the input of the test: of a string and a `DemoParam`, three
calls `Pull("string")` return the string and then nil twice, and leave the
bucket of `DemoParam` alone. -/
theorem C10_pull_fifo_witness :
    NewArgumentsTypeMap exR [str "lalala", demoParam "111"]
      = Except.ok [("string", [str "lalala"]), ("DemoParam", [demoParam "111"])] ∧
    (PullRepeat "string" 3 [("string", [str "lalala"]), ("DemoParam", [demoParam "111"])]).1
      = [str "lalala", Value.nil, Value.nil] ∧
    (PullRepeat "string" 3
        [("string", [str "lalala"]), ("DemoParam", [demoParam "111"])]).2.bucket "DemoParam"
      = some [demoParam "111"] :=
  have h := (C10_pull_fifo exR [str "lalala", demoParam "111"] "string" 3).2
    [("string", [str "lalala"]), ("DemoParam", [demoParam "111"])] rfl
  ⟨rfl, h.1.trans rfl, (h.2.2 "DemoParam" (by decide)).trans rfl⟩

/-! ## C6: the order of the argument providers -/

theorem isNil_of_ne (v : Value) (h : v ≠ Value.nil) : v.isNil = false := by
  cases v <;> simp_all [Value.isNil]

theorem isNil_nil : Value.nil.isNil = true := rfl

/-- With nothing pulled, nothing convertible and nothing in the registry,
`findArg` is the fourth provider. -/
theorem loop_last (provider : Provider) (key : String) (p : GoType) (a : ArgumentsTypeMap)
    (w : World) : findArg.loop [provider] key p a w = provider key p a w := by
  unfold findArg.loop
  cases h : provider key p a w with
  | mk r w1 =>
    cases r with
    | error e => rfl
    | ok va =>
      obtain ⟨v, a1⟩ := va
      cases v <;> simp [Value.isNil, findArg.loop]

theorem findArg_pulled (R : Reflect) (fuel : Nat) (key : String) (p : GoType)
    (a a1 : ArgumentsTypeMap) (w : World) (v : Value)
    (h1 : Pull a key = (v, a1)) (hv : v ≠ Value.nil) :
    findArg R (fuel + 1) key p a w = (Except.ok (v, a1), w) := by
  simp [findArg, argProviders, findArg.loop, providerPull, h1, isNil_of_ne v hv]

theorem findArg_convertible (R : Reflect) (fuel : Nat) (key : String) (p : GoType)
    (a a1 : ArgumentsTypeMap) (w : World) (v : Value)
    (h1 : Pull a key = (Value.nil, a1)) (h2 : FindConvertibleArg R a1 key p = Except.ok v)
    (hv : v ≠ Value.nil) :
    findArg R (fuel + 1) key p a w = (Except.ok (v, a1), w) := by
  simp [findArg, argProviders, findArg.loop, providerPull, providerConvertible, h1, h2,
    isNil_nil, isNil_of_ne v hv]

theorem findArg_convertible_error (R : Reflect) (fuel : Nat) (key : String) (p : GoType)
    (a a1 : ArgumentsTypeMap) (w : World) (e : Err)
    (h1 : Pull a key = (Value.nil, a1)) (h2 : FindConvertibleArg R a1 key p = Except.error e) :
    findArg R (fuel + 1) key p a w = (Except.error e, w) := by
  simp [findArg, argProviders, findArg.loop, providerPull, providerConvertible, h1, h2,
    isNil_nil]

theorem findArg_registry (R : Reflect) (fuel : Nat) (key : String) (p : GoType)
    (a a1 a3 : ArgumentsTypeMap) (w w3 : World) (v : Value)
    (h1 : Pull a key = (Value.nil, a1)) (h2 : FindConvertibleArg R a1 key p = Except.ok Value.nil)
    (h3 : GetByArguments R (findArg R fuel) key a1 w = (Except.ok (v, a3), w3))
    (hv : v ≠ Value.nil) :
    findArg R (fuel + 1) key p a w = (Except.ok (v, a3), w3) := by
  simp [findArg, argProviders, findArg.loop, providerPull, providerConvertible,
    providerRegistry, h1, h2, h3, isNil_nil, isNil_of_ne v hv]

theorem findArg_registry_error (R : Reflect) (fuel : Nat) (key : String) (p : GoType)
    (a a1 : ArgumentsTypeMap) (w w3 : World) (e : Err)
    (h1 : Pull a key = (Value.nil, a1)) (h2 : FindConvertibleArg R a1 key p = Except.ok Value.nil)
    (h3 : GetByArguments R (findArg R fuel) key a1 w = (Except.error e, w3)) :
    findArg R (fuel + 1) key p a w = (Except.error e, w3) := by
  simp [findArg, argProviders, findArg.loop, providerPull, providerConvertible,
    providerRegistry, h1, h2, h3, isNil_nil]

theorem findArg_new (R : Reflect) (fuel : Nat) (key : String) (p : GoType)
    (a a1 a3 : ArgumentsTypeMap) (w w3 : World)
    (h1 : Pull a key = (Value.nil, a1)) (h2 : FindConvertibleArg R a1 key p = Except.ok Value.nil)
    (h3 : GetByArguments R (findArg R fuel) key a1 w = (Except.ok (Value.nil, a3), w3)) :
    findArg R (fuel + 1) key p a w = providerNew R (findArg R fuel) key p a3 w3 := by
  have h := loop_last (providerNew R (findArg R fuel)) key p a3 w3
  simp only [findArg, argProviders]
  rw [← h]
  simp [findArg.loop, providerPull, providerConvertible, providerRegistry, h1, h2, h3,
    isNil_nil]

/-- C6: `findArg` returns the result of the first provider, in the order
exact-type `Pull`, convertible-type scan, registry lookup, new object, that
yields a non-nil value, in the state that provider left, so that no later
provider is run: (1) a non-nil pulled value; (2) else a non-nil convertible
argument; (3) else a non-nil value from the registry; (4) else whatever the
fourth provider gives. In particular (5) a supplied non-nil argument that
heads the bucket of the parameter's type key is returned with the state and
its log unchanged, whatever is bound for that type, and (6) with no argument
in that bucket and none convertible, the non-nil first result of the binding
registered for the type is returned. -/
theorem C6_provider_order (R : Reflect) (fuel : Nat) (key : String) (p : GoType)
    (a : ArgumentsTypeMap) (w : World) :
    (∀ v a1, Pull a key = (v, a1) → v ≠ Value.nil →
      findArg R (fuel + 1) key p a w = (Except.ok (v, a1), w)) ∧
    (∀ a1 v, Pull a key = (Value.nil, a1) → FindConvertibleArg R a1 key p = Except.ok v →
      v ≠ Value.nil → findArg R (fuel + 1) key p a w = (Except.ok (v, a1), w)) ∧
    (∀ a1 v a3 w3, Pull a key = (Value.nil, a1) →
      FindConvertibleArg R a1 key p = Except.ok Value.nil →
      GetByArguments R (findArg R fuel) key a1 w = (Except.ok (v, a3), w3) → v ≠ Value.nil →
      findArg R (fuel + 1) key p a w = (Except.ok (v, a3), w3)) ∧
    (∀ a1 a3 w3, Pull a key = (Value.nil, a1) →
      FindConvertibleArg R a1 key p = Except.ok Value.nil →
      GetByArguments R (findArg R fuel) key a1 w = (Except.ok (Value.nil, a3), w3) →
      findArg R (fuel + 1) key p a w = providerNew R (findArg R fuel) key p a3 w3) ∧
    (∀ x rest, (a.bucket key).getD [] = x :: rest → x ≠ Value.nil →
      findArg R (fuel + 1) key p a w = (Except.ok (x, a.setBucket key rest), w)) ∧
    (∀ b v rest a1 w1, (a.bucket key).getD [] = [] →
      FindConvertibleArg R a key p = Except.ok Value.nil →
      w.container.instances (w.container.GetKey key) = none →
      w.container.singletons (w.container.GetKey key) = none →
      w.container.binds (w.container.GetKey key) = some b →
      StaticCallByArguments R (findArg R fuel) b a w = (Except.ok (v :: rest, a1), w1) →
      v ≠ Value.nil →
      findArg R (fuel + 1) key p a w = (Except.ok (v, a1), w1)) := by
  refine ⟨?_, ?_, ?_, ?_, ?_, ?_⟩
  · intro v a1 h1 hv
    exact findArg_pulled R fuel key p a a1 w v h1 hv
  · intro a1 v h1 h2 hv
    exact findArg_convertible R fuel key p a a1 w v h1 h2 hv
  · intro a1 v a3 w3 h1 h2 h3 hv
    exact findArg_registry R fuel key p a a1 a3 w w3 v h1 h2 h3 hv
  · intro a1 a3 w3 h1 h2 h3
    exact findArg_new R fuel key p a a1 a3 w w3 h1 h2 h3
  · intro x rest hb hx
    exact findArg_pulled R fuel key p a _ w x (Pull_cons a key x rest hb) hx
  · intro b v rest a1 w1 hb h2 hi hs hbind h3 hv
    refine findArg_registry R fuel key p a a a1 w w1 v (Pull_empty a key hb) h2 ?_ hv
    rw [GetByArguments_bind R (findArg R fuel) key a w b hi hs hbind, h3]

/-- C6 at the inputs of the test: with a binding for `DemoParam`, a supplied
`DemoParam` is used and nothing is invoked; with no supplied argument the
bound function is invoked and its result used. -/
theorem C6_provider_order_witness :
    (argsGiven.bucket "DemoParam").getD [] = [demoParam "given"] ∧
    demoParam "given" ≠ Value.nil ∧
    findArg exR 1 "DemoParam" tDemoParam argsGiven (worldOf cDemo)
      = (Except.ok (demoParam "given", argsGiven.setBucket "DemoParam" []), worldOf cDemo) ∧
    (argsNone.bucket "DemoParam").getD [] = [] ∧
    findArg exR 1 "DemoParam" tDemoParam argsNone (worldOf cDemo)
      = (Except.ok (demoParam "from container", argsNone),
          { container := cDemo, log := [Event.invoke 4 []] }) :=
  have hne : ∀ s, demoParam s ≠ Value.nil := fun s h => by simp [demoParam] at h
  ⟨rfl, hne _,
    (C6_provider_order exR 0 "DemoParam" tDemoParam argsGiven (worldOf cDemo)).2.2.2.2.1
      (demoParam "given") [] rfl (hne _),
    rfl,
    (C6_provider_order exR 0 "DemoParam" tDemoParam argsNone (worldOf cDemo)).2.2.2.2.2
      fnFromContainer (demoParam "from container") [] argsNone
      { container := cDemo, log := [Event.invoke 4 []] } rfl rfl rfl rfl rfl rfl (hne _)⟩

/-! ## C7: the fourth provider -/

/-- The fourth provider raises the usage error of `DIByArguments` on every
parameter type that is not a pointer, not a component, and whose zero value
is not a struct. -/
theorem providerNew_not_struct (R : Reflect) (find : FindArg) (key : String) (p : GoType)
    (a : ArgumentsTypeMap) (w : World) (hptr : p.isPtr = false)
    (hc : R.isComponent (GoType.ptr p) = false) (hz : (R.zero p).Kind ≠ Kind.Struct) :
    providerNew R find key p a w = (Except.error Err.notStructPointer, w) := by
  unfold providerNew
  simp only [hptr]
  have hcomp : isComponent R (Value.ptr p (R.zero p)) = false := by
    simp [isComponent, TypeOf, hc]
  cases hzero : R.zero p with
  | struct ty fs => rw [hzero] at hz; simp [Value.Kind] at hz
  | nil => simp [DIByArguments, isComponent, TypeOf, hc]
  | scalar ty r => simp [DIByArguments, isComponent, TypeOf, hc]
  | ptr e t => simp [DIByArguments, isComponent, TypeOf, hc]
  | container => simp [DIByArguments, isComponent, TypeOf, hc]

/-- C7 on the input of `TestDIDontDefineValue`: on a fresh container, with
no argument supplied (the map holds the container only), `findArg` for a
`string` parameter and for a `contracts.Model` parameter raises the usage
error of `DIByArguments`, at every depth, and so does the call of
`func(name string, model contracts.Model)`; no value is returned. -/
theorem C7_new_object_fails_on_string :
    (∀ fuel, findArg exR (fuel + 1) (exR.typeKey tString) tString argsNone (worldOf New)
      = (Except.error Err.notStructPointer, worldOf New)) ∧
    (∀ fuel, findArg exR (fuel + 1) (exR.typeKey tModel) tModel argsNone (worldOf New)
      = (Except.error Err.notStructPointer, worldOf New)) ∧
    NewArgumentsTypeMap exR ([] ++ [Value.container]) = Except.ok argsNone ∧
    (∀ fuel, Call exR (findArg exR (fuel + 1)) (Fn.func fnNameModel) [] (worldOf New)
      = (Except.error Err.notStructPointer, worldOf New)) := by
  refine ⟨fun _ => rfl, fun _ => rfl, rfl, fun _ => rfl⟩

/-! ## C8: calling with every argument supplied -/

theorem ne_nil_of_TypeOf (v : Value) (t : GoType) (h : TypeOf v = some t) : v ≠ Value.nil := by
  intro e
  rw [e] at h
  simp [TypeOf] at h

theorem hasKey_of_TypeOf (R : Reflect) (v : Value) (t : GoType) (h : TypeOf v = some t)
    (k : String) : hasKey R k v = decide (R.typeKey t = k) := by
  simp [hasKey, h]

/-- A `StaticCall` of a callable with parameters `(A, B)` on supplied `a` of
type `A` and `b` of type `B` invokes it on `[a, b]`. -/
theorem StaticCall_two_supplied (R : Reflect) (fuel : Nat) (m : MagicalFunc) (A B : GoType)
    (a b : Value) (w : World) (harg : m.arguments = [A, B]) (ha : TypeOf a = some A)
    (hb : TypeOf b = some B) :
    StaticCall R (findArg R (fuel + 1)) m [a, b] w =
      (Except.ok (m.call [a, b]), { w with log := w.log ++ [Event.invoke m.id [a, b]] }) := by
  have hargs : ∀ v ∈ [a, b] ++ [Value.container], (TypeOf v).isSome := by
    intro v hv
    simp only [List.cons_append, List.nil_append, List.mem_cons, List.mem_singleton,
      List.not_mem_nil, or_false] at hv
    rcases hv with h | h | h
    · rw [h, ha]; rfl
    · rw [h, hb]; rfl
    · rw [h]; rfl
  obtain ⟨am, hm⟩ := loop_ok R ([a, b] ++ [Value.container]) hargs []
  have hbucket := NewArgumentsTypeMap_bucket R _ am hm
  have hA : (am.bucket (R.typeKey A)).getD [] =
      a :: [b, Value.container].filter (hasKey R (R.typeKey A)) := by
    rw [hbucket]
    simp [List.filter, hasKey_of_TypeOf R a A ha]
  have h1 := findArg_pulled R fuel (R.typeKey A) A am _ w a (Pull_cons am _ a _ hA)
    (ne_nil_of_TypeOf a A ha)
  have hB : ∃ rest, ((am.setBucket (R.typeKey A)
      ([b, Value.container].filter (hasKey R (R.typeKey A)))).bucket (R.typeKey B)).getD []
        = b :: rest := by
    by_cases hk : R.typeKey B = R.typeKey A
    · rw [hk, bucket_setBucket_same]
      refine ⟨[Value.container].filter (hasKey R (R.typeKey A)), ?_⟩
      simp [List.filter, hasKey_of_TypeOf R b B hb, hk]
    · rw [bucket_setBucket_other _ _ _ _ hk, hbucket]
      have hk1 : ¬ R.typeKey A = R.typeKey B := fun e => hk e.symm
      refine ⟨[Value.container].filter (hasKey R (R.typeKey B)), ?_⟩
      simp [List.filter, hasKey_of_TypeOf R b B hb, hasKey_of_TypeOf R a A ha, hk1]
  obtain ⟨rest, hB⟩ := hB
  have h2 := findArg_pulled R fuel (R.typeKey B) B _ _ w b (Pull_cons _ _ b rest hB)
    (ne_nil_of_TypeOf b B hb)
  unfold StaticCall
  have hm1 : NewArgumentsTypeMap R ([a, b] ++ [Value.container]) = Except.ok am := hm
  rw [hm1]
  simp only [StaticCallByArguments, harg, StaticCallByArguments.collect, h1, h2]
  rfl

/-- C8: for every callable `f` with parameters `(A, B)` and supplied values
`a` of type `A` and `b` of type `B` (hence non-nil), `Call(f, a, b)`, with
`f` passed as a function or as a descriptor, invokes `f` exactly on
`[a, b]`, in the order supplied also when `A` and `B` are the same type, and
returns the results of that call, whatever the registry contains; nothing
else is run and the container is unchanged. -/
theorem C8_call_roundtrip (R : Reflect) (fuel : Nat) (m : MagicalFunc) (A B : GoType)
    (a b : Value) (w : World) (harg : m.arguments = [A, B]) (ha : TypeOf a = some A)
    (hb : TypeOf b = some B) :
    Call R (findArg R (fuel + 1)) (Fn.func m) [a, b] w =
      (Except.ok (m.call [a, b]), { w with log := w.log ++ [Event.invoke m.id [a, b]] }) ∧
    Call R (findArg R (fuel + 1)) (Fn.magical m) [a, b] w =
      (Except.ok (m.call [a, b]), { w with log := w.log ++ [Event.invoke m.id [a, b]] }) := by
  have h := StaticCall_two_supplied R fuel m A B a b w harg ha hb
  exact ⟨by simpa [Call, NewMagicalFunc] using h, by simpa [Call] using h⟩

/-- C8 at a concrete input: two strings supplied to `func(x, y string)` on a
container with registrations for `string`; they are bound in the order
supplied. -/
theorem C8_call_roundtrip_witness :
    fnJoin.arguments = [tString, tString] ∧
    TypeOf (str "first") = some tString ∧ TypeOf (str "second") = some tString ∧
    Call exR (findArg exR 1) (Fn.func fnJoin) [str "first", str "second"] (worldOf cPrec) =
      (Except.ok [str "first-second"],
        { container := cPrec, log := [Event.invoke 6 [str "first", str "second"]] }) :=
  ⟨rfl, rfl, rfl,
    (C8_call_roundtrip exR 0 fnJoin tString tString (str "first") (str "second") (worldOf cPrec)
      rfl rfl rfl).1.trans rfl⟩

/-! ## C9: a supplied argument is consumed -/

/-- The map `NewArgumentsTypeMap` builds from one supplied value and the
container, when their type keys differ. -/
theorem NewArgumentsTypeMap_one (R : Reflect) (t : Value) (T : GoType)
    (ht : TypeOf t = some T) (hkc : R.typeKey containerType ≠ R.typeKey T) :
    NewArgumentsTypeMap R ([t] ++ [Value.container]) =
      Except.ok [(R.typeKey T, [t]), (R.typeKey containerType, [Value.container])] := by
  have hkc1 : ¬ R.typeKey T = R.typeKey containerType := fun e => hkc e.symm
  have hc : TypeOf Value.container = some containerType := rfl
  simp only [NewArgumentsTypeMap, List.cons_append, List.nil_append, NewArgumentsTypeMap.loop,
    ht, hc]
  simp [ArgumentsTypeMap.bucket, ArgumentsTypeMap.setBucket, hkc1]

/-- C9: a callable with two parameters of the same type `T`, called with one
supplied value `t` of type `T`, the container being neither of type key
`typeKey(T)` nor convertible to `T`: the first parameter receives `t`, which
is removed from the argument map, and the second parameter receives the
value that the registry lookup for `typeKey(T)` or, failing that, the new
object provider produces on the map without `t`; the callable is invoked on
these two values. -/
theorem C9_supplied_argument_consumed (R : Reflect) (fuel : Nat) (m : MagicalFunc) (T : GoType)
    (t : Value) (w : World) (harg : m.arguments = [T, T]) (ht : TypeOf t = some T)
    (hkc : R.typeKey containerType ≠ R.typeKey T)
    (hconv : R.convertibleTo containerType T = false) :
    Call R (findArg R (fuel + 1)) (Fn.func m) [t] w =
      match registryOrNew R (findArg R fuel) (R.typeKey T) T
          [(R.typeKey T, []), (R.typeKey containerType, [Value.container])] w with
      | (Except.error e, w1) => (Except.error e, w1)
      | (Except.ok (v2, _), w1) =>
        (Except.ok (m.call [t, v2]), { w1 with log := w1.log ++ [Event.invoke m.id [t, v2]] }) := by
  have hkc1 : ¬ R.typeKey T = R.typeKey containerType := fun e => hkc e.symm
  have h1 : findArg R (fuel + 1) (R.typeKey T) T
      [(R.typeKey T, [t]), (R.typeKey containerType, [Value.container])] w
      = (Except.ok (t, [(R.typeKey T, []), (R.typeKey containerType, [Value.container])]), w) := by
    apply findArg_pulled R fuel _ T _ _ w t _ (ne_nil_of_TypeOf t T ht)
    simp [Pull, ArgumentsTypeMap.bucket, ArgumentsTypeMap.setBucket]
  have h2 : findArg R (fuel + 1) (R.typeKey T) T
      [(R.typeKey T, []), (R.typeKey containerType, [Value.container])] w
      = registryOrNew R (findArg R fuel) (R.typeKey T) T
          [(R.typeKey T, []), (R.typeKey containerType, [Value.container])] w := by
    simp [findArg, argProviders, findArg.loop, registryOrNew, providerPull, providerConvertible,
      Pull, ArgumentsTypeMap.bucket, FindConvertibleArg, FindConvertibleArg.inBucket, TypeOf,
      hconv, isNil_nil]
  simp only [Call, NewMagicalFunc, StaticCall, NewArgumentsTypeMap_one R t T ht hkc,
    StaticCallByArguments, harg, StaticCallByArguments.collect, h1, h2]
  cases registryOrNew R (findArg R fuel) (R.typeKey T) T
      [(R.typeKey T, []), (R.typeKey containerType, [Value.container])] w with
  | mk r w1 =>
    cases r with
    | error e => rfl
    | ok va => rfl

/-- C9 at a concrete input: `func(x, y string)` called with the one string
`"given"` on a container where a function returning `"bound"` is bound for
`string`: the first parameter is `"given"`, the second `"bound"`. -/
theorem C9_supplied_argument_consumed_witness :
    fnJoin.arguments = [tString, tString] ∧ TypeOf (str "given") = some tString ∧
    exR.typeKey containerType ≠ exR.typeKey tString ∧
    exR.convertibleTo containerType tString = false ∧
    Call exR (findArg exR 1) (Fn.func fnJoin) [str "given"] (worldOf cPrec) =
      (Except.ok [str "given-bound"],
        { container := cPrec,
          log := [Event.invoke 3 [], Event.invoke 6 [str "given", str "bound"]] }) :=
  ⟨rfl, rfl, by decide, rfl,
    (C9_supplied_argument_consumed exR 0 fnJoin tString (str "given") (worldOf cPrec)
      rfl rfl (by decide) rfl).trans rfl⟩

/-! ## C19: `Flush` -/

/-- C19: for every container state, after `Flush()` and for every key,
`HasBound(key)` is false, `GetKey(key)` returns `key` unchanged, and
`Get(key, args...)` returns nil and leaves the state and its log as they
were, so that no factory is invoked; and the stores after `Flush` are those
of a container freshly built by `New()`. -/
theorem C19_flush_empties (R : Reflect) (find : FindArg) (c : Container) (key : String)
    (args : List Value) (log : List Event) :
    c.Flush.HasBound key = false ∧
    c.Flush.GetKey key = key ∧
    Get R find key args { container := c.Flush, log := log }
      = (Except.ok Value.nil, { container := c.Flush, log := log }) ∧
    c.Flush = New := by
  refine ⟨rfl, rfl, rfl, rfl⟩

/-! ## C15: registration errors -/

/-- A registration that fails leaves the container as it was. -/
theorem Bind_failed_unchanged (R : Reflect) (c : Container) (key : String) (provider : Fn)
    (e : Err) (h : (c.Bind R key provider).1 = Except.error e) :
    (c.Bind R key provider).2 = c := by
  cases hp : newInstanceProvider provider with
  | error e0 => rw [Bind_error R c key provider e0 hp]
  | ok m =>
    cases hr : m.returns with
    | nil =>
      have hn : m.NumOut = 1 := by
        unfold newInstanceProvider at hp
        cases hN : NewMagicalFunc provider with
        | error e1 => rw [hN] at hp; simp at hp
        | ok m1 =>
          rw [hN] at hp
          by_cases h1 : m1.NumOut = 1
          · simp [h1] at hp; rw [← hp]; exact h1
          · simp [h1] at hp
      simp [MagicalFunc.NumOut, hr] at hn
    | cons r rs =>
      rw [Bind_ok R c key provider m r rs hp hr] at h
      simp at h

theorem Singleton_failed_unchanged (R : Reflect) (c : Container) (key : String) (provider : Fn)
    (e : Err) (h : (c.Singleton R key provider).1 = Except.error e) :
    (c.Singleton R key provider).2 = c := by
  cases hp : newInstanceProvider provider with
  | error e0 => rw [Singleton_error R c key provider e0 hp]
  | ok m =>
    cases hr : m.returns with
    | nil =>
      have hn : m.NumOut = 1 := by
        unfold newInstanceProvider at hp
        cases hN : NewMagicalFunc provider with
        | error e1 => rw [hN] at hp; simp at hp
        | ok m1 =>
          rw [hN] at hp
          by_cases h1 : m1.NumOut = 1
          · simp [h1] at hp; rw [← hp]; exact h1
          · simp [h1] at hp
      simp [MagicalFunc.NumOut, hr] at hn
    | cons r rs =>
      rw [Singleton_ok R c key provider m r rs hp hr] at h
      simp at h

theorem newInstanceProvider_callable (m : MagicalFunc) :
    newInstanceProvider (Fn.func m) =
      if m.NumOut ≠ 1 then Except.error Err.CallerTypeError else Except.ok m := by
  simp [newInstanceProvider, NewMagicalFunc]

/-- C15: for a callable `f`, `Bind(key, f)` and `Singleton(key, f)` fail
exactly when `f` does not have exactly one return value, the error is then
`CallerTypeError`, and the binding, singleton and instance stores and the
alias table are as before the call; whatever is passed as provider, a
registration that fails leaves the container unchanged. -/
theorem C15_registration_error (R : Reflect) (c : Container) (key : String) (m : MagicalFunc)
    (provider : Fn) :
    ((c.Bind R key (Fn.func m)).1 = Except.error Err.CallerTypeError ↔ m.NumOut ≠ 1) ∧
    ((c.Singleton R key (Fn.func m)).1 = Except.error Err.CallerTypeError ↔ m.NumOut ≠ 1) ∧
    (m.NumOut = 1 → (c.Bind R key (Fn.func m)).1 = Except.ok () ∧
      (c.Singleton R key (Fn.func m)).1 = Except.ok ()) ∧
    (∀ e, (c.Bind R key provider).1 = Except.error e → (c.Bind R key provider).2 = c) ∧
    (∀ e, (c.Singleton R key provider).1 = Except.error e →
      (c.Singleton R key provider).2 = c) := by
  have hok : m.NumOut = 1 → ∃ r, m.returns = [r] := by
    intro h
    cases hr : m.returns with
    | nil => simp [MagicalFunc.NumOut, hr] at h
    | cons r rs =>
      cases rs with
      | nil => exact ⟨r, rfl⟩
      | cons r2 rs2 => simp [MagicalFunc.NumOut, hr] at h
  refine ⟨?_, ?_, ?_, fun e h => Bind_failed_unchanged R c key provider e h,
    fun e h => Singleton_failed_unchanged R c key provider e h⟩
  · constructor
    · intro h hn
      obtain ⟨r, hr⟩ := hok hn
      rw [Bind_ok R c key (Fn.func m) m r [] (newInstanceProvider_func m r hr) hr] at h
      simp at h
    · intro hn
      rw [Bind_error R c key (Fn.func m) Err.CallerTypeError
        (by rw [newInstanceProvider_callable]; simp [hn])]
  · constructor
    · intro h hn
      obtain ⟨r, hr⟩ := hok hn
      rw [Singleton_ok R c key (Fn.func m) m r [] (newInstanceProvider_func m r hr) hr] at h
      simp at h
    · intro hn
      rw [Singleton_error R c key (Fn.func m) Err.CallerTypeError
        (by rw [newInstanceProvider_callable]; simp [hn])]
  · intro hn
    obtain ⟨r, hr⟩ := hok hn
    rw [Bind_ok R c key (Fn.func m) m r [] (newInstanceProvider_func m r hr) hr,
      Singleton_ok R c key (Fn.func m) m r [] (newInstanceProvider_func m r hr) hr]
    exact ⟨rfl, rfl⟩

/-! ## C18: self-assembling components -/

/-- C18: when the target of `DIByArguments` (and so of `DI`) implements
`contracts.Component`, the call is exactly one call of its `Construct` with
the container: the outcome is that of `Construct`, the log gains the one
`Construct` event and nothing else, the argument map is returned as it was
supplied, and the result does not depend on `findArg`, so that no field is
resolved or assigned by the container; an error, if any, is the one
`Construct` raised, and no usage error is raised whatever the shape of the
target. -/
theorem C18_component_delegates (R : Reflect) (find : FindArg) (object : Value)
    (a : ArgumentsTypeMap) (args : List Value) (w : World)
    (hc : isComponent R object = true) :
    DIByArguments R find object a w =
      ((R.construct object w.container).1.map (fun object1 => (object1, a)),
        { container := (R.construct object w.container).2,
          log := w.log ++ [Event.construct object] }) ∧
    (∀ arguments, NewArgumentsTypeMap R (args ++ [Value.container]) = Except.ok arguments →
      DI R find object args w =
        ((R.construct object w.container).1,
          { container := (R.construct object w.container).2,
            log := w.log ++ [Event.construct object] })) := by
  have h1 : DIByArguments R find object a w =
      ((R.construct object w.container).1.map (fun object1 => (object1, a)),
        { container := (R.construct object w.container).2,
          log := w.log ++ [Event.construct object] }) := by
    unfold DIByArguments
    rw [if_pos hc]
    cases h : R.construct object w.container with
    | mk r c1 =>
      cases r with
      | error e => rfl
      | ok o => rfl
  refine ⟨h1, ?_⟩
  intro arguments hN
  have h2 : DIByArguments R find object arguments w =
      ((R.construct object w.container).1.map (fun object1 => (object1, arguments)),
        { container := (R.construct object w.container).2,
          log := w.log ++ [Event.construct object] }) := by
    unfold DIByArguments
    rw [if_pos hc]
    cases h : R.construct object w.container with
    | mk r c1 =>
      cases r with
      | error e => rfl
      | ok o => rfl
  unfold DI
  rw [hN]
  simp only [h2]
  cases (R.construct object w.container).1 with
  | error e => rfl
  | ok o => rfl

/-- C18 at a concrete input: `DI` on a `*DemoStruct2` with a supplied string
calls `Construct`, which fills the embedded struct from the container;
nothing else is logged. -/
theorem C18_component_delegates_witness :
    isComponent diR struct2Zero = true ∧
    DI diR (findArg diR 1) struct2Zero [str "supplied"] (worldOf cStruct) =
      (Except.ok (Value.ptr tDemoStruct2
          (Value.struct tDemoStruct2 [demoStruct (demoParam "id") "config"])),
        { container := cStruct, log := [Event.construct struct2Zero] }) :=
  ⟨rfl, ((C18_component_delegates diR (findArg diR 1) struct2Zero [] [str "supplied"]
    (worldOf cStruct) rfl).2 argsString rfl).trans rfl⟩

/-- C15 at a concrete input: binding a callable without return value fails
with `CallerTypeError` and leaves a fresh container as it was. -/
theorem C15_registration_error_witness :
    fnNameModel.NumOut ≠ 1 ∧
    (New.Bind exR "k" (Fn.func fnNameModel)).1 = Except.error Err.CallerTypeError ∧
    (New.Bind exR "k" (Fn.func fnNameModel)).2 = New :=
  have h := C15_registration_error exR New "k" fnNameModel (Fn.func fnNameModel)
  have hn : fnNameModel.NumOut ≠ 1 := by decide
  ⟨hn, h.1.2 hn, h.2.2.2.1 Err.CallerTypeError (h.1.2 hn)⟩

/-! ## C17: a field that names a key -/

/-- One step of the field loop, when the field resolved to a value of
dynamic type `ft`. -/
theorem walk_cons_typed (R : Reflect) (find : FindArg) (field : Field) (rest : List Field)
    (i : Nat) (temp : List Value) (a a1 : ArgumentsTypeMap) (w w1 : World) (v : Value)
    (ft : GoType) (hres : DIByArguments.resolve R find field a w = (Except.ok (v, a1), w1))
    (ht : TypeOf v = some ft) :
    DIByArguments.walk R find (field :: rest) i temp a w =
      if R.convertibleTo ft field.type then
        DIByArguments.walk R find rest (i + 1)
          (temp.set i (if R.typeKey field.type ≠ R.typeKey ft then R.convert v field.type
            else v)) a1 w1
      else
        (Except.error (Err.typeMismatch field.name (R.typeString field.type)
          (R.typeString ft)), w1) := by
  rw [DIByArguments.walk, hres]
  simp only [ht]

/-- One step of the field loop, when the field resolved to nil. -/
theorem walk_cons_nil (R : Reflect) (find : FindArg) (field : Field) (rest : List Field)
    (i : Nat) (temp : List Value) (a a1 : ArgumentsTypeMap) (w w1 : World)
    (hres : DIByArguments.resolve R find field a w = (Except.ok (Value.nil, a1), w1)) :
    DIByArguments.walk R find (field :: rest) i temp a w =
      DIByArguments.walk R find rest (i + 1) temp a1 w1 := by
  rw [DIByArguments.walk, hres]
  simp only [TypeOf]

/-- One step of the field loop, when the resolution of the field failed. -/
theorem walk_cons_error (R : Reflect) (find : FindArg) (field : Field) (rest : List Field)
    (i : Nat) (temp : List Value) (a : ArgumentsTypeMap) (w w1 : World) (e : Err)
    (hres : DIByArguments.resolve R find field a w = (Except.error e, w1)) :
    DIByArguments.walk R find (field :: rest) i temp a w = (Except.error e, w1) := by
  rw [DIByArguments.walk, hres]

/-- C17: for a field whose `di` tag names the key `k`, the field loop calls
`Get(k)` first. If `Get(k)` raises an error, so does the loop. If `Get(k)`
is a non-nil value, that value is what the field resolves to, whatever
arguments were supplied, which are left as they were: the field is
assigned it (converted when the type keys differ) when its type is
convertible to the declared type, and the type-mismatch error is raised
otherwise. Only if `Get(k)` is nil is the field resolved by `findArg` on the
declared type and the supplied arguments. -/
theorem C17_named_key_first (R : Reflect) (find : FindArg) (field : Field) (k : String)
    (ks : List String) (rest : List Field) (i : Nat) (temp : List Value)
    (a : ArgumentsTypeMap) (w : World) (hdi : field.di = some (k :: ks)) :
    (∀ e w1, Get R find k [] w = (Except.error e, w1) →
      DIByArguments.walk R find (field :: rest) i temp a w = (Except.error e, w1)) ∧
    (∀ v w1 ft, Get R find k [] w = (Except.ok v, w1) → TypeOf v = some ft →
      DIByArguments.resolve R find field a w = (Except.ok (v, a), w1) ∧
      (R.convertibleTo ft field.type = true →
        DIByArguments.walk R find (field :: rest) i temp a w =
          DIByArguments.walk R find rest (i + 1)
            (temp.set i (if R.typeKey field.type ≠ R.typeKey ft then R.convert v field.type
              else v)) a w1) ∧
      (R.convertibleTo ft field.type = false →
        DIByArguments.walk R find (field :: rest) i temp a w =
          (Except.error (Err.typeMismatch field.name (R.typeString field.type)
            (R.typeString ft)), w1))) ∧
    (∀ w1, Get R find k [] w = (Except.ok Value.nil, w1) →
      DIByArguments.resolve R find field a w = find (R.typeKey field.type) field.type a w1) := by
  refine ⟨?_, ?_, ?_⟩
  · intro e w1 hG
    apply walk_cons_error
    simp [DIByArguments.resolve, hdi, hG]
  · intro v w1 ft hG ht
    have hv : v.isNil = false := isNil_of_ne v (ne_nil_of_TypeOf v ft ht)
    have hres : DIByArguments.resolve R find field a w = (Except.ok (v, a), w1) := by
      simp [DIByArguments.resolve, hdi, hG, hv]
    refine ⟨hres, ?_, ?_⟩
    · intro hc
      rw [walk_cons_typed R find field rest i temp a a w w1 v ft hres ht, if_pos hc]
    · intro hc
      rw [walk_cons_typed R find field rest i temp a a w w1 v ft hres ht]
      simp [hc]
  · intro w1 hG
    simp [DIByArguments.resolve, hdi, hG, isNil_nil]

/-- C17 at the inputs of `TestContainerMake`: with the string instance
`"from config"` under `"config"`, the field `Config string` tagged
`di:"config"` resolves to it although a string was supplied, which stays in
the argument map; on a fresh container, where `Get("config")` is nil, the
field resolves to the supplied string, which is pulled. -/
theorem C17_named_key_first_witness :
    fieldConfig.di = some ("config" :: []) ∧
    Get diR (findArg diR 1) "config" [] (worldOf cMake) = (Except.ok (str "from config"), worldOf cMake) ∧
    DIByArguments.resolve diR (findArg diR 1) fieldConfig argsString (worldOf cMake)
      = (Except.ok (str "from config", argsString), worldOf cMake) ∧
    Get diR (findArg diR 1) "config" [] (worldOf New) = (Except.ok Value.nil, worldOf New) ∧
    DIByArguments.resolve diR (findArg diR 1) fieldConfig argsString (worldOf New)
      = (Except.ok (str "supplied", argsString.setBucket "string" []), worldOf New) :=
  have h1 := C17_named_key_first diR (findArg diR 1) fieldConfig "config" [] [] 1 []
    argsString (worldOf cMake) rfl
  have h2 := C17_named_key_first diR (findArg diR 1) fieldConfig "config" [] [] 1 []
    argsString (worldOf New) rfl
  ⟨rfl, rfl, (h1.2.1 (str "from config") (worldOf cMake) tString rfl rfl).1, rfl,
    (h2.2.2 (worldOf New) rfl).trans rfl⟩

/-! ## C11: `FindConvertibleArg` -/

theorem inBucket_eq (R : Reflect) (targetKey : String) (targetType : GoType) (key : String)
    (args : List Value) (htyped : ∀ v ∈ args, (TypeOf v).isSome) :
    FindConvertibleArg.inBucket R targetKey targetType key args =
      Except.ok (((args.map (fun v => (key, v))).find?
          (fun kv => isConvertible R targetType kv.2)).map
        (fun kv => if kv.1 ≠ targetKey then R.convert kv.2 targetType else kv.2)) := by
  induction args with
  | nil => rfl
  | cons arg rest ih =>
    have h1 := htyped arg (List.mem_cons_self _ _)
    have ih1 := ih (fun v hv => htyped v (List.mem_cons_of_mem _ hv))
    cases ht : TypeOf arg with
    | none => rw [ht] at h1; simp at h1
    | some t =>
      unfold FindConvertibleArg.inBucket
      simp only [ht]
      by_cases hc : R.convertibleTo t targetType = true
      · have hp : isConvertible R targetType arg = true := by simp [isConvertible, ht, hc]
        simp only [List.map_cons, hc, if_true]
        rw [List.find?_cons_of_pos _ (by simpa using hp)]
        by_cases hk : key = targetKey <;> simp [hk]
      · have hp : ¬ isConvertible R targetType arg = true := by simp [isConvertible, ht, hc]
        simp only [List.map_cons, hc]
        rw [List.find?_cons_of_neg _ (by simpa using hp)]
        simpa using ih1

/-- On a map all of whose values have a runtime type, `FindConvertibleArg`
returns what the spec says. -/
theorem FindConvertibleArg_eq (R : Reflect) (targetKey : String) (targetType : GoType)
    (this : ArgumentsTypeMap) (htyped : ∀ kv ∈ this.entries, (TypeOf kv.2).isSome) :
    FindConvertibleArg R this targetKey targetType =
      Except.ok (firstConvertible R this targetKey targetType) := by
  induction this with
  | nil => rfl
  | cons kb rest ih =>
    obtain ⟨key, args⟩ := kb
    have hargs : ∀ v ∈ args, (TypeOf v).isSome := by
      intro v hv
      exact htyped (key, v) (by simp [ArgumentsTypeMap.entries, hv])
    have hrest : ∀ kv ∈ ArgumentsTypeMap.entries rest, (TypeOf kv.2).isSome := by
      intro kv hkv
      exact htyped kv (by simp [ArgumentsTypeMap.entries, hkv])
    unfold FindConvertibleArg
    rw [inBucket_eq R targetKey targetType key args hargs]
    unfold firstConvertible
    simp only [ArgumentsTypeMap.entries, List.find?_append]
    cases hf : (args.map (fun v => (key, v))).find?
        (fun kv => isConvertible R targetType kv.2) with
    | none =>
      simp only [Option.map_none', Option.none_or]
      rw [ih hrest]
      rfl
    | some kv =>
      obtain ⟨k0, v0⟩ := kv
      simp only [Option.map_some']
      rfl

theorem ne_nil_of_isConvertible (R : Reflect) (targetType : GoType) (v : Value)
    (h : isConvertible R targetType v = true) : v ≠ Value.nil := by
  intro e
  rw [e] at h
  simp [isConvertible, TypeOf] at h

theorem mem_entries_of_bucket (this : ArgumentsTypeMap) (k : String) (v : Value)
    (h : v ∈ (this.bucket k).getD []) : (k, v) ∈ this.entries := by
  induction this with
  | nil => simp [ArgumentsTypeMap.bucket] at h
  | cons kb rest ih =>
    obtain ⟨k0, b0⟩ := kb
    by_cases hk : k0 = k
    · subst hk
      simp only [ArgumentsTypeMap.bucket, if_true, Option.getD_some] at h
      simp [ArgumentsTypeMap.entries, h]
    · simp only [ArgumentsTypeMap.bucket, hk, if_false] at h
      simp [ArgumentsTypeMap.entries, ih h]

theorem mem_entries_setBucket (this : ArgumentsTypeMap) (k : String) (b : List Value)
    (kv : String × Value) (h : kv ∈ (this.setBucket k b).entries) :
    kv ∈ this.entries ∨ kv.2 ∈ b := by
  induction this with
  | nil =>
    simp only [ArgumentsTypeMap.setBucket, ArgumentsTypeMap.entries, List.append_nil,
      List.mem_map] at h
    obtain ⟨v, hv, he⟩ := h
    right
    rw [← he]
    exact hv
  | cons kb rest ih =>
    obtain ⟨k0, b0⟩ := kb
    by_cases hk : k0 = k
    · simp only [ArgumentsTypeMap.setBucket, hk, if_true, ArgumentsTypeMap.entries,
        List.mem_append, List.mem_map] at h
      rcases h with ⟨v, hv, he⟩ | h
      · right
        rw [← he]
        exact hv
      · left
        simp [ArgumentsTypeMap.entries, h]
    · simp only [ArgumentsTypeMap.setBucket, hk, if_false, ArgumentsTypeMap.entries,
        List.mem_append] at h
      rcases h with h | h
      · left
        simp [ArgumentsTypeMap.entries, h]
      · rcases ih h with h1 | h1
        · left
          simp [ArgumentsTypeMap.entries, h1]
        · right
          exact h1

theorem loop_typed (R : Reflect) (args : List Value) :
    ∀ m0 m, NewArgumentsTypeMap.loop R args m0 = Except.ok m →
      (∀ kv ∈ m0.entries, (TypeOf kv.2).isSome) → ∀ kv ∈ m.entries, (TypeOf kv.2).isSome := by
  induction args with
  | nil =>
    intro m0 m h h0
    simp only [NewArgumentsTypeMap.loop, Except.ok.injEq] at h
    rw [← h]
    exact h0
  | cons arg rest ih =>
    intro m0 m h h0
    unfold NewArgumentsTypeMap.loop at h
    cases ht : TypeOf arg with
    | none => rw [ht] at h; simp at h
    | some t =>
      rw [ht] at h
      simp only [] at h
      apply ih _ m h
      intro kv hkv
      rcases mem_entries_setBucket _ _ _ kv hkv with h1 | h1
      · exact h0 kv h1
      · simp only [List.mem_append, List.mem_singleton] at h1
        rcases h1 with h2 | h2
        · exact h0 (R.typeKey t, kv.2) (mem_entries_of_bucket m0 _ _ h2)
        · rw [h2, ht]; rfl

/-- Every value of a map that `NewArgumentsTypeMap` builds has a runtime
type. -/
theorem NewArgumentsTypeMap_typed (R : Reflect) (args : List Value) (m : ArgumentsTypeMap)
    (h : NewArgumentsTypeMap R args = Except.ok m) :
    ∀ kv ∈ m.entries, (TypeOf kv.2).isSome :=
  loop_typed R args [] m h (by simp [ArgumentsTypeMap.entries])

/-- C11: on every argument map whose values all have a runtime type, with a
`Convert` that yields no nil interface from a non-nil value: `FindConvertibleArg` returns,
and what it returns is nil if and only if no value in any bucket has a
runtime type convertible to the target type; otherwise it is the first
convertible value in the order of the iteration, that is the one before
which no value is convertible, converted to the target type when the key of
its bucket differs from `targetKey` and unconverted when the keys are equal.
Every map that `NewArgumentsTypeMap` builds is such a map. -/
theorem C11_find_convertible (R : Reflect) (this : ArgumentsTypeMap) (targetKey : String)
    (targetType : GoType) (htyped : ∀ kv ∈ this.entries, (TypeOf kv.2).isSome)
    (hconv : ∀ v t, v ≠ Value.nil → R.convert v t ≠ Value.nil) :
    FindConvertibleArg R this targetKey targetType =
      Except.ok (firstConvertible R this targetKey targetType) ∧
    (firstConvertible R this targetKey targetType = Value.nil ↔
      ∀ kv ∈ this.entries, isConvertible R targetType kv.2 = false) ∧
    (∀ pre key v post, this.entries = pre ++ (key, v) :: post →
      (∀ kv ∈ pre, isConvertible R targetType kv.2 = false) →
      isConvertible R targetType v = true →
      firstConvertible R this targetKey targetType =
        if key ≠ targetKey then R.convert v targetType else v) ∧
    (∀ args m, NewArgumentsTypeMap R args = Except.ok m →
      ∀ kv ∈ m.entries, (TypeOf kv.2).isSome) := by
  refine ⟨FindConvertibleArg_eq R targetKey targetType this htyped, ?_, ?_,
    fun args m h => NewArgumentsTypeMap_typed R args m h⟩
  · unfold firstConvertible
    constructor
    · intro h
      cases hf : this.entries.find? (fun kv => isConvertible R targetType kv.2) with
      | none =>
        intro kv hkv
        have := List.find?_eq_none.mp hf kv hkv
        simpa using this
      | some kv =>
        obtain ⟨k0, v0⟩ := kv
        rw [hf] at h
        have hp : isConvertible R targetType v0 = true := by
          have := List.find?_some hf
          simpa using this
        have hv0 := ne_nil_of_isConvertible R targetType v0 hp
        by_cases hk : k0 = targetKey
        · simp [hk] at h; exact absurd h hv0
        · simp [hk] at h; exact absurd h (hconv v0 targetType hv0)
    · intro h
      have hf : this.entries.find? (fun kv => isConvertible R targetType kv.2) = none := by
        rw [List.find?_eq_none]
        intro kv hkv
        simp [h kv hkv]
      rw [hf]
  · intro pre key v post he hpre hv
    unfold firstConvertible
    have hf : this.entries.find? (fun kv => isConvertible R targetType kv.2)
        = some (key, v) := by
      rw [he, List.find?_append]
      have h1 : pre.find? (fun kv => isConvertible R targetType kv.2) = none := by
        rw [List.find?_eq_none]
        intro kv hkv
        simp [hpre kv hkv]
      rw [h1, List.find?_cons_of_pos _ (by simpa using hv)]
      rfl
    rw [hf]

theorem retag_ne_nil (v : Value) (t : GoType) (h : v ≠ Value.nil) : retag v t ≠ Value.nil := by
  cases v <;> simp_all [retag]

/-- C11 at the input of `TestAliasType`: a supplied `DemoParam` is found for
a parameter of the named type `AliasParam` and converted to it, and found
unconverted for a `DemoParam` parameter; for a `string` parameter nothing
is found. -/
theorem C11_find_convertible_witness :
    (∀ kv ∈ argsAlias.entries, (TypeOf kv.2).isSome) ∧
    (∀ v t, v ≠ Value.nil → diR.convert v t ≠ Value.nil) ∧
    FindConvertibleArg diR argsAlias "AliasParam" tAliasParam
      = Except.ok (Value.struct tAliasParam [str "a"]) ∧
    FindConvertibleArg diR argsAlias "DemoParam" tDemoParam = Except.ok (demoParam "a") ∧
    FindConvertibleArg diR argsAlias "string" tString = Except.ok Value.nil := by
  have htyped : ∀ kv ∈ argsAlias.entries, (TypeOf kv.2).isSome := by
    intro kv hkv
    simp only [argsAlias, ArgumentsTypeMap.entries, List.map_cons, List.map_nil,
      List.cons_append, List.nil_append, List.append_nil, List.mem_cons, List.mem_singleton,
      List.not_mem_nil, or_false] at hkv
    rcases hkv with h | h <;> subst h <;> rfl
  have hconv : ∀ v t, v ≠ Value.nil → diR.convert v t ≠ Value.nil :=
    fun v t h => retag_ne_nil v t h
  exact ⟨htyped, hconv,
    (C11_find_convertible diR argsAlias "AliasParam" tAliasParam htyped hconv).1.trans rfl,
    (C11_find_convertible diR argsAlias "DemoParam" tDemoParam htyped hconv).1.trans rfl,
    (C11_find_convertible diR argsAlias "string" tString htyped hconv).1.trans rfl⟩

/-! ## C20: the convertible-type scan consumes nothing -/

/-- The second provider returns the argument map and the state as they were. -/
theorem providerConvertible_pure (R : Reflect) (key : String) (p : GoType)
    (a : ArgumentsTypeMap) (w : World) :
    (providerConvertible R key p a w).2 = w ∧
      ∀ v a1, (providerConvertible R key p a w).1 = Except.ok (v, a1) → a1 = a := by
  unfold providerConvertible
  cases FindConvertibleArg R a key p with
  | error e => exact ⟨rfl, fun v a1 h => by simp at h⟩
  | ok v0 =>
    refine ⟨rfl, fun v a1 h => ?_⟩
    simp only [Except.ok.injEq, Prod.mk.injEq] at h
    exact h.2.symm

/-- With one supplied value of a type `T` convertible to `U`, in either
order of the two buckets, `findArg` for a parameter of type `U` returns the
converted value and the same map. -/
theorem findArg_converted (R : Reflect) (fuel : Nat) (U T : GoType) (t : Value) (w : World)
    (a : ArgumentsTypeMap)
    (ha : a = [(R.typeKey T, [t]), (R.typeKey containerType, [Value.container])] ∨
      a = [(R.typeKey containerType, [Value.container]), (R.typeKey T, [t])])
    (ht : TypeOf t = some T) (hTU : R.typeKey T ≠ R.typeKey U)
    (hCU : R.typeKey containerType ≠ R.typeKey U)
    (hconv : R.convertibleTo T U = true) (hC : R.convertibleTo containerType U = false)
    (hnil : R.convert t U ≠ Value.nil) :
    findArg R (fuel + 1) (R.typeKey U) U a w = (Except.ok (R.convert t U, a), w) := by
  have hc : TypeOf Value.container = some containerType := rfl
  apply findArg_convertible R fuel (R.typeKey U) U a a w (R.convert t U) _ _ hnil
  · rcases ha with h | h <;> subst h <;> simp [Pull, ArgumentsTypeMap.bucket, hTU, hCU]
  · rcases ha with h | h <;> subst h <;>
      simp [FindConvertibleArg, FindConvertibleArg.inBucket, ht, hc, hconv, hC, hTU]

/-- The call of a callable with two parameters of type `U` on an argument
map that holds one value of a type `T` convertible to `U`, in either order
of the two buckets. -/
theorem StaticCallByArguments_converted (R : Reflect) (fuel : Nat) (m : MagicalFunc)
    (U T : GoType) (t : Value) (w : World) (a : ArgumentsTypeMap)
    (ha : a = [(R.typeKey T, [t]), (R.typeKey containerType, [Value.container])] ∨
      a = [(R.typeKey containerType, [Value.container]), (R.typeKey T, [t])])
    (harg : m.arguments = [U, U])
    (ht : TypeOf t = some T) (hTU : R.typeKey T ≠ R.typeKey U)
    (hCU : R.typeKey containerType ≠ R.typeKey U)
    (hconv : R.convertibleTo T U = true) (hC : R.convertibleTo containerType U = false)
    (hnil : R.convert t U ≠ Value.nil) :
    StaticCallByArguments R (findArg R (fuel + 1)) m a w =
      (Except.ok (m.call [R.convert t U, R.convert t U], a),
        { w with log := w.log ++ [Event.invoke m.id [R.convert t U, R.convert t U]] }) := by
  have h := findArg_converted R fuel U T t w a ha ht hTU hCU hconv hC hnil
  simp only [StaticCallByArguments, harg, StaticCallByArguments.collect, h]
  rfl

/-- C20: `FindConvertibleArg` is a function of the map that writes nothing,
and the provider that calls it returns the argument map and the state as
they were. Consequently a callable with two parameters of type `U`, called
with a single supplied value `t` of a type `T` with another type key and
convertible to `U` (the container being neither of key `typeKey(U)` nor
convertible to `U`, and `t` converting to a non-nil value), is invoked on
the converted value for both parameters, in whichever order the two buckets
of the map are visited, and the map still holds `t`. -/
theorem C20_convertible_not_consumed (R : Reflect) (fuel : Nat) (m : MagicalFunc) (U T : GoType)
    (t : Value) (w : World) (harg : m.arguments = [U, U]) (ht : TypeOf t = some T)
    (hTU : R.typeKey T ≠ R.typeKey U) (hCU : R.typeKey containerType ≠ R.typeKey U)
    (hCT : R.typeKey containerType ≠ R.typeKey T)
    (hconv : R.convertibleTo T U = true) (hC : R.convertibleTo containerType U = false)
    (hnil : R.convert t U ≠ Value.nil) :
    (∀ key p a w0, (providerConvertible R key p a w0).2 = w0 ∧
      ∀ v a1, (providerConvertible R key p a w0).1 = Except.ok (v, a1) → a1 = a) ∧
    Call R (findArg R (fuel + 1)) (Fn.func m) [t] w =
      (Except.ok (m.call [R.convert t U, R.convert t U]),
        { w with log := w.log ++ [Event.invoke m.id [R.convert t U, R.convert t U]] }) ∧
    StaticCallByArguments R (findArg R (fuel + 1)) m
        [(R.typeKey T, [t]), (R.typeKey containerType, [Value.container])] w =
      (Except.ok (m.call [R.convert t U, R.convert t U],
          [(R.typeKey T, [t]), (R.typeKey containerType, [Value.container])]),
        { w with log := w.log ++ [Event.invoke m.id [R.convert t U, R.convert t U]] }) ∧
    StaticCallByArguments R (findArg R (fuel + 1)) m
        [(R.typeKey containerType, [Value.container]), (R.typeKey T, [t])] w =
      (Except.ok (m.call [R.convert t U, R.convert t U],
          [(R.typeKey containerType, [Value.container]), (R.typeKey T, [t])]),
        { w with log := w.log ++ [Event.invoke m.id [R.convert t U, R.convert t U]] }) := by
  have h1 := StaticCallByArguments_converted R fuel m U T t w _ (Or.inl rfl) harg ht hTU hCU
    hconv hC hnil
  have h2 := StaticCallByArguments_converted R fuel m U T t w _ (Or.inr rfl) harg ht hTU hCU
    hconv hC hnil
  refine ⟨fun key p a w0 => providerConvertible_pure R key p a w0, ?_, h1, h2⟩
  simp only [Call, NewMagicalFunc, StaticCall, NewArgumentsTypeMap_one R t T ht hCT, h1]

/-- C20 at a concrete input: `func(x, y AliasParam)` called with the one
`DemoParam` whose `Id` is `"a"` receives it, converted, for both parameters. -/
theorem C20_convertible_not_consumed_witness :
    fnJoinAlias.arguments = [tAliasParam, tAliasParam] ∧
    TypeOf (demoParam "a") = some tDemoParam ∧
    diR.convertibleTo tDemoParam tAliasParam = true ∧
    diR.convertibleTo containerType tAliasParam = false ∧
    Call diR (findArg diR 1) (Fn.func fnJoinAlias) [demoParam "a"] (worldOf New) =
      (Except.ok [str "a-a"],
        { container := New,
          log := [Event.invoke 7 [Value.struct tAliasParam [str "a"],
            Value.struct tAliasParam [str "a"]]] }) :=
  ⟨rfl, rfl, rfl, rfl,
    (C20_convertible_not_consumed diR 0 fnJoinAlias tAliasParam tDemoParam (demoParam "a")
      (worldOf New) rfl rfl (by decide) (by decide) (by decide) rfl rfl
      (by simp [diR, retag, demoParam])).2.1.trans rfl⟩

/-! ## C12: fields without a tag -/

/-- The field loop leaves alone every index before its start and every
index whose field has no `di` tag. -/
theorem walk_frame (R : Reflect) (find : FindArg) (fields : List Field) :
    ∀ (i : Nat) (temp temp1 : List Value) (a a1 : ArgumentsTypeMap) (w w1 : World),
      DIByArguments.walk R find fields i temp a w = (Except.ok (temp1, a1), w1) →
      temp1.length = temp.length ∧
      ∀ j, (j < i ∨ ∀ field, fields[j - i]? = some field → field.di = none) →
        temp1[j]? = temp[j]? := by
  induction fields with
  | nil =>
    intro i temp temp1 a a1 w w1 h
    simp only [DIByArguments.walk, Prod.mk.injEq, Except.ok.injEq] at h
    obtain ⟨⟨h1, _⟩, _⟩ := h
    subst h1
    exact ⟨rfl, fun _ _ => rfl⟩
  | cons field rest ih =>
    intro i temp temp1 a a1 w w1 h
    have hcond : ∀ j, (j < i ∨ ∀ f, (field :: rest)[j - i]? = some f → f.di = none) →
        j ≠ i → (j < i + 1 ∨ ∀ f, rest[j - (i + 1)]? = some f → f.di = none) := by
      intro j hj hne
      rcases hj with hj | hj
      · exact Or.inl (by omega)
      · by_cases hlt : j < i
        · exact Or.inl (by omega)
        · right
          intro f hf
          apply hj f
          have : j - i = (j - (i + 1)) + 1 := by omega
          rw [this, List.getElem?_cons_succ]
          exact hf
    cases hres : DIByArguments.resolve R find field a w with
    | mk r w0 =>
      cases r with
      | error e => rw [walk_cons_error R find field rest i temp a w w0 e hres] at h; simp at h
      | ok va =>
        obtain ⟨v, a0⟩ := va
        cases ht : TypeOf v with
        | none =>
          have hv : v = Value.nil := by cases v <;> simp_all [TypeOf]
          subst hv
          rw [walk_cons_nil R find field rest i temp a a0 w w0 hres] at h
          obtain ⟨hl, hf⟩ := ih (i + 1) temp temp1 a0 a1 w0 w1 h
          refine ⟨hl, fun j hj => ?_⟩
          by_cases hji : j = i
          · exact hf j (Or.inl (by omega))
          · exact hf j (hcond j hj hji)
        | some ft =>
          rw [walk_cons_typed R find field rest i temp a a0 w w0 v ft hres ht] at h
          by_cases hc : R.convertibleTo ft field.type = true
          · rw [if_pos hc] at h
            obtain ⟨hl, hf⟩ := ih (i + 1) _ temp1 a0 a1 w0 w1 h
            refine ⟨by rw [hl, List.length_set], fun j hj => ?_⟩
            by_cases hji : j = i
            · exfalso
              subst hji
              rcases hj with hj | hj
              · omega
              · have hdi := hj field (by simp)
                simp [DIByArguments.resolve, hdi] at hres
                rw [← hres.1.1] at ht
                simp [TypeOf] at ht
            · rw [hf j (hcond j hj hji)]
              exact List.getElem?_set_ne (fun e => hji e.symm)
          · rw [if_neg hc] at h
            simp at h

/-- What `DIByArguments` returns on a pointer to a struct that is not a
component: the pointer to the struct with the fields the loop left. -/
theorem DIByArguments_struct (R : Reflect) (find : FindArg) (elem ty : GoType)
    (fields : List Value) (a : ArgumentsTypeMap) (w : World)
    (hc : isComponent R (Value.ptr elem (Value.struct ty fields)) = false) :
    DIByArguments R find (Value.ptr elem (Value.struct ty fields)) a w =
      match DIByArguments.walk R find (R.fields ty) 0 fields a w with
      | (Except.error e, w1) => (Except.error e, w1)
      | (Except.ok (temp, a1), w1) =>
        (Except.ok (Value.ptr elem (Value.struct ty temp), a1), w1) := by
  unfold DIByArguments
  simp [hc]

/-- C12 as stated fails for a target that is a component. On the
`*DemoStruct2` of the tests, whose embedded `DemoStruct` is a field without
tag, `DI` calls `Construct`, which replaces the value the caller had put in
that field by the `DemoStruct` held by the container. -/
theorem C12_component_overwrites_untagged :
    (diR.fields tDemoStruct2)[0]?
      = some { name := "DemoStruct", type := tDemoStruct, di := none } ∧
    struct2Set = Value.ptr tDemoStruct2
      (Value.struct tDemoStruct2 [demoStruct (demoParam "mine") "mine"]) ∧
    DI diR (findArg diR 1) struct2Set [] (worldOf cStruct) =
      (Except.ok (Value.ptr tDemoStruct2
          (Value.struct tDemoStruct2 [demoStruct (demoParam "id") "config"])),
        { container := cStruct, log := [Event.construct struct2Set] }) ∧
    demoStruct (demoParam "id") "config" ≠ demoStruct (demoParam "mine") "mine" := by
  refine ⟨rfl, rfl, rfl, ?_⟩
  simp [demoStruct, demoParam, str]

/-- C12, amended: for every pointer-to-struct target that is not a
self-assembling component, every registry state and all supplied arguments,
when `DIByArguments` or `DI` completes the target is the same pointer to a
struct of the same type with as many fields, and every field that carries
no `di` tag has exactly the value it had before the call. -/
theorem C12_untagged_fields_kept (R : Reflect) (find : FindArg) (elem ty : GoType)
    (fields : List Value) (a : ArgumentsTypeMap) (args : List Value) (w : World)
    (hc : isComponent R (Value.ptr elem (Value.struct ty fields)) = false) :
    (∀ object1 a1 w1,
      DIByArguments R find (Value.ptr elem (Value.struct ty fields)) a w
        = (Except.ok (object1, a1), w1) →
      ∃ fields1, object1 = Value.ptr elem (Value.struct ty fields1) ∧
        fields1.length = fields.length ∧
        ∀ j : Nat, R.untagged ty j → fields1[j]? = fields[j]?) ∧
    (∀ object1 w1,
      DI R find (Value.ptr elem (Value.struct ty fields)) args w = (Except.ok object1, w1) →
      ∃ fields1, object1 = Value.ptr elem (Value.struct ty fields1) ∧
        fields1.length = fields.length ∧
        ∀ j : Nat, R.untagged ty j → fields1[j]? = fields[j]?) := by
  have key : ∀ a0 object1 a1 w1,
      DIByArguments R find (Value.ptr elem (Value.struct ty fields)) a0 w
        = (Except.ok (object1, a1), w1) →
      ∃ fields1, object1 = Value.ptr elem (Value.struct ty fields1) ∧
        fields1.length = fields.length ∧
        ∀ j : Nat, R.untagged ty j → fields1[j]? = fields[j]? := by
    intro a0 object1 a1 w1 h
    rw [DIByArguments_struct R find elem ty fields a0 w hc] at h
    cases hw : DIByArguments.walk R find (R.fields ty) 0 fields a0 w with
    | mk r w0 =>
      rw [hw] at h
      cases r with
      | error e => simp at h
      | ok ta =>
        obtain ⟨temp, a2⟩ := ta
        simp only [Prod.mk.injEq, Except.ok.injEq] at h
        obtain ⟨hl, hf⟩ := walk_frame R find (R.fields ty) 0 fields temp a0 a2 w w0 hw
        exact ⟨temp, h.1.1.symm, hl, fun j hj => hf j (Or.inr (by simpa [Reflect.untagged] using hj))⟩
  refine ⟨fun object1 a1 w1 h => key a object1 a1 w1 h, ?_⟩
  intro object1 w1 h
  unfold DI at h
  cases hN : NewArgumentsTypeMap R (args ++ [Value.container]) with
  | error e => rw [hN] at h; simp at h
  | ok a0 =>
    rw [hN] at h
    simp only [] at h
    cases hD : DIByArguments R find (Value.ptr elem (Value.struct ty fields)) a0 w with
    | mk r w0 =>
      rw [hD] at h
      cases r with
      | error e => simp at h
      | ok oa =>
        obtain ⟨o, a2⟩ := oa
        simp only [Prod.mk.injEq, Except.ok.injEq] at h
        obtain ⟨h1, h2⟩ := h
        subst h1
        exact key a0 o a2 w0 hD

/-- C12, amended, at a concrete input: on a `Mixed` the tagged field
`Config` is injected from the container and the untagged field `Name`
keeps the caller's value. -/
theorem C12_untagged_fields_kept_witness :
    isComponent diR mixedOld = false ∧ diR.untagged tMixed 0 ∧
    DIByArguments diR (findArg diR 1) mixedOld argsNone (worldOf cMake) =
      (Except.ok (Value.ptr tMixed (Value.struct tMixed [str "keep", str "from config"]),
        argsNone), worldOf cMake) ∧
    ∃ fields1, Value.ptr tMixed (Value.struct tMixed [str "keep", str "from config"])
        = Value.ptr tMixed (Value.struct tMixed fields1) ∧
      fields1.length = [str "keep", str "old"].length ∧
      ∀ j : Nat, diR.untagged tMixed j → fields1[j]? = [str "keep", str "old"][j]? :=
  ⟨rfl, fun field h => by
      have h1 : some ({ name := "Name", type := tString, di := none } : Field) = some field := h
      cases h1
      rfl,
    rfl,
    (C12_untagged_fields_kept diR (findArg diR 1) tMixed tMixed [str "keep", str "old"]
      argsNone [] (worldOf cMake) rfl).1 _ argsNone (worldOf cMake) rfl⟩

/-! ## C13: a halted injection -/

/-- When the field loop completes, `walkTemp` is the `tempValue` it returns. -/
theorem walkTemp_of_ok (R : Reflect) (find : FindArg) (fields : List Field) :
    ∀ (i : Nat) (temp temp1 : List Value) (a a1 : ArgumentsTypeMap) (w w1 : World),
      DIByArguments.walk R find fields i temp a w = (Except.ok (temp1, a1), w1) →
      DIByArguments.walkTemp R find fields i temp a w = temp1 := by
  induction fields with
  | nil =>
    intro i temp temp1 a a1 w w1 h
    simp only [DIByArguments.walk, Prod.mk.injEq, Except.ok.injEq] at h
    simp [DIByArguments.walkTemp, h.1.1]
  | cons field rest ih =>
    intro i temp temp1 a a1 w w1 h
    cases hres : DIByArguments.resolve R find field a w with
    | mk r w0 =>
      cases r with
      | error e => rw [walk_cons_error R find field rest i temp a w w0 e hres] at h; simp at h
      | ok va =>
        obtain ⟨v, a0⟩ := va
        cases ht : TypeOf v with
        | none =>
          have hv : v = Value.nil := by cases v <;> simp_all [TypeOf]
          subst hv
          rw [walk_cons_nil R find field rest i temp a a0 w w0 hres] at h
          rw [DIByArguments.walkTemp, hres]
          simp only [TypeOf]
          exact ih _ _ _ _ _ _ _ h
        | some ft =>
          rw [walk_cons_typed R find field rest i temp a a0 w w0 v ft hres ht] at h
          rw [DIByArguments.walkTemp, hres]
          simp only [ht]
          by_cases hc : R.convertibleTo ft field.type = true
          · rw [if_pos hc] at h ⊢
            exact ih _ _ _ _ _ _ _ h
          · rw [if_neg hc] at h
            simp at h

/-- C13 as stated fails: the assignments are made to `tempValue` and are
not visible in the target when the injection halts. On a `Pair` whose
fields hold `"old1"` and `"old2"`, with the string `"x"` under `"first"` and
a `DemoParam` under `"second"`, `DI` halts with the type-mismatch error at
`Second`; `tempValue` then holds `"x"` in `First`, and the target still
holds `"old1"`. -/
theorem C13_halted_injection_not_visible :
    DIByArguments diR (findArg diR 1) pairOld argsNone (worldOf cPair) =
      (Except.error (Err.typeMismatch "Second" "string" "DemoParam"), worldOf cPair) ∧
    DIByArguments.walkTemp diR (findArg diR 1) (diR.fields tPair) 0 [str "old1", str "old2"]
      argsNone (worldOf cPair) = [str "x", str "old2"] ∧
    DIByArguments.targetAfter diR (findArg diR 1) pairOld argsNone (worldOf cPair) =
      Value.ptr tPair (Value.struct tPair [str "old1", str "old2"]) ∧
    str "x" ≠ str "old1" := by
  refine ⟨rfl, rfl, rfl, by simp [str]⟩

/-- C13, amended: field assignment is made to a temporary copy that is
committed when the field loop has completed. When `DIByArguments` on a
pointer-to-struct target that is not a component halts with an error, the
type-mismatch error included, the target keeps all its prior field values,
whatever assignments the copy has received; when it completes, the target
holds the fields of the copy. -/
theorem C13_commit_at_end (R : Reflect) (find : FindArg) (elem ty : GoType)
    (fields : List Value) (a : ArgumentsTypeMap) (w : World)
    (hc : isComponent R (Value.ptr elem (Value.struct ty fields)) = false) :
    (∀ e w1, DIByArguments R find (Value.ptr elem (Value.struct ty fields)) a w
        = (Except.error e, w1) →
      DIByArguments.targetAfter R find (Value.ptr elem (Value.struct ty fields)) a w
        = Value.ptr elem (Value.struct ty fields)) ∧
    (∀ object1 a1 w1, DIByArguments R find (Value.ptr elem (Value.struct ty fields)) a w
        = (Except.ok (object1, a1), w1) →
      DIByArguments.targetAfter R find (Value.ptr elem (Value.struct ty fields)) a w
        = Value.ptr elem (Value.struct ty
            (DIByArguments.walkTemp R find (R.fields ty) 0 fields a w))) := by
  constructor
  · intro e w1 h
    simp [DIByArguments.targetAfter, h]
  · intro object1 a1 w1 h
    simp only [DIByArguments.targetAfter, h]
    rw [DIByArguments_struct R find elem ty fields a w hc] at h
    cases hw : DIByArguments.walk R find (R.fields ty) 0 fields a w with
    | mk r w0 =>
      rw [hw] at h
      cases r with
      | error e => simp at h
      | ok ta =>
        obtain ⟨temp, a2⟩ := ta
        simp only [Prod.mk.injEq, Except.ok.injEq] at h
        rw [walkTemp_of_ok R find (R.fields ty) 0 fields temp a a2 w w0 hw]
        exact h.1.1.symm

/-- C13, amended, at concrete inputs: the halted injection of the `Pair`
leaves it as it was, and with strings under both keys the injection
completes and both fields are replaced. -/
theorem C13_commit_at_end_witness :
    isComponent diR pairOld = false ∧
    DIByArguments diR (findArg diR 1) pairOld argsNone (worldOf cPair) =
      (Except.error (Err.typeMismatch "Second" "string" "DemoParam"), worldOf cPair) ∧
    DIByArguments.targetAfter diR (findArg diR 1) pairOld argsNone (worldOf cPair) = pairOld ∧
    DIByArguments.targetAfter diR (findArg diR 1) pairOld argsNone (worldOf cPairGood) =
      Value.ptr tPair (Value.struct tPair [str "x", str "y"]) :=
  ⟨rfl, rfl,
    (C13_commit_at_end diR (findArg diR 1) tPair tPair [str "old1", str "old2"] argsNone
      (worldOf cPair) rfl).1 _ (worldOf cPair) rfl,
    ((C13_commit_at_end diR (findArg diR 1) tPair tPair [str "old1", str "old2"] argsNone
      (worldOf cPairGood) rfl).2 _ argsNone (worldOf cPairGood) rfl).trans rfl⟩

/-! ## C14: the type-mismatch error -/

/-- The field loop over two lists in a row. -/
theorem walk_append (R : Reflect) (find : FindArg) (pre rest : List Field) :
    ∀ (i : Nat) (temp : List Value) (a : ArgumentsTypeMap) (w : World),
      DIByArguments.walk R find (pre ++ rest) i temp a w =
        match DIByArguments.walk R find pre i temp a w with
        | (Except.error e, w1) => (Except.error e, w1)
        | (Except.ok (temp1, a1), w1) =>
          DIByArguments.walk R find rest (i + pre.length) temp1 a1 w1 := by
  induction pre with
  | nil => intro i temp a w; simp [DIByArguments.walk]
  | cons field pre ih =>
    intro i temp a w
    have hlen : i + 1 + pre.length = i + (pre.length + 1) := by omega
    cases hres : DIByArguments.resolve R find field a w with
    | mk r w0 =>
      cases r with
      | error e =>
        rw [List.cons_append, walk_cons_error R find field _ i temp a w w0 e hres,
          walk_cons_error R find field _ i temp a w w0 e hres]
      | ok va =>
        obtain ⟨v, a0⟩ := va
        cases ht : TypeOf v with
        | none =>
          have hv : v = Value.nil := by cases v <;> simp_all [TypeOf]
          subst hv
          rw [List.cons_append, walk_cons_nil R find field _ i temp a a0 w w0 hres,
            walk_cons_nil R find field _ i temp a a0 w w0 hres, ih, List.length_cons, hlen]
        | some ft =>
          rw [List.cons_append, walk_cons_typed R find field _ i temp a a0 w w0 v ft hres ht,
            walk_cons_typed R find field _ i temp a a0 w w0 v ft hres ht]
          by_cases hc : R.convertibleTo ft field.type = true
          · rw [if_pos hc, if_pos hc, ih, List.length_cons, hlen]
          · rw [if_neg hc, if_neg hc]

/-- Where an error of the field loop comes from: the loop ran over the
fields before some field without error, and at that field either the
resolution raised the error, or it gave a value of a type not convertible
to the declared type and the error is the type mismatch. -/
theorem walk_error_origin (R : Reflect) (find : FindArg) (fields : List Field) :
    ∀ (i : Nat) (temp : List Value) (a : ArgumentsTypeMap) (w w1 : World) (e : Err),
      DIByArguments.walk R find fields i temp a w = (Except.error e, w1) →
      ∃ pre field post temp0 a0 w0, fields = pre ++ field :: post ∧
        DIByArguments.walk R find pre i temp a w = (Except.ok (temp0, a0), w0) ∧
        (DIByArguments.resolve R find field a0 w0 = (Except.error e, w1) ∨
          ∃ v a1 ft, DIByArguments.resolve R find field a0 w0 = (Except.ok (v, a1), w1) ∧
            TypeOf v = some ft ∧ R.convertibleTo ft field.type = false ∧
            e = Err.typeMismatch field.name (R.typeString field.type) (R.typeString ft)) := by
  induction fields with
  | nil => intro i temp a w w1 e h; simp [DIByArguments.walk] at h
  | cons field rest ih =>
    intro i temp a w w1 e h
    cases hres : DIByArguments.resolve R find field a w with
    | mk r w0 =>
      cases r with
      | error e0 =>
        rw [walk_cons_error R find field rest i temp a w w0 e0 hres] at h
        simp only [Prod.mk.injEq, Except.error.injEq] at h
        obtain ⟨h1, h2⟩ := h
        subst h1
        subst h2
        exact ⟨[], field, rest, temp, a, w, rfl, rfl, Or.inl hres⟩
      | ok va =>
        obtain ⟨v, a0⟩ := va
        cases ht : TypeOf v with
        | none =>
          have hv : v = Value.nil := by cases v <;> simp_all [TypeOf]
          subst hv
          rw [walk_cons_nil R find field rest i temp a a0 w w0 hres] at h
          obtain ⟨pre, f, post, temp0, a1, w2, hf, hw, ho⟩ := ih _ _ _ _ _ _ h
          refine ⟨field :: pre, f, post, temp0, a1, w2, by rw [hf]; rfl, ?_, ho⟩
          rw [walk_cons_nil R find field pre i temp a a0 w w0 hres]
          exact hw
        | some ft =>
          rw [walk_cons_typed R find field rest i temp a a0 w w0 v ft hres ht] at h
          by_cases hc : R.convertibleTo ft field.type = true
          · rw [if_pos hc] at h
            obtain ⟨pre, f, post, temp0, a1, w2, hf, hw, ho⟩ := ih _ _ _ _ _ _ h
            refine ⟨field :: pre, f, post, temp0, a1, w2, by rw [hf]; rfl, ?_, ho⟩
            rw [walk_cons_typed R find field pre i temp a a0 w w0 v ft hres ht, if_pos hc]
            exact hw
          · rw [if_neg hc] at h
            simp only [Prod.mk.injEq, Except.error.injEq] at h
            obtain ⟨h1, h2⟩ := h
            subst h2
            refine ⟨[], field, rest, temp, a, w, rfl, rfl, Or.inr ⟨v, a0, ft, hres, ht, ?_, h1.symm⟩⟩
            simpa using hc

/-- A field that resolves to a value or whose resolution fails carries a
`di` tag. -/
theorem tagged_of_resolve (R : Reflect) (find : FindArg) (field : Field)
    (a : ArgumentsTypeMap) (w : World)
    (h : DIByArguments.resolve R find field a w ≠ (Except.ok (Value.nil, a), w)) :
    field.di ≠ none := by
  intro hdi
  apply h
  simp [DIByArguments.resolve, hdi]

/-- C14: for every pointer-to-struct target that is not a component.
(1) When, the fields before it having been walked without error, a field
resolves to a non-nil value whose runtime type is not convertible to the
declared type, `DIByArguments` raises the type-mismatch error with the name
of that field, its declared type and the resolved type; when the type is
convertible the loop goes on with the field assigned the value, converted
to the declared type when its type key differs from that of the field and
unconverted otherwise. (2) Conversely every error of `DIByArguments` on
such a target arises at a field that carries a `di` tag, reached without
error: it is either the error that the resolution of that field raised, or
the type-mismatch error for the value that field resolved to. -/
theorem C14_type_mismatch (R : Reflect) (find : FindArg) (elem ty : GoType)
    (fields : List Value) (a : ArgumentsTypeMap) (w : World)
    (hc : isComponent R (Value.ptr elem (Value.struct ty fields)) = false) :
    (∀ pre field post temp0 a0 w0 v a1 w1 ft, R.fields ty = pre ++ field :: post →
      DIByArguments.walk R find pre 0 fields a w = (Except.ok (temp0, a0), w0) →
      DIByArguments.resolve R find field a0 w0 = (Except.ok (v, a1), w1) →
      TypeOf v = some ft →
      (R.convertibleTo ft field.type = false →
        DIByArguments R find (Value.ptr elem (Value.struct ty fields)) a w =
          (Except.error (Err.typeMismatch field.name (R.typeString field.type)
            (R.typeString ft)), w1)) ∧
      (R.convertibleTo ft field.type = true →
        DIByArguments.walk R find (pre ++ [field]) 0 fields a w =
          (Except.ok (temp0.set pre.length
            (if R.typeKey field.type ≠ R.typeKey ft then R.convert v field.type else v), a1),
            w1))) ∧
    (∀ e w1, DIByArguments R find (Value.ptr elem (Value.struct ty fields)) a w
        = (Except.error e, w1) →
      ∃ pre field post temp0 a0 w0, R.fields ty = pre ++ field :: post ∧
        DIByArguments.walk R find pre 0 fields a w = (Except.ok (temp0, a0), w0) ∧
        field.di ≠ none ∧
        (DIByArguments.resolve R find field a0 w0 = (Except.error e, w1) ∨
          ∃ v a1 ft, DIByArguments.resolve R find field a0 w0 = (Except.ok (v, a1), w1) ∧
            TypeOf v = some ft ∧ R.convertibleTo ft field.type = false ∧
            e = Err.typeMismatch field.name (R.typeString field.type) (R.typeString ft))) := by
  constructor
  · intro pre field post temp0 a0 w0 v a1 w1 ft hf hw hres ht
    constructor
    · intro hconv
      rw [DIByArguments_struct R find elem ty fields a w hc, hf, walk_append, hw]
      simp only []
      rw [walk_cons_typed R find field post _ temp0 a0 a1 w0 w1 v ft hres ht]
      simp [hconv]
    · intro hconv
      rw [walk_append, hw]
      simp only []
      rw [walk_cons_typed R find field [] _ temp0 a0 a1 w0 w1 v ft hres ht, if_pos hconv]
      simp [DIByArguments.walk]
  · intro e w1 h
    rw [DIByArguments_struct R find elem ty fields a w hc] at h
    cases hw : DIByArguments.walk R find (R.fields ty) 0 fields a w with
    | mk r w0 =>
      rw [hw] at h
      cases r with
      | ok ta => simp at h
      | error e0 =>
        simp only [Prod.mk.injEq, Except.error.injEq] at h
        obtain ⟨h1, h2⟩ := h
        subst h1
        subst h2
        obtain ⟨pre, field, post, temp0, a0, w2, hf, hpre, ho⟩ :=
          walk_error_origin R find (R.fields ty) 0 fields a w w0 e0 hw
        refine ⟨pre, field, post, temp0, a0, w2, hf, hpre, ?_, ho⟩
        apply tagged_of_resolve R find field a0 w2
        rcases ho with ho | ⟨v, a1, ft, ho, ht, _, _⟩
        · rw [ho]; simp
        · rw [ho]
          intro hEq
          simp only [Prod.mk.injEq, Except.ok.injEq] at hEq
          rw [hEq.1.1] at ht
          simp [TypeOf] at ht

/-- C14 at a concrete input: on the `Pair`, with a `DemoParam` under
`"second"`, the field `First` is walked without error, `Second` resolves to
a `DemoParam`, which is not convertible to `string`, and `DIByArguments`
raises the type-mismatch error that names `Second`, `string` and
`DemoParam`. -/
theorem C14_type_mismatch_witness :
    isComponent diR pairOld = false ∧
    diR.fields tPair = [fieldFirst] ++ fieldSecond :: [] ∧
    DIByArguments.walk diR (findArg diR 1) [fieldFirst] 0 [str "old1", str "old2"] argsNone
      (worldOf cPair) = (Except.ok ([str "x", str "old2"], argsNone), worldOf cPair) ∧
    DIByArguments.resolve diR (findArg diR 1) fieldSecond argsNone (worldOf cPair)
      = (Except.ok (demoParam "bad", argsNone), worldOf cPair) ∧
    diR.convertibleTo tDemoParam fieldSecond.type = false ∧
    DIByArguments diR (findArg diR 1) pairOld argsNone (worldOf cPair) =
      (Except.error (Err.typeMismatch "Second" "string" "DemoParam"), worldOf cPair) :=
  ⟨rfl, rfl, rfl, rfl, rfl,
    ((C14_type_mismatch diR (findArg diR 1) tPair tPair [str "old1", str "old2"] argsNone
      (worldOf cPair) rfl).1 [fieldFirst] fieldSecond [] [str "x", str "old2"] argsNone
      (worldOf cPair) (demoParam "bad") argsNone (worldOf cPair) tDemoParam rfl rfl rfl rfl).1
      rfl⟩

/-! ## Resolution only caches singletons -/

theorem onlyCaches_refl (w : World) : OnlyCaches w w := ⟨SameRegs.refl w, fun _ _ => rfl⟩

theorem onlyCaches_trans {w w1 w2 : World} (h1 : OnlyCaches w w1) (h2 : OnlyCaches w1 w2) :
    OnlyCaches w w2 :=
  ⟨h1.1.trans h2.1, fun key hk => by
    have hs : w1.container.singletons = w.container.singletons := h1.1.2.2
    have hk1 : w1.container.singletons key = none := by rw [hs]; exact hk
    rw [h2.2 key hk1, h1.2 key hk]⟩

theorem onlyCaches_withLog {w w1 : World} (h : OnlyCaches w w1) (log : List Event) :
    OnlyCaches w { w1 with log := log } := h

/-- Caching under a key that holds a singleton factory. -/
theorem onlyCaches_cache {w w1 : World} (h : OnlyCaches w w1) (key : String) (v : Value)
    (s : MagicalFunc) (hs : w.container.singletons key = some s) :
    OnlyCaches w (w1.storeInstance key v) := by
  refine ⟨h.1, fun k hk => ?_⟩
  have hne : k ≠ key := by
    intro e
    rw [e, hs] at hk
    simp at hk
  simp only [World.storeInstance]
  rw [store_other _ _ _ _ hne]
  exact h.2 k hk

theorem collect_onlyCaches (R : Reflect) (find : FindArg)
    (hfind : ∀ key p a w, OnlyCaches w (find key p a w).2) (params : List GoType) :
    ∀ fnArgs a w, OnlyCaches w (StaticCallByArguments.collect R find params fnArgs a w).2 := by
  induction params with
  | nil => intro fnArgs a w; exact onlyCaches_refl w
  | cons arg rest ih =>
    intro fnArgs a w
    have h1 := hfind (R.typeKey arg) arg a w
    unfold StaticCallByArguments.collect
    cases h : find (R.typeKey arg) arg a w with
    | mk r w1 =>
      rw [h] at h1
      cases r with
      | error e => exact h1
      | ok va => exact onlyCaches_trans h1 (ih _ _ w1)

theorem StaticCallByArguments_onlyCaches (R : Reflect) (find : FindArg)
    (hfind : ∀ key p a w, OnlyCaches w (find key p a w).2) (m : MagicalFunc)
    (a : ArgumentsTypeMap) (w : World) :
    OnlyCaches w (StaticCallByArguments R find m a w).2 := by
  have h1 := collect_onlyCaches R find hfind m.arguments [] a w
  unfold StaticCallByArguments
  cases h : StaticCallByArguments.collect R find m.arguments [] a w with
  | mk r w1 =>
    rw [h] at h1
    cases r with
    | error e => exact h1
    | ok va => exact h1

theorem Call_magical_onlyCaches (R : Reflect) (find : FindArg)
    (hfind : ∀ key p a w, OnlyCaches w (find key p a w).2) (m : MagicalFunc)
    (args : List Value) (w : World) :
    OnlyCaches w (Call R find (Fn.magical m) args w).2 := by
  simp only [Call, StaticCall]
  cases NewArgumentsTypeMap R (args ++ [Value.container]) with
  | error e => exact onlyCaches_refl w
  | ok a =>
    have h1 := StaticCallByArguments_onlyCaches R find hfind m a w
    simp only []
    cases h : StaticCallByArguments R find m a w with
    | mk r w1 =>
      rw [h] at h1
      cases r with
      | error e => exact h1
      | ok va => exact h1

theorem Get_onlyCaches (R : Reflect) (find : FindArg)
    (hfind : ∀ key p a w, OnlyCaches w (find key p a w).2) (key : String) (args : List Value)
    (w : World) : OnlyCaches w (Get R find key args w).2 := by
  cases hi : w.container.instances (w.container.GetKey key) with
  | some v => rw [Get_instance R find key args w v hi]; exact onlyCaches_refl w
  | none =>
    cases hs : w.container.singletons (w.container.GetKey key) with
    | some m =>
      rw [Get_singleton R find key args w m hi hs]
      have h1 := Call_magical_onlyCaches R find hfind m args w
      cases h : Call R find (Fn.magical m) args w with
      | mk r w1 =>
        rw [h] at h1
        cases r with
        | error e => exact h1
        | ok results =>
          cases results with
          | nil => exact h1
          | cons value rest => exact onlyCaches_cache h1 _ value m hs
    | none =>
      cases hb : w.container.binds (w.container.GetKey key) with
      | some m =>
        rw [Get_bind R find key args w m hi hs hb]
        have h1 := Call_magical_onlyCaches R find hfind m args w
        cases h : Call R find (Fn.magical m) args w with
        | mk r w1 =>
          rw [h] at h1
          cases r with
          | error e => exact h1
          | ok results =>
            cases results with
            | nil => exact h1
            | cons value rest => exact h1
      | none => rw [Get_none R find key args w hi hs hb]; exact onlyCaches_refl w

theorem GetByArguments_onlyCaches (R : Reflect) (find : FindArg)
    (hfind : ∀ key p a w, OnlyCaches w (find key p a w).2) (key : String)
    (a : ArgumentsTypeMap) (w : World) : OnlyCaches w (GetByArguments R find key a w).2 := by
  cases hi : w.container.instances (w.container.GetKey key) with
  | some v => rw [GetByArguments_instance R find key a w v hi]; exact onlyCaches_refl w
  | none =>
    cases hs : w.container.singletons (w.container.GetKey key) with
    | some m =>
      rw [GetByArguments_singleton R find key a w m hi hs]
      have h1 := StaticCallByArguments_onlyCaches R find hfind m a w
      cases h : StaticCallByArguments R find m a w with
      | mk r w1 =>
        rw [h] at h1
        cases r with
        | error e => exact h1
        | ok ra =>
          obtain ⟨results, a1⟩ := ra
          cases results with
          | nil => exact h1
          | cons value rest => exact onlyCaches_cache h1 _ value m hs
    | none =>
      cases hb : w.container.binds (w.container.GetKey key) with
      | some m =>
        rw [GetByArguments_bind R find key a w m hi hs hb]
        have h1 := StaticCallByArguments_onlyCaches R find hfind m a w
        cases h : StaticCallByArguments R find m a w with
        | mk r w1 =>
          rw [h] at h1
          cases r with
          | error e => exact h1
          | ok ra =>
            obtain ⟨results, a1⟩ := ra
            cases results with
            | nil => exact h1
            | cons value rest => exact h1
      | none => rw [GetByArguments_none R find key a w hi hs hb]; exact onlyCaches_refl w

theorem resolve_onlyCaches (R : Reflect) (find : FindArg)
    (hfind : ∀ key p a w, OnlyCaches w (find key p a w).2) (field : Field)
    (a : ArgumentsTypeMap) (w : World) :
    OnlyCaches w (DIByArguments.resolve R find field a w).2 := by
  unfold DIByArguments.resolve
  simp only []
  cases field.di with
  | none => exact onlyCaches_refl w
  | some di =>
    cases di with
    | nil => exact hfind _ _ _ w
    | cons k ks =>
      have h1 := Get_onlyCaches R find hfind k [] w
      simp only []
      cases h : Get R find k [] w with
      | mk r w1 =>
        rw [h] at h1
        cases r with
        | error e => exact h1
        | ok v =>
          simp only []
          cases v.isNil with
          | true => exact onlyCaches_trans h1 (hfind _ _ _ w1)
          | false => exact h1

theorem walk_onlyCaches (R : Reflect) (find : FindArg)
    (hfind : ∀ key p a w, OnlyCaches w (find key p a w).2) (fields : List Field) :
    ∀ i temp a w, OnlyCaches w (DIByArguments.walk R find fields i temp a w).2 := by
  induction fields with
  | nil => intro i temp a w; exact onlyCaches_refl w
  | cons field rest ih =>
    intro i temp a w
    have h1 := resolve_onlyCaches R find hfind field a w
    unfold DIByArguments.walk
    cases h : DIByArguments.resolve R find field a w with
    | mk r w1 =>
      rw [h] at h1
      cases r with
      | error e => exact h1
      | ok va =>
        obtain ⟨v, a1⟩ := va
        simp only []
        cases TypeOf v with
        | none => exact onlyCaches_trans h1 (ih _ _ _ w1)
        | some fieldType =>
          simp only []
          by_cases hc : R.convertibleTo fieldType field.type = true
          · rw [if_pos hc]; exact onlyCaches_trans h1 (ih _ _ _ w1)
          · rw [if_neg hc]; exact h1

theorem DIByArguments_onlyCaches (R : Reflect) (hR : R.constructOnlyCaches) (find : FindArg)
    (hfind : ∀ key p a w, OnlyCaches w (find key p a w).2) (object : Value)
    (a : ArgumentsTypeMap) (w : World) : OnlyCaches w (DIByArguments R find object a w).2 := by
  unfold DIByArguments
  by_cases hc : isComponent R object = true
  · rw [if_pos hc]
    have h1 := hR object w
    cases h : R.construct object w.container with
    | mk r c1 =>
      rw [h] at h1
      cases r with
      | error e => exact h1
      | ok o => exact h1
  · rw [if_neg hc]
    cases object with
    | nil => exact onlyCaches_refl w
    | scalar ty s => exact onlyCaches_refl w
    | struct ty fs => exact onlyCaches_refl w
    | container => exact onlyCaches_refl w
    | ptr elem target =>
      cases target with
      | nil => exact onlyCaches_refl w
      | scalar ty s => exact onlyCaches_refl w
      | ptr e t => exact onlyCaches_refl w
      | container => exact onlyCaches_refl w
      | struct valueType fields =>
        have h1 := walk_onlyCaches R find hfind (R.fields valueType) 0 fields a w
        simp only []
        cases h : DIByArguments.walk R find (R.fields valueType) 0 fields a w with
        | mk r w1 =>
          rw [h] at h1
          cases r with
          | error e => exact h1
          | ok ta => exact h1

theorem loop_onlyCaches (providers : List Provider)
    (hp : ∀ provider ∈ providers, ∀ key p a w, OnlyCaches w (provider key p a w).2) :
    ∀ key p a w, OnlyCaches w (findArg.loop providers key p a w).2 := by
  induction providers with
  | nil => intro key p a w; exact onlyCaches_refl w
  | cons provider rest ih =>
    intro key p a w
    have h1 := hp provider (List.mem_cons_self _ _) key p a w
    have ih1 := ih (fun q hq => hp q (List.mem_cons_of_mem _ hq))
    unfold findArg.loop
    cases h : provider key p a w with
    | mk r w1 =>
      rw [h] at h1
      cases r with
      | error e => exact h1
      | ok va =>
        obtain ⟨v, a1⟩ := va
        simp only []
        cases v.isNil with
        | true => exact onlyCaches_trans h1 (ih1 key p a1 w1)
        | false => exact h1

theorem providerNew_onlyCaches (R : Reflect) (hR : R.constructOnlyCaches) (find : FindArg)
    (hfind : ∀ key p a w, OnlyCaches w (find key p a w).2) (key : String) (p : GoType)
    (a : ArgumentsTypeMap) (w : World) : OnlyCaches w (providerNew R find key p a w).2 := by
  unfold providerNew
  simp only []
  generalize (if p.isPtr = true then Value.ptr p.Elem (R.zero p.Elem)
    else Value.ptr p (R.zero p)) = object
  have h1 := DIByArguments_onlyCaches R hR find hfind object a w
  cases h : DIByArguments R find object a w with
  | mk r w1 =>
    rw [h] at h1
    cases r with
    | error e => exact h1
    | ok va =>
      simp only []
      cases p.isPtr with
      | true => exact h1
      | false => exact h1

theorem argProviders_onlyCache (R : Reflect) (hR : R.constructOnlyCaches) (find : FindArg)
    (hfind : ∀ key p a w, OnlyCaches w (find key p a w).2) :
    ∀ provider ∈ argProviders R find, ∀ key p a w, OnlyCaches w (provider key p a w).2 := by
  intro provider hmem key p a w
  simp only [argProviders, List.mem_cons, List.mem_singleton, List.not_mem_nil, or_false] at hmem
  rcases hmem with h | h | h | h
  · subst h; exact onlyCaches_refl w
  · subst h
    unfold providerConvertible
    cases FindConvertibleArg R a key p with
    | error e => exact onlyCaches_refl w
    | ok v => exact onlyCaches_refl w
  · subst h; exact GetByArguments_onlyCaches R find hfind key a w
  · subst h; exact providerNew_onlyCaches R hR find hfind key p a w

/-- Resolution only caches singletons: `findArg`, at every depth, changes
no registration and no instance under a key without singleton factory,
when no `Construct` method does. -/
theorem findArg_onlyCaches (R : Reflect) (hR : R.constructOnlyCaches) (fuel : Nat) :
    ∀ key p a w, OnlyCaches w (findArg R fuel key p a w).2 := by
  induction fuel with
  | zero => intro key p a w; exact onlyCaches_refl w
  | succ n ih =>
    intro key p a w
    exact loop_onlyCaches (argProviders R (findArg R n))
      (argProviders_onlyCache R hR (findArg R n) ih) key p a w

/-! ## C16: bindings -/

/-- C16 as stated fails: a `Get` on a key that holds only a binding can
change the instance store. With `func() string` as a singleton under `"S"`
and `func(s string) DemoParam` bound under `"B"`, `Get("B")` resolves the
parameter through the singleton, whose result it caches: the instance store,
empty under `"S"` before the call, holds `"made"` under `"S"` after it. -/
theorem C16_binding_caches_singleton :
    cTransient.instances (cTransient.GetKey "B") = none ∧
    (cTransient.singletons (cTransient.GetKey "B")).isSome = false ∧
    (cTransient.binds (cTransient.GetKey "B")).isSome = true ∧
    cTransient.instances "S" = none ∧
    (Get exR (findArg exR 1) "B" [] (worldOf cTransient)).1 = Except.ok (demoParam "made") ∧
    (Get exR (findArg exR 1) "B" [] (worldOf cTransient)).2.container.instances "S"
      = some (str "made") ∧
    (Get exR (findArg exR 1) "B" [] (worldOf cTransient)).2.log
      = [Event.invoke 1 [], Event.invoke 8 [str "made"]] := by
  refine ⟨rfl, rfl, rfl, rfl, rfl, rfl, rfl⟩

/-- A `Get` that goes through a binding without parameters. -/
theorem Get_bind_noParams (R : Reflect) (find : FindArg) (key : String) (args : List Value)
    (c : Container) (log : List Event) (b : MagicalFunc) (v : Value) (rest : List Value)
    (hi : c.instances (c.GetKey key) = none) (hs : c.singletons (c.GetKey key) = none)
    (hb : c.binds (c.GetKey key) = some b) (hargs : ∀ x ∈ args, (TypeOf x).isSome)
    (hp : b.arguments = []) (hcall : b.call [] = v :: rest) :
    Get R find key args { container := c, log := log } =
      (Except.ok v, { container := c, log := log ++ [Event.invoke b.id []] }) := by
  have hall : ∀ x ∈ args ++ [Value.container], (TypeOf x).isSome := by
    intro x hx
    simp only [List.mem_append, List.mem_singleton] at hx
    rcases hx with h | h
    · exact hargs x h
    · rw [h]; rfl
  obtain ⟨a, ha⟩ := loop_ok R (args ++ [Value.container]) hall []
  have ha1 : NewArgumentsTypeMap R (args ++ [Value.container]) = Except.ok a := ha
  rw [Get_bind R find key args { container := c, log := log } b hi hs hb]
  simp [Call, StaticCall, ha1, StaticCallByArguments, hp, StaticCallByArguments.collect, hcall]

theorem GetRepeat_bind_noParams (R : Reflect) (find : FindArg) (key : String)
    (args : List Value) (c : Container) (b : MagicalFunc) (v : Value) (rest : List Value)
    (hi : c.instances (c.GetKey key) = none) (hs : c.singletons (c.GetKey key) = none)
    (hb : c.binds (c.GetKey key) = some b) (hargs : ∀ x ∈ args, (TypeOf x).isSome)
    (hp : b.arguments = []) (hcall : b.call [] = v :: rest) (n : Nat) :
    ∀ log, GetRepeat R find key args n { container := c, log := log } =
      (List.replicate n (Except.ok v),
        { container := c, log := log ++ List.replicate n (Event.invoke b.id []) }) := by
  induction n with
  | zero => intro log; simp [GetRepeat]
  | succ n ih =>
    intro log
    rw [GetRepeat, Get_bind_noParams R find key args c log b v rest hi hs hb hargs hp hcall]
    simp only []
    rw [ih]
    simp [List.replicate_succ]

/-- C16, amended: let the canonical key of `key` hold only a binding `b` (no
instance, no singleton factory), in a program whose `Construct` methods
change no registration and no instance. (1) Each `Get` on that key that
returns has invoked `b` as its last step and returns its first result; it
leaves the bindings, the singleton factories and the alias table unchanged,
and the instance store unchanged under every key that holds no singleton
factory; the key still holds only the binding, so that the next `Get`
invokes `b` again. (2) When `b` has no parameters and the supplied arguments
are not nil, every `Get` returns, invokes `b` exactly once and leaves the
whole container unchanged, and `n` consecutive `Get`s invoke it exactly `n`
times. -/
theorem C16_binding_transient (R : Reflect) (fuel : Nat) (key : String) (args : List Value)
    (c : Container) (log : List Event) (b : MagicalFunc) (n : Nat)
    (hR : R.constructOnlyCaches)
    (hi : c.instances (c.GetKey key) = none) (hs : c.singletons (c.GetKey key) = none)
    (hb : c.binds (c.GetKey key) = some b) :
    (∀ v w1, Get R (findArg R fuel) key args { container := c, log := log } = (Except.ok v, w1) →
      (∃ fnArgs, (b.call fnArgs).head? = some v ∧
        w1.log.getLast? = some (Event.invoke b.id fnArgs)) ∧
      OnlyCaches { container := c, log := log } w1 ∧
      w1.container.instances (w1.container.GetKey key) = none ∧
      w1.container.singletons (w1.container.GetKey key) = none ∧
      w1.container.binds (w1.container.GetKey key) = some b) ∧
    (b.arguments = [] → (∀ x ∈ args, (TypeOf x).isSome) → ∀ v rest, b.call [] = v :: rest →
      GetRepeat R (findArg R fuel) key args n { container := c, log := log } =
        (List.replicate n (Except.ok v),
          { container := c, log := log ++ List.replicate n (Event.invoke b.id []) })) := by
  constructor
  · intro v w1 h
    have hinv := Get_onlyCaches R (findArg R fuel) (findArg_onlyCaches R hR fuel) key args
      { container := c, log := log }
    rw [h] at hinv
    have hk : w1.container.GetKey key = c.GetKey key := GetKey_congr c w1.container hinv.1.1 key
    refine ⟨Get_bind_ok R (findArg R fuel) key args _ w1 b v hi hs hb h, hinv, ?_, ?_, ?_⟩
    · rw [hk, hinv.2 (c.GetKey key) hs]; exact hi
    · have h2 : w1.container.singletons = c.singletons := hinv.1.2.2
      rw [hk, h2]; exact hs
    · have h2 : w1.container.binds = c.binds := hinv.1.2.1
      rw [hk, h2]; exact hb
  · intro hp hargs v rest hcall
    exact GetRepeat_bind_noParams R (findArg R fuel) key args c b v rest hi hs hb hargs hp hcall
      n log

/-- C16, amended, at a concrete input: the binding `func() string` under
`"r"`; three consecutive `Get("r")` return `"bound"` and invoke it three
times, leaving the container as it was. -/
theorem C16_binding_transient_witness :
    exR.constructOnlyCaches ∧
    cPrec.instances (cPrec.GetKey "r") = none ∧
    (cPrec.singletons (cPrec.GetKey "r")).isSome = false ∧
    GetRepeat exR (findArg exR 1) "r" [] 3 { container := cPrec, log := [] } =
      (List.replicate 3 (Except.ok (str "bound")),
        { container := cPrec, log := [] ++ List.replicate 3 (Event.invoke fnBound.id []) }) :=
  have hR : exR.constructOnlyCaches := fun _ w =>
    ⟨⟨rfl, rfl, rfl⟩, fun _ _ => rfl⟩
  ⟨hR, rfl, rfl,
    (C16_binding_transient exR 1 "r" [] cPrec [] fnBound 3 hR rfl rfl rfl).2 rfl
      (fun x hx => by simp at hx) (str "bound") [] rfl⟩

end Goal
